import Mathlib

/-!
Verification development for `torch/jit/_recursive.py`: structural type
inference over `nn.Module` objects, the type-sharing cache
(`ConcreteTypeStore`), recursive script-module construction, method
selection, and the constant-iterable container path.

The Python code is embedded shallowly: dynamic `nn.Module` instances become
the inductive `Module`; the pybind `torch._C.ConcreteModuleType` (whose C++
implementation is outside this repository) is modelled from the spec as
`ConcreteMT`; the process-wide `ConcreteTypeStore` plus the backend type
allocator become an explicit `Store` value threaded through every function.
Python exceptions become `Except JitErr`; unbounded recursion over the
module tree is bounded by an explicit fuel parameter (the code performs no
cycle detection, so a cyclic module graph genuinely diverges; fuel
exhaustion is the error `JitErr.outOfFuel`).

Scope notes:
  * floats appearing in constants are carried as opaque payloads (no
    floating-point arithmetic is ever performed by this code path);
  * Python set iteration order is modelled as insertion order;
  * state mutations performed before an exception are dropped together with
    the state (claims here only concern error identity and success states);
  * `wrap_cpp_module`, `try_compile_fn`, `compile_unbound_method` and
    `lazy_bind` are not modelled: no claim mentions them and nothing in the
    modelled call graph reaches them.
-/

namespace TorchJit

/-- A JIT static type, as produced by the annotation translator or runtime
type inspection.  `interfaceTy` models `torch._C.InterfaceType` (an abstract
method-name set); every other inferred type is collapsed into `tensor` or a
named primitive, which is all this file ever inspects. -/
inductive Ty where
  | tensor : Ty
  | interfaceTy : List String → Ty
  | prim : String → Ty
deriving DecidableEq, Repr

/-- A Python function object, carrying its `__name__`, an identity used for
its closure / resolution callback, whether `torch.jit.script` succeeds on it,
and the type `_jit_try_infer_type` reports for the scripted function. -/
structure FuncDef where
  fname : String
  fid : Nat
  scriptable : Bool
  scriptedTy : Option Ty
deriving DecidableEq, Repr

/-- A per-attribute type annotation.  `finalTy` models `Final[T]`;
`untrans` models an annotation the translator cannot convert. -/
inductive Ann where
  | ofTy : Ty → Ann
  | finalTy : Ty → Ann
  | untrans : String → Ann
deriving DecidableEq, Repr

/-- Modelled from the spec: `annotationToType(annotation) -> inferred type
or none` (the annotation translator is an external collaborator). -/
def ann_to_type : Ann → Option Ty
  | .ofTy t => some t
  | .finalTy t => some t
  | .untrans _ => none

/-- Modelled from the spec: `torch._jit_internal.is_final` recognises
`Final[T]` annotations. -/
def is_final : Ann → Bool
  | .finalTy _ => true
  | _ => false

mutual
/-- A Python runtime value, as far as this file inspects one. -/
inductive PyVal where
  | vBool : Bool → PyVal
  | vInt : Int → PyVal
  | vFloat : Nat → PyVal
  | vStr : String → PyVal
  | vNone : PyVal
  | vFunc : FuncDef → PyVal
  | vBoundMethod : FuncDef → PyVal
  | vDevice : String → PyVal
  | vLayout : Nat → PyVal
  | vDtype : Nat → PyVal
  | vTuple : PyValList → PyVal
  | vList : PyValList → PyVal
  | vTensor : Nat → PyVal
  | vScriptFn : FuncDef → Option Ty → PyVal
  | vJitAttr : Ann → PyVal → PyVal
  | vOther : String → Option Ty → PyVal
inductive PyValList where
  | nil : PyValList
  | cons : PyVal → PyValList → PyValList
end

deriving instance DecidableEq for PyVal, PyValList
deriving instance Repr for PyVal, PyValList

/-- `type(v).__name__` for the values above. -/
def PyVal.typeName : PyVal → String
  | .vBool _ => "bool"
  | .vInt _ => "int"
  | .vFloat _ => "float"
  | .vStr _ => "str"
  | .vNone => "NoneType"
  | .vFunc _ => "function"
  | .vBoundMethod _ => "method"
  | .vDevice _ => "device"
  | .vLayout _ => "layout"
  | .vDtype _ => "dtype"
  | .vTuple _ => "tuple"
  | .vList _ => "list"
  | .vTensor _ => "Tensor"
  | .vScriptFn _ _ => "ScriptFunction"
  | .vJitAttr _ _ => "Attribute"
  | .vOther n _ => n

/-- Modelled from the spec: `torch._C._jit_try_infer_type` (runtime type
inspection, an external collaborator): tensors and scalars infer, `None`,
`list` and module objects do not (the source comments at lines 225-226 of
`_recursive.py` note `list` and `NoneType` fail to convert). -/
def jit_try_infer_type : PyVal → Option Ty
  | .vBool _ => some (.prim "bool")
  | .vInt _ => some (.prim "int")
  | .vFloat _ => some (.prim "float")
  | .vStr _ => some (.prim "str")
  | .vNone => none
  | .vFunc _ => none
  | .vBoundMethod _ => none
  | .vDevice _ => some (.prim "Device")
  | .vLayout _ => some (.prim "layout")
  | .vDtype _ => some (.prim "dtype")
  | .vTuple _ => none
  | .vList _ => none
  | .vTensor _ => some .tensor
  | .vScriptFn _ t => t
  | .vJitAttr _ _ => none
  | .vOther _ t => t

/-- The identity of a Python runtime class (`type(nn_module)`), together
with the `isinstance` facts this file tests. -/
structure PyClass where
  cid : Nat
  cname : String
  isModuleDict : Bool
  isModuleList : Bool
  isSequential : Bool
  isConstModuleList : Bool
  isConstModuleDict : Bool
deriving DecidableEq, Repr

/-- `isinstance(nn_module, (torch.nn.ModuleList, torch.nn.Sequential,
torch.nn.ModuleDict))`, the container test of
`get_or_create_concrete_type`, `recursive_script` and
`create_constant_iterable_module`. -/
def containerClass (c : PyClass) : Bool :=
  c.isModuleList || c.isSequential || c.isModuleDict

/-- An entry of the instance `__dict__` (or a class-level data attribute /
property) visible to the remaining-attribute scan.  `inDict` is membership
in `nn_module.__dict__`; `isProp` whether the class attribute of the same
name is a `property` (line 181 of the source skips entries with neither). -/
structure RestAttr where
  aname : String
  value : PyVal
  inDict : Bool
  isProp : Bool
deriving DecidableEq, Repr

/-- A method defined on the runtime class: the underlying function, the
`@torch.jit.export` / `@torch.jit.ignore` modifiers, whether it is exactly
`torch.nn.Module.forward` (the base no-op default), whether it has a
`__module__` (tested by `get_overload_annotations`), and any
`@torch.jit._overload_method` declarations attached to it. -/
structure MethodDecl where
  fn : FuncDef
  exported : Bool
  ignored : Bool
  baseDefault : Bool
  hasModule : Bool
  overloadDecls : List FuncDef
deriving DecidableEq, Repr

/-- `ScriptMethodStub = namedtuple(..., ('resolution_callback', 'def_',
'original_method'))`.  The JIT AST `def_` is represented by the one piece of
it this file reads, `def_.name().name`. -/
structure ScriptMethodStub where
  resolution_callback : Nat
  defName : String
  original_method : Option FuncDef
deriving DecidableEq, Repr

/-- The kind of wrapper produced: an ordinary `RecursiveScriptModule` or one
of the three constant-container forms of `create_constant_iterable_module`. -/
inductive RSKind where
  | plainModule : RSKind
  | constSequential : RSKind
  | constModuleList : RSKind
  | constModuleDict : RSKind
deriving DecidableEq, Repr

mutual
/-- An `nn.Module` instance: `_parameters`, `_buffers`, `_modules`, class
`__annotations__`, the `__constants__` attribute (`none` when the attribute
is absent), the `__overloads__` attribute (`none` when absent), the
remaining instance/class data attributes in `dir` order, the class methods,
and whether `nn.Module.__init__` ran (so `_parameters` exists). -/
inductive Module where
  | mk : (cls : PyClass)
      → (params : List (String × Option PyVal))
      → (buffers : List (String × Option PyVal))
      → (submods : SubmoduleList)
      → (annots : List (String × Ann))
      → (constantsDecl : Option (List String))
      → (overloadsDecl : Option (List (String × List String)))
      → (rest : List RestAttr)
      → (methods : List (String × MethodDecl))
      → (inited : Bool)
      → Module
/-- `nn_module._modules`, an ordered name-to-submodule mapping. -/
inductive SubmoduleList where
  | nil : SubmoduleList
  | cons : String → Component → SubmoduleList → SubmoduleList
/-- A value stored in `_modules`: a plain `nn.Module` or an
already-compiled `torch.jit.ScriptModule`. -/
inductive Component where
  | plain : Module → Component
  | script : RSModule → Component
/-- A `RecursiveScriptModule` wrapper plus its C++ `script::Module`: the
backend type id, the `_concrete_type` recorded on the wrapper, registered
parameters and attributes, recursively compiled children, names of copied
`@ignored` methods, and the `__dict__` overlay of compiled methods. -/
inductive RSModule where
  | mk : (cppType : Nat)
      → (concreteType : ConcreteMT)
      → (cppParams : List (String × PyVal))
      → (cppAttrs : List (String × Option Ty × PyVal))
      → (children : RSChildren)
      → (ignoredNames : List String)
      → (overlayDict : List (String × String))
      → (kind : RSKind)
      → RSModule
inductive RSChildren where
  | nil : RSChildren
  | cons : String → RSModule → RSChildren → RSChildren
/-- Modelled from the spec: `torch._C.ConcreteModuleType` (its C++
implementation is outside this repository; the spec, section 3, lists its
fields): originating runtime class, the module-dict / module-list flags,
ordered attribute list (name, inferred type, is-parameter flag), ordered
submodule list, constant map, function-attribute map, failed-attribute
diagnostics, overload map, the poisoned marking and the one-time assigned
backend (JIT) type. -/
inductive ConcreteMT where
  | mk : (pyclass : PyClass)
      → (modDictFlag : Bool)
      → (modListFlag : Bool)
      → (attrs : List (String × Option Ty × Bool))
      → (mods : CTModules)
      → (constants : List (String × PyVal))
      → (fnAttrs : List (String × Option Ty × FuncDef))
      → (failedAttrs : List (String × String))
      → (overloadsMap : List (String × List String))
      → (poisoned : Bool)
      → (jitType : Option Nat)
      → ConcreteMT
inductive CTModules where
  | nil : CTModules
  | cons : String → CTEntry → CTModules → CTModules
/-- A submodule record of a ConcreteMT: an interface-typed reference
(`add_module_interface`) or a nested concrete type (`add_module`). -/
inductive CTEntry where
  | iface : Ty → CTEntry
  | sub : ConcreteMT → CTEntry
end

deriving instance DecidableEq for Module, SubmoduleList, Component, RSModule,
  RSChildren, ConcreteMT, CTModules, CTEntry
deriving instance Repr for Module, SubmoduleList, Component, RSModule,
  RSChildren, ConcreteMT, CTModules, CTEntry

/-! ### Accessors and primitive operations -/

def Module.cls : Module → PyClass
  | .mk c _ _ _ _ _ _ _ _ _ => c

def Module.params : Module → List (String × Option PyVal)
  | .mk _ p _ _ _ _ _ _ _ _ => p

def Module.buffers : Module → List (String × Option PyVal)
  | .mk _ _ b _ _ _ _ _ _ _ => b

def Module.submods : Module → SubmoduleList
  | .mk _ _ _ s _ _ _ _ _ _ => s

def Module.annots : Module → List (String × Ann)
  | .mk _ _ _ _ a _ _ _ _ _ => a

def Module.constantsDecl : Module → Option (List String)
  | .mk _ _ _ _ _ c _ _ _ _ => c

def Module.overloadsDecl : Module → Option (List (String × List String))
  | .mk _ _ _ _ _ _ o _ _ _ => o

def Module.rest : Module → List RestAttr
  | .mk _ _ _ _ _ _ _ r _ _ => r

def Module.methods : Module → List (String × MethodDecl)
  | .mk _ _ _ _ _ _ _ _ m _ => m

def Module.inited : Module → Bool
  | .mk _ _ _ _ _ _ _ _ _ i => i

def Module.setSubmods : Module → SubmoduleList → Module
  | .mk c p b _ a cd od r me i, s => .mk c p b s a cd od r me i

def Module.setConstantsDecl : Module → Option (List String) → Module
  | .mk c p b s a _ od r me i, cd => .mk c p b s a cd od r me i

def Module.setOverloadsDecl : Module → Option (List (String × List String)) → Module
  | .mk c p b s a cd _ r me i, od => .mk c p b s a cd od r me i

def SubmoduleList.find? : SubmoduleList → String → Option Component
  | .nil, _ => none
  | .cons n c t, k => if n = k then some c else t.find? k

def SubmoduleList.keys : SubmoduleList → List String
  | .nil => []
  | .cons n _ t => n :: t.keys

def RSModule.cppType : RSModule → Nat
  | .mk j _ _ _ _ _ _ _ => j

def RSModule.concreteType : RSModule → ConcreteMT
  | .mk _ ct _ _ _ _ _ _ => ct

def RSModule.cppParams : RSModule → List (String × PyVal)
  | .mk _ _ p _ _ _ _ _ => p

def RSModule.cppAttrs : RSModule → List (String × Option Ty × PyVal)
  | .mk _ _ _ a _ _ _ _ => a

def RSModule.children : RSModule → RSChildren
  | .mk _ _ _ _ ch _ _ _ => ch

def RSModule.ignoredNames : RSModule → List String
  | .mk _ _ _ _ _ ig _ _ => ig

def RSModule.overlayDict : RSModule → List (String × String)
  | .mk _ _ _ _ _ _ ov _ => ov

def RSModule.kind : RSModule → RSKind
  | .mk _ _ _ _ _ _ _ k => k

def ConcreteMT.pyclass : ConcreteMT → PyClass
  | .mk c _ _ _ _ _ _ _ _ _ _ => c

def ConcreteMT.modDictFlag : ConcreteMT → Bool
  | .mk _ d _ _ _ _ _ _ _ _ _ => d

def ConcreteMT.modListFlag : ConcreteMT → Bool
  | .mk _ _ l _ _ _ _ _ _ _ _ => l

def ConcreteMT.attrs : ConcreteMT → List (String × Option Ty × Bool)
  | .mk _ _ _ a _ _ _ _ _ _ _ => a

def ConcreteMT.mods : ConcreteMT → CTModules
  | .mk _ _ _ _ m _ _ _ _ _ _ => m

def ConcreteMT.constants : ConcreteMT → List (String × PyVal)
  | .mk _ _ _ _ _ k _ _ _ _ _ => k

def ConcreteMT.fnAttrs : ConcreteMT → List (String × Option Ty × FuncDef)
  | .mk _ _ _ _ _ _ f _ _ _ _ => f

def ConcreteMT.failedAttrs : ConcreteMT → List (String × String)
  | .mk _ _ _ _ _ _ _ x _ _ _ => x

def ConcreteMT.overloadsMap : ConcreteMT → List (String × List String)
  | .mk _ _ _ _ _ _ _ _ o _ _ => o

def ConcreteMT.poisoned : ConcreteMT → Bool
  | .mk _ _ _ _ _ _ _ _ _ p _ => p

def ConcreteMT.jitType : ConcreteMT → Option Nat
  | .mk _ _ _ _ _ _ _ _ _ _ j => j

def CTModules.append : CTModules → String → CTEntry → CTModules
  | .nil, n, e => .cons n e .nil
  | .cons n0 e0 t, n, e => .cons n0 e0 (t.append n e)

def CTModules.find? : CTModules → String → Option CTEntry
  | .nil, _ => none
  | .cons n e t, k => if n = k then some e else t.find? k

def CTModules.keys : CTModules → List String
  | .nil => []
  | .cons n _ t => n :: t.keys

def RSChildren.append : RSChildren → String → RSModule → RSChildren
  | .nil, n, e => .cons n e .nil
  | .cons n0 e0 t, n, e => .cons n0 e0 (t.append n e)

/-- `concrete_type.add_attribute(name, attr_type, is_param)`. -/
def ConcreteMT.add_attribute (ct : ConcreteMT) (n : String) (t : Option Ty)
    (isParam : Bool) : ConcreteMT :=
  match ct with
  | .mk c d l a m k f x o p j => .mk c d l (a ++ [(n, t, isParam)]) m k f x o p j

/-- `concrete_type.add_module_interface(name, attr_type)`. -/
def ConcreteMT.add_module_interface (ct : ConcreteMT) (n : String) (t : Ty) : ConcreteMT :=
  match ct with
  | .mk c d l a m k f x o p j => .mk c d l a (m.append n (.iface t)) k f x o p j

/-- `concrete_type.add_module(name, sub_concrete_type)`. -/
def ConcreteMT.add_module (ct : ConcreteMT) (n : String) (sub : ConcreteMT) : ConcreteMT :=
  match ct with
  | .mk c d l a m k f x o p j => .mk c d l a (m.append n (.sub sub)) k f x o p j

/-- `concrete_type.add_constant(name, value)`. -/
def ConcreteMT.add_constant (ct : ConcreteMT) (n : String) (v : PyVal) : ConcreteMT :=
  match ct with
  | .mk c d l a m k f x o p j => .mk c d l a m (k ++ [(n, v)]) f x o p j

/-- `concrete_type.add_function_attribute(name, type, fn)`. -/
def ConcreteMT.add_function_attribute (ct : ConcreteMT) (n : String) (t : Option Ty)
    (f : FuncDef) : ConcreteMT :=
  match ct with
  | .mk c d l a m k fs x o p j => .mk c d l a m k (fs ++ [(n, t, f)]) x o p j

/-- `concrete_type.add_failed_attribute(name, hint)`. -/
def ConcreteMT.add_failed_attribute (ct : ConcreteMT) (n : String) (hint : String) : ConcreteMT :=
  match ct with
  | .mk c d l a m k f x o p j => .mk c d l a m k f (x ++ [(n, hint)]) o p j

/-- `concrete_type.add_overload(name, overloaded_names)`. -/
def ConcreteMT.add_overload (ct : ConcreteMT) (n : String) (names : List String) : ConcreteMT :=
  match ct with
  | .mk c d l a m k f x o p j => .mk c d l a m k f x (o ++ [(n, names)]) p j

/-- `concrete_type.set_poisoned()`. -/
def ConcreteMT.set_poisoned (ct : ConcreteMT) : ConcreteMT :=
  match ct with
  | .mk c d l a m k f x o _ j => .mk c d l a m k f x o true j

/-- Assigning the backend JIT type: `create_new_type_from_this` /
`add_jit_type` both end with the ConcreteType carrying a backend type. -/
def ConcreteMT.withJit (ct : ConcreteMT) (j : Nat) : ConcreteMT :=
  match ct with
  | .mk c d l a m k f x o p _ => .mk c d l a m k f x o p (some j)

/-- A fresh ConcreteModuleType, as built by `torch._C.ConcreteModuleType()`
followed by `add_pyclass` and the `set_module_dict` / `set_module_list`
calls of `infer_raw_concrete_type` (lines 69-74). -/
def ConcreteMT.base (c : PyClass) : ConcreteMT :=
  .mk c (c.isModuleDict || c.isConstModuleDict)
    (c.isModuleList || c.isSequential || c.isConstModuleList)
    [] .nil [] [] [] [] false none

mutual
/-- Erase the fields structural equality ignores (the backend type and the
poisoned marking), recursively in nested submodule types. -/
def ConcreteMT.strip : ConcreteMT → ConcreteMT
  | .mk c d l a m k f x o _ _ => .mk c d l a m.strip k f x o false none
def CTModules.strip : CTModules → CTModules
  | .nil => .nil
  | .cons n e t => .cons n e.strip t.strip
def CTEntry.strip : CTEntry → CTEntry
  | .iface t => .iface t
  | .sub c => .sub c.strip
end

/-- Modelled from the spec: `raw_concrete_type.equals(known_type)` — two
ConcreteTypes are structurally equal iff originating class, flags,
attribute list, submodule list (submodules compared by their own structural
equality), constant map, function-attribute map, failed-attribute
diagnostics and overload map all compare equal (the backend-type reference
and the poisoned marking are not part of the compared data). -/
def ConcreteMT.equals (a b : ConcreteMT) : Bool :=
  decide (a.strip = b.strip)

/-! ### The process-wide state -/

/-- One compilation-backend event: `concrete_type._create_methods(defs,
rcbs, defaults)` compiled the listed method definitions against the given
backend type. -/
abbrev CompileEvent := Nat × List String

/-- The process-wide mutable state: the `ConcreteTypeStore` singleton
(`type_store` keyed by runtime-class id, and the `methods_compiled` set,
tracked by backend-type id since every stored ConcreteType carries a
distinct backend type), a fresh-id counter standing for the backend type
allocator, the log of method-compilation batches, and the warnings emitted
so far. -/
structure Store where
  type_store : List (Nat × List ConcreteMT)
  methods_compiled : List Nat
  fresh : Nat
  compile_log : List CompileEvent
  warnings_log : List String
deriving DecidableEq, Repr

def Store.init : Store := ⟨[], [], 0, [], []⟩

def lookupN {α : Type} : List (Nat × α) → Nat → Option α
  | [], _ => none
  | (n, v) :: t, k => if n = k then some v else lookupN t k

/-- `self.type_store[nn_module_type]`, defaulting to the empty list. -/
def Store.storeList (st : Store) (cid : Nat) : List ConcreteMT :=
  (lookupN st.type_store cid).getD []

def storeAdd : List (Nat × List ConcreteMT) → Nat → ConcreteMT →
    List (Nat × List ConcreteMT)
  | [], cid, ct => [(cid, [ct])]
  | (k, l) :: t, cid, ct =>
      if k = cid then (k, l ++ [ct]) :: t else (k, l) :: storeAdd t cid ct

/-- Lines 272-274 and 285: ensure the class has an entry, then
`self.type_store[nn_module_type].append(raw_concrete_type)`. -/
def Store.storeAppend (st : Store) (cid : Nat) (ct : ConcreteMT) : Store :=
  { st with type_store := storeAdd st.type_store cid ct }

def Store.addWarning (st : Store) (w : String) : Store :=
  { st with warnings_log := st.warnings_log ++ [w] }

/-- Python errors raised (or modelled) along these code paths. -/
inductive JitErr where
  | unsupportedConstant : String → String → JitErr
  | notInitialized : String → JitErr
  | unsupportedContainer : String → JitErr
  | attributeError : String → JitErr
  | assertionFailed : JitErr
  | outOfFuel : JitErr
deriving DecidableEq, Repr

/-! ### Association-list helpers (Python `dict` in insertion order) -/

def lookupA {α : Type} : List (String × α) → String → Option α
  | [], _ => none
  | (n, v) :: t, k => if n = k then some v else lookupA t k

/-- `d[k] = v`: replace the binding in place if the key exists, else append. -/
def dictSet {α : Type} : List (String × α) → String → α → List (String × α)
  | [], k, v => [(k, v)]
  | (n, w) :: t, k, v => if n = k then (k, v) :: t else (n, w) :: dictSet t k v

/-- `base.update(upd)`. -/
def dict_update {α : Type} (base upd : List (String × α)) : List (String × α) :=
  upd.foldl (fun d kv => dictSet d kv.1 kv.2) base

/-- `d[k].append(v)`, creating `d[k] = [v]` when the key is missing. -/
def dict_append {α : Type} : List (String × List α) → String → α → List (String × List α)
  | [], k, v => [(k, [v])]
  | (n, ws) :: t, k, v =>
      if n = k then (n, ws ++ [v]) :: t else (n, ws) :: dict_append t k v

/-- `if k not in d: d[k] = []`. -/
def ensureKey {α : Type} (l : List (String × List α)) (k : String) : List (String × List α) :=
  if (lookupA l k).isSome then l else l ++ [(k, [])]

/-- Python `set.add` semantics on an insertion-ordered list. -/
def add_to_set (l : List String) (names : List String) : List String :=
  names.foldl (fun acc n => if n ∈ acc then acc else acc ++ [n]) l

/-! ### Attribute access on a `Module` -/

def restFind? : List RestAttr → String → Option RestAttr
  | [], _ => none
  | r :: t, k => if r.aname = k then some r else restFind? t k

/-- `getattr(nn_module, n)` restricted to non-module values: the instance
`__dict__` and class data attributes first, then bound class methods, then
`nn.Module.__getattr__` consulting `_parameters` and `_buffers` (a
`None`-valued entry is returned as Python `None`). -/
def Module.getattrOpt (m : Module) (n : String) : Option PyVal :=
  match restFind? m.rest n with
  | some r => some r.value
  | none =>
    match lookupA m.methods n with
    | some d => some (.vBoundMethod d.fn)
    | none =>
      match lookupA m.params n with
      | some ov => some (ov.getD .vNone)
      | none =>
        match lookupA m.buffers n with
        | some ov => some (ov.getD .vNone)
        | none => none

/-- `hasattr(nn_module, n)` (submodules are attributes too, via
`nn.Module.__getattr__` consulting `_modules`). -/
def Module.hasattrB (m : Module) (n : String) : Bool :=
  (m.getattrOpt n).isSome || (m.submods.find? n).isSome

/-! ### `infer_type` (lines 79-86) -/

/-- `infer_type(name, item)` for a non-module value: the class annotation if
present, else the type of a `torch.jit.Attribute` wrapper, else
`_jit_try_infer_type`. -/
def infer_type_val (m : Module) (n : String) (item : PyVal) : Option Ty :=
  match lookupA m.annots n with
  | some ann => ann_to_type ann
  | none =>
    match item with
    | .vJitAttr a _ => ann_to_type a
    | _ => jit_try_infer_type item

/-- `infer_type(name, item)` for a submodule: a module object is not a
`torch.jit.Attribute` and runtime inspection infers no type for it, so only
the class annotation can produce a type. -/
def infer_type_mod (m : Module) (n : String) : Option Ty :=
  match lookupA m.annots n with
  | some ann => ann_to_type ann
  | none => none

/-! ### Constants (lines 43-61 and 128-151) -/

mutual
/-- `_get_valid_constant(attr, v)` (lines 49-61): pass base constant types
through, convert lists and tuples recursively (to tuples), and raise a
TypeError naming the attribute and the value type otherwise. -/
def get_valid_constant (attr : String) : PyVal → Except JitErr PyVal
  | .vBool b => .ok (.vBool b)
  | .vFloat q => .ok (.vFloat q)
  | .vInt i => .ok (.vInt i)
  | .vStr s => .ok (.vStr s)
  | .vNone => .ok .vNone
  | .vFunc f => .ok (.vFunc f)
  | .vDevice d => .ok (.vDevice d)
  | .vLayout l => .ok (.vLayout l)
  | .vDtype d => .ok (.vDtype d)
  | .vTuple l => do pure (.vTuple (← get_valid_constant_list attr l))
  | .vList l => do pure (.vTuple (← get_valid_constant_list attr l))
  | v => .error (.unsupportedConstant attr v.typeName)
def get_valid_constant_list (attr : String) : PyValList → Except JitErr PyValList
  | .nil => .ok .nil
  | .cons v t => do pure (.cons (← get_valid_constant attr v) (← get_valid_constant_list attr t))
end

mutual
/-- Spec-side predicate, for comparison with `get_valid_constant`: a value
is constant-representable iff it is a boolean, float, integer, string,
null, plain function reference or backend scalar-metadata tag
(device/layout/dtype), or a list/tuple recursively composed of such
values. -/
def constant_representable : PyVal → Bool
  | .vBool _ => true
  | .vFloat _ => true
  | .vInt _ => true
  | .vStr _ => true
  | .vNone => true
  | .vFunc _ => true
  | .vDevice _ => true
  | .vLayout _ => true
  | .vDtype _ => true
  | .vTuple l => constant_representable_list l
  | .vList l => constant_representable_list l
  | _ => false
def constant_representable_list : PyValList → Bool
  | .nil => true
  | .cons v t => constant_representable v && constant_representable_list t
end

def constMissingWarning (n : String) : String :=
  n ++ " was found in ScriptModule constants, but was not actually set in __init__. Consider removing it."

/-- Names declared via a `Final[T]` annotation (lines 131-134). -/
def collect_final_names (annots : List (String × Ann)) : List String :=
  annots.foldl (fun acc na => if is_final na.2 then acc ++ [na.1] else acc) []

/-- Lines 128-134: the declared `__constants__` set united with the
`Final`-annotated names. -/
def effective_constants (m : Module) : List String :=
  add_to_set (m.constantsDecl.getD []) (collect_final_names m.annots)

/-- The names classified before the constants loop runs: non-null
parameters, non-null buffers, then all submodule names (`added_names` at
line 136). -/
def someKeys (l : List (String × Option PyVal)) : List String :=
  l.foldr (fun p acc => match p.2 with | some _ => p.1 :: acc | none => acc) []

def classified_before_constants (m : Module) : List String :=
  someKeys m.params ++ someKeys m.buffers ++ m.submods.keys

/-- One iteration of the constants loop (lines 136-151): a name already
classified is skipped silently, a declared name absent on the instance
yields a non-fatal warning, and otherwise the value is validated by
`_get_valid_constant` and recorded. -/
def process_constant (m : Module) (acc : ConcreteMT × List String × Store) (n : String) :
    Except JitErr (ConcreteMT × List String × Store) :=
  let (ct, added, st) := acc
  if n ∈ added then .ok acc
  else if ¬ m.hasattrB n then .ok (ct, added, st.addWarning (constMissingWarning n))
  else
    match m.getattrOpt n with
    | none => .error (.attributeError n)
    | some v => do
        let v2 ← get_valid_constant n v
        pure (ct.add_constant n v2, added ++ [n], st)

def process_constants (m : Module) (names : List String)
    (acc : ConcreteMT × List String × Store) :
    Except JitErr (ConcreteMT × List String × Store) :=
  names.foldlM (process_constant m) acc

/-! ### Parameters and buffers (lines 90-114) -/

/-- The `_parameters` / `_buffers` loops: `None` entries are skipped
silently, anything else must be a tensor (the `assert isinstance(item,
torch.Tensor)`) and is added as an attribute with the is-parameter flag. -/
def add_tensor_attrs (m : Module) : List (String × Option PyVal) → Bool →
    ConcreteMT → List String → Except JitErr (ConcreteMT × List String)
  | [], _, ct, added => .ok (ct, added)
  | (_, none) :: t, isP, ct, added => add_tensor_attrs m t isP ct added
  | (n, some v) :: t, isP, ct, added =>
    match v with
    | .vTensor _ =>
        add_tensor_attrs m t isP (ct.add_attribute n (infer_type_val m n v) isP) (added ++ [n])
    | _ => .error .assertionFailed

/-! ### Overloads (lines 422-465) -/

/-- The mangled overload names `name + "__" + str(i)` (line 437). -/
def mangled_overloads (nm : String) (fns : List FuncDef) : List (String × FuncDef) :=
  fns.enum.map fun p => (nm ++ "__" ++ toString p.1, p.2)

/-- `get_overload_annotations(mod)`: scan the callable class attributes for
`@_overload_method` declarations; each hit maps the original function to
its list of (mangled name, overload function) pairs.  (A Python dict keyed
by the function object is modelled as an ordered association list.) -/
def get_overload_annots (m : Module) : List (FuncDef × List (String × FuncDef)) :=
  m.methods.foldl
    (fun acc nd =>
      if nd.2.hasModule ∧ nd.2.overloadDecls ≠ [] then
        acc ++ [(nd.2.fn, mangled_overloads nd.1 nd.2.overloadDecls)]
      else acc) []

/-- `get_overload_name_mapping(overload_info)` (lines 442-453). -/
def get_overload_name_mapping (info : List (FuncDef × List (String × FuncDef))) :
    List (String × List String) :=
  info.foldl
    (fun acc fi =>
      fi.2.foldl (fun acc2 onf => dict_append acc2 fi.1.fname onf.1) (ensureKey acc fi.1.fname))
    []

/-- `make_stubs_for_overloads(overload_info)` (lines 455-465): the stub
declaration carries the mangled name, the resolution callback is bound to
the original (un-overloaded) function's closure, and `original_method` is
the overload function itself. -/
def make_stubs_for_overloads (info : List (FuncDef × List (String × FuncDef))) :
    List ScriptMethodStub :=
  info.foldl
    (fun acc fi => acc ++ fi.2.map fun onf =>
      { resolution_callback := fi.1.fid, defName := onf.1, original_method := some onf.2 })
    []

/-- The merged overload map of `infer_raw_concrete_type` lines 154-156 and
`infer_methods_to_compile` lines 496-498: the declared `__overloads__`
updated with the annotation-discovered mapping. -/
def effective_overloads (m : Module) : List (String × List String) :=
  dict_update (m.overloadsDecl.getD []) (get_overload_name_mapping (get_overload_annots m))

def add_overloads (ct : ConcreteMT) (merged : List (String × List String)) : ConcreteMT :=
  merged.foldl (fun c kv => c.add_overload kv.1 kv.2) ct

/-! ### Remaining-attribute scan (lines 160-231) -/

def blacklist : List String :=
  ["_version", "_parameters", "_buffers", "_modules", "_initializing",
   "_backward_hooks", "_forward_hooks", "_forward_pre_hooks",
   "_state_dict_hooks", "_load_state_dict_pre_hooks", "dump_patches"]

def failed_fn_hint (f : FuncDef) : String :=
  "This function exists as an attribute on the Python module, but we failed to compile it to a TorchScript function: " ++ f.fname

def failed_attr_hint (v : PyVal) : String :=
  "This attribute exists on the Python module, but we failed to convert Python type: " ++ v.typeName ++ " to a TorchScript type."

/-- One iteration of the `dir(nn_module)` scan over not-yet-classified
attributes: skip blacklisted and dunder names, names already added, and
class attributes that are neither in the instance `__dict__` nor
properties; then classify plain functions (attempting `torch.jit.script`),
already-scripted functions, and data attributes. -/
def scan_remaining_step (m : Module) (added : List String) (ct : ConcreteMT)
    (r : RestAttr) : ConcreteMT :=
  if r.aname ∈ blacklist ∨ r.aname.startsWith "__" then ct
  else if r.aname ∈ added then ct
  else if ¬ r.inDict ∧ ¬ r.isProp then ct
  else
    match r.value with
    | .vFunc f =>
        if (lookupA m.methods r.aname).isSome then ct
        else if f.scriptable then ct.add_function_attribute r.aname f.scriptedTy f
        else ct.add_failed_attribute r.aname (failed_fn_hint f)
    | .vScriptFn f t => ct.add_function_attribute r.aname t f
    | v =>
        match infer_type_val m r.aname v with
        | some t => ct.add_attribute r.aname (some t) false
        | none => ct.add_failed_attribute r.aname (failed_attr_hint v)

def scan_remaining (m : Module) (added : List String) (ct : ConcreteMT) : ConcreteMT :=
  m.rest.foldl (scan_remaining_step m added) ct

/-! ### Stubs and method selection (lines 32-41 and 467-532) -/

/-- `check_module_initialized(mod)` (lines 467-471). -/
def check_module_initialized (m : Module) : Except JitErr Unit :=
  if m.inited then .ok ()
  else .error (.notInitialized m.cls.cname)

/-- `get_function_from_type(type(nn_module), method)`. -/
def get_function_from_type (m : Module) (nm : String) : Option FuncDef :=
  (lookupA m.methods nm).map (·.fn)

/-- `make_stub(func)`: resolution callback from the function's closure, JIT
AST named after the function, original method recorded. -/
def make_stub (f : FuncDef) : ScriptMethodStub :=
  { resolution_callback := f.fid, defName := f.fname, original_method := some f }

def make_stub_from_method (m : Module) (nm : String) : Except JitErr ScriptMethodStub :=
  match get_function_from_type m nm with
  | none => .error (.attributeError nm)
  | some f => .ok (make_stub f)

/-- Lines 481-487: compile `forward` iff it is overridden from the
`nn.Module` default and not `@ignore`d. -/
def forward_rule (m : Module) : List String :=
  match lookupA m.methods "forward" with
  | none => []
  | some d => if d.baseDefault then [] else if d.ignored then [] else ["forward"]

/-- Lines 488-493: every method carrying the EXPORT modifier. -/
def exported_names (m : Module) : List String :=
  m.methods.foldl (fun acc nd => if nd.2.exported then acc ++ [nd.1] else acc) []

/-- Lines 509-517: deduplication by first occurrence using an ordered list
(the code deliberately avoids iterating a set, to keep compile order
deterministic). -/
def dedup_first (l : List String) : List String :=
  l.foldl (fun acc n => if n ∈ acc then acc else acc ++ [n]) []

/-- The ordered method names `infer_methods_to_compile` selects: the
forward rule plus exported methods, minus overload base names, deduplicated
by first occurrence. -/
def select_method_names (m : Module) : List String :=
  dedup_first ((forward_rule m ++ exported_names m).filter
    fun nm => (lookupA (effective_overloads m) nm).isNone)

/-- `infer_methods_to_compile(nn_module)` (lines 473-522).  Line 501
assigns the merged overload map back onto `nn_module.__overloads__`, so the
function returns the updated module as well. -/
def infer_methods_to_compile (m : Module) :
    Except JitErr (List ScriptMethodStub × Module) := do
  check_module_initialized m
  let merged := effective_overloads m
  let ostubs := make_stubs_for_overloads (get_overload_annots m)
  let m2 := m.setOverloadsDecl (some merged)
  let stubs ← (select_method_names m).mapM (make_stub_from_method m)
  pure (ostubs ++ stubs, m2)

/-- `infer_interface_methods_to_compile(mod_interface, nn_module)`
(lines 524-532). -/
def infer_interface_methods_to_compile (names : List String) (m : Module) :
    Except JitErr (List ScriptMethodStub) :=
  names.mapM (make_stub_from_method m)

/-! ### Pieces of `create_script_module_impl` (lines 337-420) -/

/-- Line 357: unwrap a `torch.jit.Attribute` before registering. -/
def unwrapJitAttr : PyVal → PyVal
  | .vJitAttr _ inner => inner
  | v => v

/-- One attribute of step 1 of `init_fn` (lines 352-358): fetch the value
from the original module; parameters go to parameter storage, everything
else (unwrapped from `torch.jit.Attribute`) to typed attribute storage. -/
def register_attr_step (m : Module)
    (acc : List (String × PyVal) × List (String × Option Ty × PyVal))
    (nta : String × Option Ty × Bool) :
    Except JitErr (List (String × PyVal) × List (String × Option Ty × PyVal)) :=
  match m.getattrOpt nta.1 with
  | none => .error (.attributeError nta.1)
  | some v =>
      if nta.2.2 then .ok (acc.1 ++ [(nta.1, v)], acc.2)
      else .ok (acc.1, acc.2 ++ [(nta.1, nta.2.1, unwrapJitAttr v)])

/-- Step 1 of `init_fn`: copy every classified attribute from the original
module, parameters into parameter storage and the rest into attribute
storage. -/
def register_attrs (m : Module) (attrs : List (String × Option Ty × Bool)) :
    Except JitErr (List (String × PyVal) × List (String × Option Ty × PyVal)) :=
  attrs.foldlM (register_attr_step m) ([], [])

/-- Step 3 of `init_fn` (lines 377-382): names of `@ignored`/`@unused`
methods copied onto the wrapper. -/
def ignored_method_names (m : Module) : List String :=
  m.methods.foldl (fun acc nd => if nd.2.ignored then acc ++ [nd.1] else acc) []

/-- `create_methods_from_stubs(concrete_type, stubs)` (lines 290-295): one
batched method-compilation event against the backend type. -/
def create_methods_from_stubs (j : Nat) (stubs : List ScriptMethodStub) (st : Store) : Store :=
  { st with compile_log := st.compile_log ++ [(j, stubs.map (·.defName))] }

/-- Lines 396-418: overlay each compiled method onto the wrapper
`__dict__`, skipping stubs with no original callable and stubs whose
declared name differs from the original callable's name (mangled
overloads). -/
def build_overlay (stubs : List ScriptMethodStub) : List (String × String) :=
  stubs.foldl
    (fun d s =>
      match s.original_method with
      | none => d
      | some f => if f.fname ≠ s.defName then d else dictSet d f.fname s.defName)
    []

/-! ### Constant-container construction -/

def SubmoduleList.set : SubmoduleList → String → Component → SubmoduleList
  | .nil, _, _ => .nil
  | .cons n c t, k, v => if n = k then .cons n v t else .cons n c (t.set k v)

def ConcreteMT.withMods (ct : ConcreteMT) (m : CTModules) : ConcreteMT :=
  match ct with
  | .mk c d l a _ k f x o p j => .mk c d l a m k f x o p j

def constClassOf : RSKind → PyClass
  | .constSequential => ⟨9001, "_ConstSequential", false, false, false, true, false⟩
  | .constModuleList => ⟨9002, "_ConstModuleList", false, false, false, true, false⟩
  | .constModuleDict => ⟨9003, "_ConstModuleDict", false, false, false, false, true⟩
  | .plainModule => ⟨9000, "RecursiveScriptModule", false, false, false, false, false⟩

def RSChildren.ctMods : RSChildren → CTModules
  | .nil => .nil
  | .cons n c t => .cons n (.sub c.concreteType) t.ctMods

/-- Modelled from the spec (section 4.6, and the comment at lines 251-266
of the source): `torch.jit._ConstSequential` / `_ConstModuleList` /
`_ConstModuleDict` construction — outside this repository — directly
builds the constant-collection compiled form: a ScriptModule over a fresh
backend type whose ConcreteType mimics what inference reports for the
container class, with the children recorded as nested concrete types. -/
def mk_const_container (k : RSKind) (children : RSChildren) (st : Store) :
    RSModule × Store :=
  let ct := (((ConcreteMT.base (constClassOf k)).withMods children.ctMods).withJit st.fresh)
  (RSModule.mk st.fresh ct [] [] children [] [] k, { st with fresh := st.fresh + 1 })

/-! ### The recursive pipeline (fuel-indexed) -/

mutual

/-- `infer_raw_concrete_type(nn_module)` (lines 63-232).  Beyond the
ConcreteType it returns the (possibly mutated) module: lines 129-134 add
`Final`-annotated names into the existing `__constants__` object in place,
and lines 154-156 merge discovered overloads into the existing
`__overloads__` dict in place; submodules are likewise mutated by their own
recursive inference. -/
def infer_raw_concrete_type : Nat → Store → Module →
    Except JitErr (ConcreteMT × Module × Store)
  | 0, _, _ => .error .outOfFuel
  | n+1, st, m =>
    if m.inited = false then .error (.attributeError "_parameters")
    else do
      let ct0 := ConcreteMT.base m.cls
      let (ct1, added1) ← add_tensor_attrs m m.params true ct0 []
      let (ct2, added2) ← add_tensor_attrs m m.buffers false ct1 added1
      let (ct3, subs2, added3, st2) ← infer_submodules n st m m.submods ct2 added2
      let m2 := m.setSubmods subs2
      let cs := effective_constants m2
      let m3 := if m2.constantsDecl.isSome then m2.setConstantsDecl (some cs) else m2
      let (ct4, added4, st3) ← process_constants m3 cs (ct3, added3, st2)
      let merged := effective_overloads m3
      let m4 := if m3.overloadsDecl.isSome then m3.setOverloadsDecl (some merged) else m3
      let ct5 := add_overloads ct4 merged
      let ct6 := scan_remaining m4 added4 ct5
      pure (ct6, m4, st3)

/-- The `_modules` loop of `infer_raw_concrete_type` (lines 116-126): a
submodule whose declared annotation translates to a type is recorded as a
module-interface entry; otherwise its concrete type is obtained through the
type-sharing cache. -/
def infer_submodules : Nat → Store → Module → SubmoduleList → ConcreteMT →
    List String → Except JitErr (ConcreteMT × SubmoduleList × List String × Store)
  | 0, _, _, _, _, _ => .error .outOfFuel
  | _+1, st, _, .nil, ct, added => .ok (ct, .nil, added, st)
  | n+1, st, m, .cons nm item t, ct, added =>
    match infer_type_mod m nm with
    | some ty => do
        let (ctR, tR, addedR, stR) ←
          infer_submodules n st m t (ct.add_module_interface nm ty) (added ++ [nm])
        pure (ctR, .cons nm item tR, addedR, stR)
    | none => do
        let (subCt, item2, st2) ← get_or_create_concrete_type n st item
        let (ctR, tR, addedR, stR) ←
          infer_submodules n st2 m t (ct.add_module nm subCt) (added ++ [nm])
        pure (ctR, .cons nm item2 tR, addedR, stR)

/-- `ConcreteTypeStore.get_or_create_concrete_type(nn_module)`
(lines 241-286), fast path: an already-scripted module (which carries its
`_concrete_type`, recorded at construction) returns it directly. -/
def get_or_create_concrete_type : Nat → Store → Component →
    Except JitErr (ConcreteMT × Component × Store)
  | 0, _, _ => .error .outOfFuel
  | _+1, st, .script sm => .ok (sm.concreteType, .script sm, st)
  | n+1, st, .plain m => do
      let (ct, m2, st2) ← get_or_create_concrete_type_m n st m
      pure (ct, .plain m2, st2)

/-- `get_or_create_concrete_type` on a plain `nn.Module`: the container
path (lines 251-268) delegates to `create_constant_iterable_module`; the
general path (lines 270-286) infers a raw ConcreteType, returns the first
structurally equal previously stored one, and otherwise materializes a new
backend type and appends it to the class's list. -/
def get_or_create_concrete_type_m : Nat → Store → Module →
    Except JitErr (ConcreteMT × Module × Store)
  | 0, _, _ => .error .outOfFuel
  | n+1, st, m =>
    if containerClass m.cls then do
      let (rs, m2, st2) ← create_constant_iterable_module n st m
      pure (rs.concreteType, m2, st2)
    else do
      let (raw, m2, st2) ← infer_raw_concrete_type n st m
      match (st2.storeList m.cls.cid).find? (fun kt => raw.equals kt) with
      | some kt => pure (kt, m2, st2)
      | none =>
          let newCt := raw.withJit st2.fresh
          pure (newCt, m2, { st2.storeAppend m.cls.cid newCt with fresh := st2.fresh + 1 })

/-- `create_script_module(nn_module, stubs)` (lines 323-335). -/
def create_script_module : Nat → Store → Module → List ScriptMethodStub →
    Except JitErr (RSModule × Module × Store)
  | 0, _, _, _ => .error .outOfFuel
  | n+1, st, m, stubs => do
      check_module_initialized m
      let (ct, m2, st2) ← get_or_create_concrete_type_m n st m
      match ct.jitType with
      | none => .error .assertionFailed
      | some j => create_script_module_impl n st2 m2 ct j stubs

/-- `create_script_module_impl(nn_module, concrete_type, cpp_module,
stubs)` (lines 337-420): register attributes, recursively script
submodules, copy ignored methods, record the concrete type on the wrapper,
compile the stub batch exactly when this backend type is not yet in
`methods_compiled`, and overlay the compiled methods. -/
def create_script_module_impl : Nat → Store → Module → ConcreteMT → Nat →
    List ScriptMethodStub → Except JitErr (RSModule × Module × Store)
  | 0, _, _, _, _, _ => .error .outOfFuel
  | n+1, st, m, ct, j, stubs =>
    if ct.jitType ≠ some j then .error .assertionFailed
    else do
      let (prs, ats) ← register_attrs m ct.attrs
      let (children, subs2, st2) ← impl_submodules n st m.submods ct.mods
      let m2 := m.setSubmods subs2
      let st3 :=
        if j ∈ st2.methods_compiled then st2
        else
          let stC := create_methods_from_stubs j stubs st2
          { stC with methods_compiled := stC.methods_compiled ++ [j] }
      pure (RSModule.mk j ct prs ats children (ignored_method_names m2)
              (build_overlay stubs) .plainModule, m2, st3)

/-- Step 2 of `init_fn` (lines 360-373): resolve each submodule recorded on
the concrete type, through the interface rule when its recorded type is an
InterfaceType and the default recursive rule otherwise. -/
def impl_submodules : Nat → Store → SubmoduleList → CTModules →
    Except JitErr (RSChildren × SubmoduleList × Store)
  | 0, _, _, _ => .error .outOfFuel
  | _+1, st, subs, .nil => .ok (.nil, subs, st)
  | n+1, st, subs, .cons nm entry t =>
    match subs.find? nm with
    | none => .error (.attributeError nm)
    | some orig => do
        let (scripted, orig2, st2) ←
          match entry with
          | .iface (.interfaceTy ms) => interface_script n st ms orig
          | _ => recursive_script n st orig
        let (chT, subs3, st3) ← impl_submodules n st2 (subs.set nm orig2) t
        pure (.cons nm scripted chT, subs3, st3)

/-- `recursive_script(nn_module)` (lines 549-566). -/
def recursive_script : Nat → Store → Component →
    Except JitErr (RSModule × Component × Store)
  | 0, _, _ => .error .outOfFuel
  | _+1, st, .script sm => .ok (sm, .script sm, st)
  | n+1, st, .plain m => do
      check_module_initialized m
      if containerClass m.cls then do
        let (rs, m2, st2) ← create_constant_iterable_module n st m
        pure (rs, .plain m2, st2)
      else do
        let (stubs, m2) ← infer_methods_to_compile m
        let (sm, m3, st2) ← create_script_module n st m2 stubs
        pure (sm, .plain m3, st2)

/-- `interface_script(mod_interface, nn_module)` (lines 534-547). -/
def interface_script : Nat → Store → List String → Component →
    Except JitErr (RSModule × Component × Store)
  | 0, _, _, _ => .error .outOfFuel
  | _+1, st, _, .script sm => .ok (sm, .script sm, st)
  | n+1, st, names, .plain m => do
      check_module_initialized m
      let stubs ← infer_interface_methods_to_compile names m
      let (sm, m2, st2) ← create_script_module n st m stubs
      pure (sm, .plain m2, st2)

/-- `create_constant_iterable_module(module)` (lines 589-607): compile the
children first (recursing into nested containers), then build the constant
collection, raising the unsupported-container error when the module is none
of `nn.Sequential`, `nn.ModuleList`, `nn.ModuleDict`. -/
def create_constant_iterable_module : Nat → Store → Module →
    Except JitErr (RSModule × Module × Store)
  | 0, _, _ => .error .outOfFuel
  | n+1, st, m => do
      let (children, subs2, st2) ← cci_submodules n st m.submods
      let m2 := m.setSubmods subs2
      if m.cls.isSequential then
        let (rs, st3) := mk_const_container .constSequential children st2
        pure (rs, m2, st3)
      else if m.cls.isModuleList then
        let (rs, st3) := mk_const_container .constModuleList children st2
        pure (rs, m2, st3)
      else if m.cls.isModuleDict then
        let (rs, st3) := mk_const_container .constModuleDict children st2
        pure (rs, m2, st3)
      else .error (.unsupportedContainer m.cls.cname)

/-- The `module._modules` loop of `create_constant_iterable_module`
(lines 592-597): nested containers recurse, every other child goes through
`recursive_script`. -/
def cci_submodules : Nat → Store → SubmoduleList →
    Except JitErr (RSChildren × SubmoduleList × Store)
  | 0, _, _ => .error .outOfFuel
  | _+1, st, .nil => .ok (.nil, .nil, st)
  | n+1, st, .cons k sub t => do
      let (rs, sub2, st2) ←
        match sub with
        | .plain sm =>
            if containerClass sm.cls then do
              let (r, sm2, s2) ← create_constant_iterable_module n st sm
              pure (r, Component.plain sm2, s2)
            else recursive_script n st (.plain sm)
        | .script s => recursive_script n st (.script s)
      let (chT, tT, st3) ← cci_submodules n st2 t
      pure (.cons k rs chT, .cons k sub2 tT, st3)

end

/-- `create_script_module_for_tracing(nn_module, stubs)` (lines 297-320):
always a fresh backend type; the raw ConcreteType is poisoned before the
backend type is attached, and the build is finished by
`create_script_module_impl`. -/
def create_script_module_for_tracing (fuel : Nat) (st : Store) (m : Module)
    (stubs : List ScriptMethodStub) : Except JitErr (RSModule × Module × Store) :=
  match fuel with
  | 0 => .error .outOfFuel
  | n+1 => do
      check_module_initialized m
      let (raw, m2, st2) ← infer_raw_concrete_type n st m
      let j := st2.fresh
      let st3 := { st2 with fresh := j + 1 }
      let ct := raw.set_poisoned.withJit j
      create_script_module_impl n st3 m2 ct j stubs

/-! ### Inversion lemmas for the error monad -/

@[simp] theorem except_pure_eq {α : Type} (r : α) :
    (pure r : Except JitErr α) = .ok r := rfl

@[simp] theorem except_bind_ok_iff {α β : Type} {e : Except JitErr α}
    {f : α → Except JitErr β} {r : β} :
    (e >>= f = .ok r) ↔ ∃ a, e = .ok a ∧ f a = .ok r := by
  cases e <;> simp [Bind.bind, Except.bind]

@[simp] theorem except_bind_err_iff {α β : Type} {e : Except JitErr α}
    {f : α → Except JitErr β} {eo : JitErr} :
    (e >>= f = .error eo) ↔ (e = .error eo ∨ ∃ a, e = .ok a ∧ f a = .error eo) := by
  cases e <;> simp [Bind.bind, Except.bind]

/-! ### The mutation frame: erasing the two declaration attributes -/

mutual
/-- A module with its `__constants__` and `__overloads__` declarations
erased, recursively in submodules: everything inference may legitimately
leave different. -/
def Module.eraseDecls : Module → Module
  | .mk c p b s a _ _ r me i => .mk c p b s.eraseDecls a none none r me i
def SubmoduleList.eraseDecls : SubmoduleList → SubmoduleList
  | .nil => .nil
  | .cons n c t => .cons n c.eraseDecls t.eraseDecls
def Component.eraseDecls : Component → Component
  | .plain m => .plain m.eraseDecls
  | .script sm => .script sm
end

@[simp] theorem eraseDecls_setSubmods (m : Module) (s : SubmoduleList) :
    (m.setSubmods s).eraseDecls = m.eraseDecls.setSubmods s.eraseDecls := by
  cases m <;> rfl

@[simp] theorem eraseDecls_setConstantsDecl (m : Module) (c : Option (List String)) :
    (m.setConstantsDecl c).eraseDecls = m.eraseDecls := by
  cases m <;> rfl

@[simp] theorem eraseDecls_setOverloadsDecl (m : Module)
    (o : Option (List (String × List String))) :
    (m.setOverloadsDecl o).eraseDecls = m.eraseDecls := by
  cases m <;> rfl

@[simp] theorem eraseDecls_plain (m : Module) :
    (Component.plain m).eraseDecls = .plain m.eraseDecls := rfl

@[simp] theorem eraseDecls_script (sm : RSModule) :
    (Component.script sm).eraseDecls = .script sm := rfl

@[simp] theorem eraseDecls_subcons (n : String) (c : Component) (t : SubmoduleList) :
    (SubmoduleList.cons n c t).eraseDecls = .cons n c.eraseDecls t.eraseDecls := rfl

@[simp] theorem eraseDecls_subnil : SubmoduleList.nil.eraseDecls = .nil := rfl

theorem Module.eraseDecls_submods (m : Module) :
    m.eraseDecls.submods = m.submods.eraseDecls := by
  cases m <;> rfl

/-! ### Structural equality facts -/

theorem equals_iff_strip {a b : ConcreteMT} :
    a.equals b = true ↔ a.strip = b.strip := by
  simp [ConcreteMT.equals]

@[simp] theorem strip_withJit (ct : ConcreteMT) (j : Nat) :
    (ct.withJit j).strip = ct.strip := by
  cases ct <;> rfl

@[simp] theorem strip_set_poisoned (ct : ConcreteMT) :
    ct.set_poisoned.strip = ct.strip := by
  cases ct <;> rfl

@[simp] theorem poisoned_withJit (ct : ConcreteMT) (j : Nat) :
    (ct.withJit j).poisoned = ct.poisoned := by
  cases ct <;> rfl

@[simp] theorem jitType_withJit (ct : ConcreteMT) (j : Nat) :
    (ct.withJit j).jitType = some j := by
  cases ct <;> rfl

theorem equals_congr_of_strip {a b c : ConcreteMT} (h : a.strip = b.strip) :
    a.equals c = b.equals c := by
  simp [ConcreteMT.equals, h]

/-! ### Store facts -/

theorem storeList_storeAppend (st : Store) (cid : Nat) (ct : ConcreteMT) (cid2 : Nat) :
    (st.storeAppend cid ct).storeList cid2 =
      if cid2 = cid then st.storeList cid ++ [ct] else st.storeList cid2 := by
  have core : ∀ (l : List (Nat × List ConcreteMT)),
      lookupN (storeAdd l cid ct) cid2 =
        if cid2 = cid then some ((lookupN l cid).getD [] ++ [ct]) else lookupN l cid2 := by
    intro l
    induction l with
    | nil =>
      by_cases h : cid2 = cid
      · subst h; simp [storeAdd, lookupN]
      · have h2 : ¬ cid = cid2 := fun hh => h hh.symm
        simp [storeAdd, lookupN, h, h2]
    | cons hd tl ih =>
      obtain ⟨k, v⟩ := hd
      by_cases hk : k = cid
      · subst hk
        by_cases h2 : cid2 = k
        · subst h2; simp [storeAdd, lookupN]
        · have h2b : ¬ k = cid2 := fun hh => h2 hh.symm
          simp [storeAdd, lookupN, h2, h2b]
      · by_cases h2 : k = cid2
        · subst h2
          have hne : ¬ k = cid := hk
          simp [storeAdd, lookupN, hne, hk]
        · simp [storeAdd, lookupN, hk, h2, ih]
  show ((lookupN (storeAdd st.type_store cid ct) cid2).getD []) = _
  rw [core]
  by_cases h : cid2 = cid
  · subst h; simp [Store.storeList]
  · simp [h, Store.storeList]

/-- `methods_compiled` mirrors the compile log and holds no duplicates:
method batches are compiled at most once per backend type. -/
def Store.Sync (st : Store) : Prop :=
  st.methods_compiled = st.compile_log.map Prod.fst ∧ st.methods_compiled.Nodup

/-- No poisoned ConcreteType is ever stored in the per-class lists. -/
def Store.Clean (st : Store) : Prop :=
  ∀ cid ct, ct ∈ st.storeList cid → ct.poisoned = false

/-- How any of the pipeline functions may change the store: per-class type
lists, the compiled set and the compile log only grow, and the `Sync` and
`Clean` invariants are preserved. -/
def StoreLe (st st2 : Store) : Prop :=
  (∀ cid, st.storeList cid <+: st2.storeList cid) ∧
  st.methods_compiled <+: st2.methods_compiled ∧
  st.compile_log <+: st2.compile_log ∧
  (st.Sync → st2.Sync) ∧
  (st.Clean → st2.Clean)

theorem StoreLe.rfl (st : Store) : StoreLe st st :=
  ⟨fun _ => List.prefix_rfl, List.prefix_rfl, List.prefix_rfl, id, id⟩

theorem StoreLe.trans {s1 s2 s3 : Store} (h1 : StoreLe s1 s2) (h2 : StoreLe s2 s3) :
    StoreLe s1 s3 :=
  ⟨fun cid => (h1.1 cid).trans (h2.1 cid),
   h1.2.1.trans h2.2.1, h1.2.2.1.trans h2.2.2.1,
   fun h => h2.2.2.2.1 (h1.2.2.2.1 h), fun h => h2.2.2.2.2 (h1.2.2.2.2 h)⟩

theorem StoreLe.addWarning (st : Store) (w : String) : StoreLe st (st.addWarning w) :=
  ⟨fun _ => List.prefix_rfl, List.prefix_rfl, List.prefix_rfl, fun h => h, fun h => h⟩

theorem StoreLe.storeAppend (st : Store) (cid : Nat) (ct : ConcreteMT)
    (hp : ct.poisoned = false) : StoreLe st (st.storeAppend cid ct) := by
  refine ⟨fun cid2 => ?_, List.prefix_rfl, List.prefix_rfl, fun h => h, ?_⟩
  · rw [storeList_storeAppend]
    by_cases h : cid2 = cid
    · subst h; simp
    · simp [h]
  · intro hc cid2 ct2 hmem
    rw [storeList_storeAppend] at hmem
    by_cases h : cid2 = cid
    · rw [if_pos h] at hmem
      rcases List.mem_append.mp hmem with hmem | hmem
      · exact hc _ _ hmem
      · rw [List.mem_singleton.mp hmem]; exact hp
    · rw [if_neg h] at hmem
      exact hc _ _ hmem

theorem StoreLe.bumpFresh (st : Store) (k : Nat) :
    StoreLe st { st with fresh := k } :=
  ⟨fun _ => List.prefix_rfl, List.prefix_rfl, List.prefix_rfl, fun h => h, fun h => h⟩

theorem mem_of_storeLe {st st2 : Store} (h : StoreLe st st2) {j : Nat}
    (hm : j ∈ st.methods_compiled) : j ∈ st2.methods_compiled :=
  h.2.1.subset hm

theorem find?_prefix_some {p : ConcreteMT → Bool} {l1 l2 : List ConcreteMT}
    (hpre : l1 <+: l2) {x : ConcreteMT} (h : l1.find? p = some x) :
    l2.find? p = some x := by
  obtain ⟨t, rfl⟩ := hpre
  induction l1 with
  | nil => simp at h
  | cons hd tl ih =>
    by_cases hp : p hd
    · rw [List.find?_cons_of_pos _ hp] at h
      rw [List.cons_append, List.find?_cons_of_pos _ hp]
      exact h
    · rw [List.find?_cons_of_neg _ hp] at h
      rw [List.cons_append, List.find?_cons_of_neg _ hp]
      exact ih h

/-- The error raised only by `create_constant_iterable_module`. -/
def JitErr.isUCE : JitErr → Bool
  | .unsupportedContainer _ => true
  | _ => false

/-! ### The ConcreteType builder operations never poison -/

@[simp] theorem poisoned_base (c : PyClass) : (ConcreteMT.base c).poisoned = false := rfl

@[simp] theorem poisoned_add_attribute (ct : ConcreteMT) (n : String) (t : Option Ty)
    (p : Bool) : (ct.add_attribute n t p).poisoned = ct.poisoned := by cases ct; rfl

@[simp] theorem poisoned_add_module_interface (ct : ConcreteMT) (n : String) (t : Ty) :
    (ct.add_module_interface n t).poisoned = ct.poisoned := by cases ct; rfl

@[simp] theorem poisoned_add_module (ct : ConcreteMT) (n : String) (s : ConcreteMT) :
    (ct.add_module n s).poisoned = ct.poisoned := by cases ct; rfl

@[simp] theorem poisoned_add_constant (ct : ConcreteMT) (n : String) (v : PyVal) :
    (ct.add_constant n v).poisoned = ct.poisoned := by cases ct; rfl

@[simp] theorem poisoned_add_function_attribute (ct : ConcreteMT) (n : String)
    (t : Option Ty) (f : FuncDef) :
    (ct.add_function_attribute n t f).poisoned = ct.poisoned := by cases ct; rfl

@[simp] theorem poisoned_add_failed_attribute (ct : ConcreteMT) (n hint : String) :
    (ct.add_failed_attribute n hint).poisoned = ct.poisoned := by cases ct; rfl

@[simp] theorem poisoned_add_overload (ct : ConcreteMT) (n : String) (l : List String) :
    (ct.add_overload n l).poisoned = ct.poisoned := by cases ct; rfl

theorem poisoned_add_tensor_attrs {m : Module} {l : List (String × Option PyVal)}
    {isP : Bool} {ct : ConcreteMT} {added : List String} {ct2 : ConcreteMT}
    {added2 : List String}
    (h : add_tensor_attrs m l isP ct added = .ok (ct2, added2)) :
    ct2.poisoned = ct.poisoned := by
  induction l generalizing ct added with
  | nil =>
    simp only [add_tensor_attrs, Except.ok.injEq, Prod.mk.injEq] at h
    rw [← h.1]
  | cons hd tl ih =>
    obtain ⟨n, v⟩ := hd
    cases v with
    | none => exact ih h
    | some v =>
      cases v <;> simp only [add_tensor_attrs] at h <;> try exact (by cases h)
      case vTensor t => rw [ih h]; simp

theorem poisoned_process_constant {m : Module} {acc : ConcreteMT × List String × Store}
    {n : String} {acc2 : ConcreteMT × List String × Store}
    (h : process_constant m acc n = .ok acc2) :
    acc2.1.poisoned = acc.1.poisoned ∧ StoreLe acc.2.2 acc2.2.2 := by
  obtain ⟨ct, added, st⟩ := acc
  simp only [process_constant] at h
  split at h
  · cases h; exact ⟨rfl, StoreLe.rfl st⟩
  · split at h
    · cases h; exact ⟨rfl, StoreLe.addWarning st _⟩
    · split at h
      · cases h
      · simp only [except_bind_ok_iff, except_pure_eq, Except.ok.injEq] at h
        obtain ⟨v2, _, h2⟩ := h
        rw [← h2]
        exact ⟨by simp, StoreLe.rfl st⟩

theorem poisoned_process_constants {m : Module} {names : List String}
    {acc : ConcreteMT × List String × Store} {acc2 : ConcreteMT × List String × Store}
    (h : process_constants m names acc = .ok acc2) :
    acc2.1.poisoned = acc.1.poisoned ∧ StoreLe acc.2.2 acc2.2.2 := by
  induction names generalizing acc with
  | nil =>
    simp only [process_constants, List.foldlM] at h
    cases h
    exact ⟨rfl, StoreLe.rfl _⟩
  | cons hd tl ih =>
    simp only [process_constants, List.foldlM, except_bind_ok_iff] at h
    obtain ⟨acc1, h1, h2⟩ := h
    have p1 := poisoned_process_constant h1
    have p2 := ih (by simpa [process_constants] using h2)
    exact ⟨p2.1.trans p1.1, p1.2.trans p2.2⟩

theorem poisoned_add_overloads (ct : ConcreteMT) (l : List (String × List String)) :
    (add_overloads ct l).poisoned = ct.poisoned := by
  induction l generalizing ct with
  | nil => rfl
  | cons hd tl ih => simp [add_overloads, List.foldl] at ih ⊢; rw [ih]; simp

theorem poisoned_scan_remaining_step (m : Module) (added : List String)
    (ct : ConcreteMT) (r : RestAttr) :
    (scan_remaining_step m added ct r).poisoned = ct.poisoned := by
  unfold scan_remaining_step
  repeat' split
  all_goals simp

theorem poisoned_scan_remaining (m : Module) (added : List String) (ct : ConcreteMT) :
    (scan_remaining m added ct).poisoned = ct.poisoned := by
  show (m.rest.foldl (scan_remaining_step m added) ct).poisoned = ct.poisoned
  induction m.rest generalizing ct with
  | nil => rfl
  | cons hd tl ih =>
    simp only [List.foldl]
    rw [ih, poisoned_scan_remaining_step]

theorem eraseDecls_setSubmods_eq {m : Module} {s : SubmoduleList}
    (h : s.eraseDecls = m.submods.eraseDecls) :
    (m.setSubmods s).eraseDecls = m.eraseDecls := by
  cases m with
  | mk c p b s0 a cd od r me i =>
    simp only [Module.submods] at h
    simp only [Module.setSubmods, Module.eraseDecls, h]

/-! ### Shapes of the errors each helper can raise -/

mutual
theorem get_valid_constant_err_shape : ∀ (a : String) (v : PyVal) (e : JitErr),
    get_valid_constant a v = .error e → ∃ t, e = .unsupportedConstant a t
  | a, .vBool _, e => by simp [get_valid_constant]
  | a, .vFloat _, e => by simp [get_valid_constant]
  | a, .vInt _, e => by simp [get_valid_constant]
  | a, .vStr _, e => by simp [get_valid_constant]
  | a, .vNone, e => by simp [get_valid_constant]
  | a, .vFunc _, e => by simp [get_valid_constant]
  | a, .vDevice _, e => by simp [get_valid_constant]
  | a, .vLayout _, e => by simp [get_valid_constant]
  | a, .vDtype _, e => by simp [get_valid_constant]
  | a, .vTuple l, e => by
      intro h
      simp only [get_valid_constant, except_bind_err_iff, except_pure_eq] at h
      rcases h with h | ⟨_, _, h⟩
      · exact get_valid_constant_list_err_shape a l e h
      · cases h
  | a, .vList l, e => by
      intro h
      simp only [get_valid_constant, except_bind_err_iff, except_pure_eq] at h
      rcases h with h | ⟨_, _, h⟩
      · exact get_valid_constant_list_err_shape a l e h
      · cases h
  | a, .vBoundMethod f, e => by
      intro h
      simp only [get_valid_constant, Except.error.injEq] at h
      exact ⟨_, h.symm⟩
  | a, .vTensor t, e => by
      intro h
      simp only [get_valid_constant, Except.error.injEq] at h
      exact ⟨_, h.symm⟩
  | a, .vScriptFn f t, e => by
      intro h
      simp only [get_valid_constant, Except.error.injEq] at h
      exact ⟨_, h.symm⟩
  | a, .vJitAttr an v, e => by
      intro h
      simp only [get_valid_constant, Except.error.injEq] at h
      exact ⟨_, h.symm⟩
  | a, .vOther s t, e => by
      intro h
      simp only [get_valid_constant, Except.error.injEq] at h
      exact ⟨_, h.symm⟩
theorem get_valid_constant_list_err_shape : ∀ (a : String) (l : PyValList) (e : JitErr),
    get_valid_constant_list a l = .error e → ∃ t, e = .unsupportedConstant a t
  | a, .nil, e => by simp [get_valid_constant_list]
  | a, .cons v t, e => by
      intro h
      simp only [get_valid_constant_list, except_bind_err_iff, except_pure_eq] at h
      rcases h with h | ⟨_, _, h⟩
      · exact get_valid_constant_err_shape a v e h
      · rcases h with h | ⟨_, _, h⟩
        · exact get_valid_constant_list_err_shape a t e h
        · cases h
end

theorem process_constant_err_shape {m : Module} {acc : ConcreteMT × List String × Store}
    {n : String} {e : JitErr} (h : process_constant m acc n = .error e) :
    (∃ t, e = .unsupportedConstant n t) ∨ e = .attributeError n := by
  obtain ⟨ct, added, st⟩ := acc
  simp only [process_constant] at h
  split at h
  · cases h
  · split at h
    · cases h
    · split at h
      · exact .inr (by cases h; rfl)
      · simp only [except_bind_err_iff, except_pure_eq] at h
        rcases h with h | ⟨_, _, h⟩
        · exact .inl (get_valid_constant_err_shape _ _ _ h)
        · cases h

theorem process_constants_err_not_uce {m : Module} {names : List String}
    {acc : ConcreteMT × List String × Store} {e : JitErr}
    (h : process_constants m names acc = .error e) : e.isUCE = false := by
  induction names generalizing acc with
  | nil => simp [process_constants, List.foldlM] at h
  | cons hd tl ih =>
    simp only [process_constants, List.foldlM, except_bind_err_iff] at h
    rcases h with h | ⟨acc1, _, h⟩
    · rcases process_constant_err_shape h with ⟨t, rfl⟩ | rfl <;> rfl
    · exact ih (by simpa [process_constants] using h)

theorem add_tensor_attrs_err_shape {m : Module} {l : List (String × Option PyVal)}
    {isP : Bool} {ct : ConcreteMT} {added : List String} {e : JitErr}
    (h : add_tensor_attrs m l isP ct added = .error e) : e = .assertionFailed := by
  induction l generalizing ct added with
  | nil => simp [add_tensor_attrs] at h
  | cons hd tl ih =>
    obtain ⟨n, v⟩ := hd
    cases v with
    | none => exact ih h
    | some v =>
      cases v <;> simp only [add_tensor_attrs, Except.error.injEq] at h <;>
        first
          | exact h.symm
          | exact ih h

theorem make_stub_from_method_err_shape {m : Module} {nm : String} {e : JitErr}
    (h : make_stub_from_method m nm = .error e) : e = .attributeError nm := by
  simp only [make_stub_from_method] at h
  split at h
  · cases h; rfl
  · cases h

theorem mapM_stub_err_shape {m : Module} {l : List String} {e : JitErr}
    (h : l.mapM (make_stub_from_method m) = .error e) : ∃ nm, e = .attributeError nm := by
  induction l with
  | nil => simp [List.mapM, List.mapM.loop] at h
  | cons hd tl ih =>
    rw [List.mapM_cons] at h
    simp only [except_bind_err_iff, except_pure_eq] at h
    rcases h with h | ⟨_, _, h⟩
    · exact ⟨hd, make_stub_from_method_err_shape h⟩
    · rcases h with h | ⟨_, _, h⟩
      · exact ih h
      · cases h

theorem check_module_initialized_err_shape {m : Module} {e : JitErr}
    (h : check_module_initialized m = .error e) : e = .notInitialized m.cls.cname := by
  simp only [check_module_initialized] at h
  split at h
  · cases h
  · cases h; rfl

theorem infer_methods_to_compile_err_not_uce {m : Module} {e : JitErr}
    (h : infer_methods_to_compile m = .error e) : e.isUCE = false := by
  simp only [infer_methods_to_compile, except_bind_err_iff, except_pure_eq] at h
  rcases h with h | ⟨_, _, h⟩
  · rw [check_module_initialized_err_shape h]; rfl
  · rcases h with h | ⟨_, _, h⟩
    · obtain ⟨nm, rfl⟩ := mapM_stub_err_shape h
      rfl
    · cases h

theorem infer_interface_methods_err_not_uce {names : List String} {m : Module} {e : JitErr}
    (h : infer_interface_methods_to_compile names m = .error e) : e.isUCE = false := by
  obtain ⟨nm, rfl⟩ := mapM_stub_err_shape h
  rfl

theorem register_attr_step_err_shape {m : Module}
    {acc : List (String × PyVal) × List (String × Option Ty × PyVal)}
    {nta : String × Option Ty × Bool} {e : JitErr}
    (h : register_attr_step m acc nta = .error e) : ∃ nm, e = .attributeError nm := by
  simp only [register_attr_step] at h
  split at h
  · cases h; exact ⟨_, rfl⟩
  · split at h <;> cases h

theorem register_attrs_err_shape {m : Module} {l : List (String × Option Ty × Bool)}
    {e : JitErr} (h : register_attrs m l = .error e) : ∃ nm, e = .attributeError nm := by
  have core : ∀ (l2 : List (String × Option Ty × Bool))
      (acc : List (String × PyVal) × List (String × Option Ty × PyVal)),
      l2.foldlM (register_attr_step m) acc = .error e →
        ∃ nm, e = .attributeError nm := by
    intro l2
    induction l2 with
    | nil => intro acc h2; simp [List.foldlM] at h2
    | cons hd tl ih =>
      intro acc h2
      simp only [List.foldlM, except_bind_err_iff] at h2
      rcases h2 with h2 | ⟨acc1, _, h2⟩
      · exact register_attr_step_err_shape h2
      · exact ih acc1 (by simpa [List.foldlM] using h2)
  exact core l ([], []) h

/-- The step `create_script_module_impl` performs on the store (lines
391-394): look up the backend type in `methods_compiled` and, when absent,
log the batched compilation and mark the type compiled. -/
theorem StoreLe.compileStep (st : Store) (j : Nat) (stubs : List ScriptMethodStub) :
    StoreLe st (if j ∈ st.methods_compiled then st
      else
        let stC := create_methods_from_stubs j stubs st
        { stC with methods_compiled := stC.methods_compiled ++ [j] }) := by
  split
  · exact StoreLe.rfl st
  · next hj =>
    refine ⟨fun cid => List.prefix_rfl, ?_, ?_, ?_, fun h => h⟩
    · simp [create_methods_from_stubs]
    · simp [create_methods_from_stubs]
    · rintro ⟨hsync, hnodup⟩
      constructor
      · simp [create_methods_from_stubs, hsync]
      · simp only [create_methods_from_stubs]
        rw [List.nodup_append]
        exact ⟨hnodup, List.nodup_singleton j,
          by simpa [List.disjoint_singleton] using hj⟩

/-! ### The master preservation invariant, by induction on fuel -/

/-- For every function of the recursive pipeline at fuel `n`: a successful
run only grows the store (preserving `Sync` and `Clean`), mutates the
module tree at most in its declaration attributes, and a raw inferred
ConcreteType is never poisoned; a failing run never raises the
unsupported-container error, except `create_constant_iterable_module`
applied to a non-container. -/
structure Master (n : Nat) : Prop where
  irc_ok : ∀ st m ct m2 st2,
    infer_raw_concrete_type n st m = .ok (ct, m2, st2) →
    StoreLe st st2 ∧ m2.eraseDecls = m.eraseDecls ∧ ct.poisoned = false
  irc_err : ∀ st m e, infer_raw_concrete_type n st m = .error e → e.isUCE = false
  subs_ok : ∀ st m subs ct added ct2 subs2 added2 st2,
    infer_submodules n st m subs ct added = .ok (ct2, subs2, added2, st2) →
    StoreLe st st2 ∧ subs2.eraseDecls = subs.eraseDecls ∧ ct2.poisoned = ct.poisoned
  subs_err : ∀ st m subs ct added e,
    infer_submodules n st m subs ct added = .error e → e.isUCE = false
  goc_ok : ∀ st c ct c2 st2,
    get_or_create_concrete_type n st c = .ok (ct, c2, st2) →
    StoreLe st st2 ∧ c2.eraseDecls = c.eraseDecls
  goc_err : ∀ st c e, get_or_create_concrete_type n st c = .error e → e.isUCE = false
  gocm_ok : ∀ st m ct m2 st2,
    get_or_create_concrete_type_m n st m = .ok (ct, m2, st2) →
    StoreLe st st2 ∧ m2.eraseDecls = m.eraseDecls
  gocm_err : ∀ st m e, get_or_create_concrete_type_m n st m = .error e → e.isUCE = false
  csm_ok : ∀ st m stubs sm m2 st2,
    create_script_module n st m stubs = .ok (sm, m2, st2) →
    StoreLe st st2 ∧ m2.eraseDecls = m.eraseDecls
  csm_err : ∀ st m stubs e, create_script_module n st m stubs = .error e → e.isUCE = false
  impl_ok : ∀ st m ct j stubs sm m2 st2,
    create_script_module_impl n st m ct j stubs = .ok (sm, m2, st2) →
    StoreLe st st2 ∧ m2.eraseDecls = m.eraseDecls
  impl_err : ∀ st m ct j stubs e,
    create_script_module_impl n st m ct j stubs = .error e → e.isUCE = false
  isub_ok : ∀ st subs mods ch subs2 st2,
    impl_submodules n st subs mods = .ok (ch, subs2, st2) →
    StoreLe st st2 ∧ subs2.eraseDecls = subs.eraseDecls
  isub_err : ∀ st subs mods e, impl_submodules n st subs mods = .error e → e.isUCE = false
  rs_ok : ∀ st c sm c2 st2,
    recursive_script n st c = .ok (sm, c2, st2) →
    StoreLe st st2 ∧ c2.eraseDecls = c.eraseDecls
  rs_err : ∀ st c e, recursive_script n st c = .error e → e.isUCE = false
  ifs_ok : ∀ st names c sm c2 st2,
    interface_script n st names c = .ok (sm, c2, st2) →
    StoreLe st st2 ∧ c2.eraseDecls = c.eraseDecls
  ifs_err : ∀ st names c e, interface_script n st names c = .error e → e.isUCE = false
  cci_ok : ∀ st m rs m2 st2,
    create_constant_iterable_module n st m = .ok (rs, m2, st2) →
    StoreLe st st2 ∧ m2.eraseDecls = m.eraseDecls
  cci_err : ∀ st m e, create_constant_iterable_module n st m = .error e →
    containerClass m.cls = true → e.isUCE = false
  ccis_ok : ∀ st subs ch subs2 st2,
    cci_submodules n st subs = .ok (ch, subs2, st2) →
    StoreLe st st2 ∧ subs2.eraseDecls = subs.eraseDecls
  ccis_err : ∀ st subs e, cci_submodules n st subs = .error e → e.isUCE = false

theorem master_zero : Master 0 := by
  constructor
  case irc_ok => intro st m ct m2 st2 h; cases h
  case irc_err =>
    intro st m e h
    simp only [infer_raw_concrete_type, Except.error.injEq] at h
    exact h ▸ rfl
  case subs_ok => intro _ _ _ _ _ _ _ _ _ h; cases h
  case subs_err =>
    intro _ _ _ _ _ e h
    simp only [infer_submodules, Except.error.injEq] at h
    exact h ▸ rfl
  case goc_ok => intro _ _ _ _ _ h; cases h
  case goc_err =>
    intro _ _ e h
    simp only [get_or_create_concrete_type, Except.error.injEq] at h
    exact h ▸ rfl
  case gocm_ok => intro _ _ _ _ _ h; cases h
  case gocm_err =>
    intro _ _ e h
    simp only [get_or_create_concrete_type_m, Except.error.injEq] at h
    exact h ▸ rfl
  case csm_ok => intro _ _ _ _ _ _ h; cases h
  case csm_err =>
    intro _ _ _ e h
    simp only [create_script_module, Except.error.injEq] at h
    exact h ▸ rfl
  case impl_ok => intro _ _ _ _ _ _ _ _ h; cases h
  case impl_err =>
    intro _ _ _ _ _ e h
    simp only [create_script_module_impl, Except.error.injEq] at h
    exact h ▸ rfl
  case isub_ok => intro _ _ _ _ _ _ h; cases h
  case isub_err =>
    intro _ _ _ e h
    simp only [impl_submodules, Except.error.injEq] at h
    exact h ▸ rfl
  case rs_ok => intro _ _ _ _ _ h; cases h
  case rs_err =>
    intro _ _ e h
    simp only [recursive_script, Except.error.injEq] at h
    exact h ▸ rfl
  case ifs_ok => intro _ _ _ _ _ _ h; cases h
  case ifs_err =>
    intro _ _ _ e h
    simp only [interface_script, Except.error.injEq] at h
    exact h ▸ rfl
  case cci_ok => intro _ _ _ _ _ h; cases h
  case cci_err =>
    intro _ _ e h _
    simp only [create_constant_iterable_module, Except.error.injEq] at h
    exact h ▸ rfl
  case ccis_ok => intro _ _ _ _ _ h; cases h
  case ccis_err =>
    intro _ _ e h
    simp only [cci_submodules, Except.error.injEq] at h
    exact h ▸ rfl

theorem master_succ_irc_ok (n : Nat) (ih : Master n) :
    ∀ st m ct m2 st2, infer_raw_concrete_type (n+1) st m = .ok (ct, m2, st2) →
    StoreLe st st2 ∧ m2.eraseDecls = m.eraseDecls ∧ ct.poisoned = false := by
  intro st m ct m2 st2 h
  rw [infer_raw_concrete_type] at h
  split at h
  · cases h
  · simp only [except_bind_ok_iff, except_pure_eq, Except.ok.injEq, Prod.mk.injEq] at h
    obtain ⟨⟨ct1, added1⟩, h1, ⟨ct2x, added2⟩, h2, ⟨ct3, subs2, added3, stA⟩, h3,
      ⟨ct4, added4, stB⟩, h4, hct, hm, hst⟩ := h
    subst hct hm hst
    obtain ⟨hsle3, hsub3, hpois3⟩ := ih.subs_ok _ _ _ _ _ _ _ _ _ h3
    obtain ⟨hpois4, hsle4⟩ := poisoned_process_constants h4
    have e2 : (m.setSubmods subs2).eraseDecls = m.eraseDecls :=
      eraseDecls_setSubmods_eq hsub3
    refine ⟨hsle3.trans hsle4, ?_, ?_⟩
    · split <;> split <;> simp [e2]
    · rw [poisoned_scan_remaining, poisoned_add_overloads]
      simp only at hpois4
      rw [hpois4, hpois3, poisoned_add_tensor_attrs h2, poisoned_add_tensor_attrs h1]
      simp

theorem master_succ_irc_err (n : Nat) (ih : Master n) :
    ∀ st m e, infer_raw_concrete_type (n+1) st m = .error e → e.isUCE = false := by
  intro st m e h
  rw [infer_raw_concrete_type] at h
  split at h
  · cases h; rfl
  · simp only [except_bind_err_iff, except_bind_ok_iff, except_pure_eq] at h
    rcases h with h | ⟨⟨ct1, added1⟩, h1, h⟩
    · rw [add_tensor_attrs_err_shape h]; rfl
    rcases h with h | ⟨⟨ct2x, added2⟩, h2, h⟩
    · rw [add_tensor_attrs_err_shape h]; rfl
    rcases h with h | ⟨⟨ct3, subs2, added3, stA⟩, h3, h⟩
    · exact ih.subs_err _ _ _ _ _ _ h
    rcases h with h | ⟨⟨ct4, added4, stB⟩, h4, h⟩
    · exact process_constants_err_not_uce h
    · cases h

theorem master_succ_subs_ok (n : Nat) (ih : Master n) :
    ∀ st m subs ct added ct2 subs2 added2 st2,
    infer_submodules (n+1) st m subs ct added = .ok (ct2, subs2, added2, st2) →
    StoreLe st st2 ∧ subs2.eraseDecls = subs.eraseDecls ∧ ct2.poisoned = ct.poisoned := by
  intro st m subs ct added ct2 subs2 added2 st2 h
  cases subs with
  | nil =>
    rw [infer_submodules] at h
    cases h
    exact ⟨StoreLe.rfl st, rfl, rfl⟩
  | cons nm item t =>
    rw [infer_submodules] at h
    split at h
    · simp only [except_bind_ok_iff, except_pure_eq, Except.ok.injEq, Prod.mk.injEq] at h
      obtain ⟨⟨ctR, tR, addedR, stR⟩, hrec, hct, hsub, hadd, hst⟩ := h
      subst hct hsub hadd hst
      obtain ⟨hsle, hsub, hpois⟩ := ih.subs_ok _ _ _ _ _ _ _ _ _ hrec
      exact ⟨hsle, by simp [hsub], by rw [hpois]; simp⟩
    · simp only [except_bind_ok_iff, except_pure_eq, Except.ok.injEq, Prod.mk.injEq] at h
      obtain ⟨⟨subCt, item2, stX⟩, hgoc, ⟨ctR, tR, addedR, stR⟩, hrec, hct, hsub, hadd, hst⟩ := h
      subst hct hsub hadd hst
      obtain ⟨hsleg, hitem⟩ := ih.goc_ok _ _ _ _ _ hgoc
      obtain ⟨hsle, hsub, hpois⟩ := ih.subs_ok _ _ _ _ _ _ _ _ _ hrec
      exact ⟨hsleg.trans hsle, by simp [hsub, hitem], by rw [hpois]; simp⟩

theorem master_succ_subs_err (n : Nat) (ih : Master n) :
    ∀ st m subs ct added e,
    infer_submodules (n+1) st m subs ct added = .error e → e.isUCE = false := by
  intro st m subs ct added e h
  cases subs with
  | nil => rw [infer_submodules] at h; cases h
  | cons nm item t =>
    rw [infer_submodules] at h
    split at h
    · simp only [except_bind_err_iff, except_pure_eq] at h
      rcases h with h | ⟨⟨ctR, tR, addedR, stR⟩, _, h⟩
      · exact ih.subs_err _ _ _ _ _ _ h
      · cases h
    · simp only [except_bind_err_iff, except_bind_ok_iff, except_pure_eq] at h
      rcases h with h | ⟨⟨subCt, item2, stX⟩, hgoc, h⟩
      · exact ih.goc_err _ _ _ h
      rcases h with h | ⟨⟨ctR, tR, addedR, stR⟩, _, h⟩
      · exact ih.subs_err _ _ _ _ _ _ h
      · cases h

theorem eraseDecls_set_of_eq : ∀ (subs : SubmoduleList) (nm : String)
    (orig orig2 : Component), subs.find? nm = some orig →
    orig2.eraseDecls = orig.eraseDecls →
    (subs.set nm orig2).eraseDecls = subs.eraseDecls
  | .nil, nm, orig, orig2 => by
      intro h _
      simp [SubmoduleList.find?] at h
  | .cons n c t, nm, orig, orig2 => by
      intro hfind heq
      by_cases hn : n = nm
      · subst hn
        simp only [SubmoduleList.find?, if_true, eq_self_iff_true,
          Option.some.injEq] at hfind
        subst hfind
        simp [SubmoduleList.set, heq]
      · simp only [SubmoduleList.find?, if_neg hn] at hfind
        simp [SubmoduleList.set, hn,
          eraseDecls_set_of_eq t nm orig orig2 hfind heq]

theorem infer_methods_to_compile_module_shape {m : Module}
    {stubs : List ScriptMethodStub} {m2 : Module}
    (h : infer_methods_to_compile m = .ok (stubs, m2)) :
    m2 = m.setOverloadsDecl (some (effective_overloads m)) := by
  simp only [infer_methods_to_compile, except_bind_ok_iff, except_pure_eq,
    Except.ok.injEq, Prod.mk.injEq] at h
  obtain ⟨u, _, sl, _, _, hm⟩ := h
  exact hm.symm

theorem master_succ_goc_ok (n : Nat) (ih : Master n) :
    ∀ st c ct c2 st2, get_or_create_concrete_type (n+1) st c = .ok (ct, c2, st2) →
    StoreLe st st2 ∧ c2.eraseDecls = c.eraseDecls := by
  intro st c ct c2 st2 h
  cases c with
  | script sm =>
    rw [get_or_create_concrete_type] at h
    cases h
    exact ⟨StoreLe.rfl st, rfl⟩
  | plain m =>
    rw [get_or_create_concrete_type] at h
    simp only [except_bind_ok_iff, except_pure_eq, Except.ok.injEq, Prod.mk.injEq] at h
    obtain ⟨⟨ctx, m2x, st2x⟩, hg, hct, hc, hst⟩ := h
    subst hct hc hst
    obtain ⟨hsle, hm⟩ := ih.gocm_ok _ _ _ _ _ hg
    exact ⟨hsle, by simp [hm]⟩

theorem master_succ_goc_err (n : Nat) (ih : Master n) :
    ∀ st c e, get_or_create_concrete_type (n+1) st c = .error e → e.isUCE = false := by
  intro st c e h
  cases c with
  | script sm => rw [get_or_create_concrete_type] at h; cases h
  | plain m =>
    rw [get_or_create_concrete_type] at h
    simp only [except_bind_err_iff, except_pure_eq] at h
    rcases h with h | ⟨⟨ctx, m2x, st2x⟩, _, h⟩
    · exact ih.gocm_err _ _ _ h
    · cases h

theorem master_succ_gocm_ok (n : Nat) (ih : Master n) :
    ∀ st m ct m2 st2, get_or_create_concrete_type_m (n+1) st m = .ok (ct, m2, st2) →
    StoreLe st st2 ∧ m2.eraseDecls = m.eraseDecls := by
  intro st m ct m2 st2 h
  rw [get_or_create_concrete_type_m] at h
  split at h
  · simp only [except_bind_ok_iff, except_pure_eq, Except.ok.injEq, Prod.mk.injEq] at h
    obtain ⟨⟨rsx, m2x, st2x⟩, hcci, hct, hm, hst⟩ := h
    subst hct hm hst
    exact ih.cci_ok _ _ _ _ _ hcci
  · simp only [except_bind_ok_iff, except_pure_eq] at h
    obtain ⟨⟨raw, m2x, st2x⟩, hraw, h⟩ := h
    obtain ⟨hsle, hm, hpois⟩ := ih.irc_ok _ _ _ _ _ hraw
    split at h
    · simp only [Except.ok.injEq, Prod.mk.injEq] at h
      obtain ⟨hct, hm2, hst⟩ := h
      subst hct hm2 hst
      exact ⟨hsle, hm⟩
    · simp only [Except.ok.injEq, Prod.mk.injEq] at h
      obtain ⟨hct, hm2, hst⟩ := h
      subst hct hm2 hst
      refine ⟨hsle.trans ?_, hm⟩
      refine (StoreLe.storeAppend _ _ _ ?_).trans (StoreLe.bumpFresh _ _)
      rw [poisoned_withJit]
      exact hpois

theorem master_succ_gocm_err (n : Nat) (ih : Master n) :
    ∀ st m e, get_or_create_concrete_type_m (n+1) st m = .error e → e.isUCE = false := by
  intro st m e h
  rw [get_or_create_concrete_type_m] at h
  split at h
  · next hcont =>
    simp only [except_bind_err_iff, except_pure_eq] at h
    rcases h with h | ⟨⟨rsx, m2x, st2x⟩, _, h⟩
    · exact ih.cci_err _ _ _ h (by simpa using hcont)
    · cases h
  · simp only [except_bind_err_iff, except_pure_eq] at h
    rcases h with h | ⟨⟨raw, m2x, st2x⟩, _, h⟩
    · exact ih.irc_err _ _ _ h
    · split at h <;> cases h

theorem master_succ_csm_ok (n : Nat) (ih : Master n) :
    ∀ st m stubs sm m2 st2,
    create_script_module (n+1) st m stubs = .ok (sm, m2, st2) →
    StoreLe st st2 ∧ m2.eraseDecls = m.eraseDecls := by
  intro st m stubs sm m2 st2 h
  rw [create_script_module] at h
  simp only [except_bind_ok_iff, except_pure_eq] at h
  obtain ⟨u, _, ⟨ctx, m2x, st2x⟩, hg, h⟩ := h
  obtain ⟨hsle1, hm1⟩ := ih.gocm_ok _ _ _ _ _ hg
  split at h
  · cases h
  · obtain ⟨hsle2, hm2⟩ := ih.impl_ok _ _ _ _ _ _ _ _ h
    exact ⟨hsle1.trans hsle2, hm2.trans hm1⟩

theorem master_succ_csm_err (n : Nat) (ih : Master n) :
    ∀ st m stubs e, create_script_module (n+1) st m stubs = .error e → e.isUCE = false := by
  intro st m stubs e h
  rw [create_script_module] at h
  simp only [except_bind_err_iff, except_bind_ok_iff, except_pure_eq] at h
  rcases h with h | ⟨u, _, h⟩
  · rw [check_module_initialized_err_shape h]; rfl
  rcases h with h | ⟨⟨ctx, m2x, st2x⟩, _, h⟩
  · exact ih.gocm_err _ _ _ h
  · split at h
    · cases h; rfl
    · exact ih.impl_err _ _ _ _ _ _ h

theorem master_succ_impl_ok (n : Nat) (ih : Master n) :
    ∀ st m ct j stubs sm m2 st2,
    create_script_module_impl (n+1) st m ct j stubs = .ok (sm, m2, st2) →
    StoreLe st st2 ∧ m2.eraseDecls = m.eraseDecls := by
  intro st m ct j stubs sm m2 st2 h
  rw [create_script_module_impl] at h
  split at h
  · cases h
  · simp only [except_bind_ok_iff, except_pure_eq, Except.ok.injEq, Prod.mk.injEq] at h
    obtain ⟨⟨prs, ats⟩, _, ⟨children, subs2, stA⟩, hisub, hsm, hm, hst⟩ := h
    subst hsm hm hst
    obtain ⟨hsle1, hsub⟩ := ih.isub_ok _ _ _ _ _ _ hisub
    refine ⟨hsle1.trans (StoreLe.compileStep _ _ _), eraseDecls_setSubmods_eq ?_⟩
    exact hsub.trans (by rfl)

theorem master_succ_impl_err (n : Nat) (ih : Master n) :
    ∀ st m ct j stubs e,
    create_script_module_impl (n+1) st m ct j stubs = .error e → e.isUCE = false := by
  intro st m ct j stubs e h
  rw [create_script_module_impl] at h
  split at h
  · cases h; rfl
  · simp only [except_bind_err_iff, except_bind_ok_iff, except_pure_eq] at h
    rcases h with h | ⟨⟨prs, ats⟩, _, h⟩
    · obtain ⟨nm, rfl⟩ := register_attrs_err_shape h
      rfl
    rcases h with h | ⟨⟨children, subs2, stA⟩, _, h⟩
    · exact ih.isub_err _ _ _ _ h
    · cases h

theorem master_succ_isub_ok (n : Nat) (ih : Master n) :
    ∀ st subs mods ch subs2 st2,
    impl_submodules (n+1) st subs mods = .ok (ch, subs2, st2) →
    StoreLe st st2 ∧ subs2.eraseDecls = subs.eraseDecls := by
  intro st subs mods ch subs2 st2 h
  cases mods with
  | nil =>
    rw [impl_submodules] at h
    cases h
    exact ⟨StoreLe.rfl st, rfl⟩
  | cons nm entry t =>
    rw [impl_submodules] at h
    split at h
    · cases h
    · next orig hfind =>
      split at h <;>
      · simp only [except_bind_ok_iff, except_pure_eq, Except.ok.injEq,
          Prod.mk.injEq] at h
        obtain ⟨⟨scripted, orig2, stX⟩, hscr, ⟨chT, subs3, stY⟩, hrec, hch, hs, hst⟩ := h
        subst hch hs hst
        have horig : StoreLe st stX ∧ orig2.eraseDecls = orig.eraseDecls := by
          first
            | exact ih.ifs_ok _ _ _ _ _ _ hscr
            | exact ih.rs_ok _ _ _ _ _ hscr
        obtain ⟨hsle2, hsub2⟩ := ih.isub_ok _ _ _ _ _ _ hrec
        refine ⟨horig.1.trans hsle2, hsub2.trans ?_⟩
        exact eraseDecls_set_of_eq _ _ _ _ hfind horig.2

theorem master_succ_isub_err (n : Nat) (ih : Master n) :
    ∀ st subs mods e, impl_submodules (n+1) st subs mods = .error e → e.isUCE = false := by
  intro st subs mods e h
  cases mods with
  | nil => rw [impl_submodules] at h; cases h
  | cons nm entry t =>
    rw [impl_submodules] at h
    split at h
    · cases h; rfl
    · split at h <;>
      · simp only [except_bind_err_iff, except_bind_ok_iff, except_pure_eq] at h
        rcases h with h | ⟨⟨scripted, orig2, stX⟩, _, h⟩
        · first
            | exact ih.ifs_err _ _ _ _ h
            | exact ih.rs_err _ _ _ h
        rcases h with h | ⟨⟨chT, subs3, stY⟩, _, h⟩
        · exact ih.isub_err _ _ _ _ h
        · cases h

theorem master_succ_rs_ok (n : Nat) (ih : Master n) :
    ∀ st c sm c2 st2, recursive_script (n+1) st c = .ok (sm, c2, st2) →
    StoreLe st st2 ∧ c2.eraseDecls = c.eraseDecls := by
  intro st c sm c2 st2 h
  cases c with
  | script s =>
    rw [recursive_script] at h
    cases h
    exact ⟨StoreLe.rfl st, rfl⟩
  | plain m =>
    rw [recursive_script] at h
    simp only [except_bind_ok_iff, except_pure_eq] at h
    obtain ⟨u, _, h⟩ := h
    split at h
    · simp only [except_bind_ok_iff, except_pure_eq, Except.ok.injEq, Prod.mk.injEq] at h
      obtain ⟨⟨rsx, m2x, st2x⟩, hcci, hsm, hc, hst⟩ := h
      subst hsm hc hst
      obtain ⟨hsle, hm⟩ := ih.cci_ok _ _ _ _ _ hcci
      exact ⟨hsle, by simp [hm]⟩
    · simp only [except_bind_ok_iff, except_pure_eq, Except.ok.injEq, Prod.mk.injEq] at h
      obtain ⟨⟨stubs, m2x⟩, himtc, ⟨smx, m3x, st2x⟩, hcsm, hsm, hc, hst⟩ := h
      subst hsm hc hst
      obtain ⟨hsle, hm⟩ := ih.csm_ok _ _ _ _ _ _ hcsm
      have hme : m2x.eraseDecls = m.eraseDecls := by
        rw [infer_methods_to_compile_module_shape himtc]
        simp
      exact ⟨hsle, by simp [hm, hme]⟩

theorem master_succ_rs_err (n : Nat) (ih : Master n) :
    ∀ st c e, recursive_script (n+1) st c = .error e → e.isUCE = false := by
  intro st c e h
  cases c with
  | script s => rw [recursive_script] at h; cases h
  | plain m =>
    rw [recursive_script] at h
    simp only [except_bind_err_iff, except_bind_ok_iff, except_pure_eq] at h
    rcases h with h | ⟨u, _, h⟩
    · rw [check_module_initialized_err_shape h]; rfl
    split at h
    · next hcont =>
      simp only [except_bind_err_iff, except_bind_ok_iff, except_pure_eq] at h
      rcases h with h | ⟨⟨rsx, m2x, st2x⟩, _, h⟩
      · exact ih.cci_err _ _ _ h (by simpa using hcont)
      · cases h
    · simp only [except_bind_err_iff, except_bind_ok_iff, except_pure_eq] at h
      rcases h with h | ⟨⟨stubs, m2x⟩, _, h⟩
      · exact infer_methods_to_compile_err_not_uce h
      rcases h with h | ⟨⟨smx, m3x, st2x⟩, _, h⟩
      · exact ih.csm_err _ _ _ _ h
      · cases h

theorem master_succ_ifs_ok (n : Nat) (ih : Master n) :
    ∀ st names c sm c2 st2, interface_script (n+1) st names c = .ok (sm, c2, st2) →
    StoreLe st st2 ∧ c2.eraseDecls = c.eraseDecls := by
  intro st names c sm c2 st2 h
  cases c with
  | script s =>
    rw [interface_script] at h
    cases h
    exact ⟨StoreLe.rfl st, rfl⟩
  | plain m =>
    rw [interface_script] at h
    simp only [except_bind_ok_iff, except_pure_eq, Except.ok.injEq, Prod.mk.injEq] at h
    obtain ⟨u, _, stubs, _, ⟨smx, m2x, st2x⟩, hcsm, hsm, hc, hst⟩ := h
    subst hsm hc hst
    obtain ⟨hsle, hm⟩ := ih.csm_ok _ _ _ _ _ _ hcsm
    exact ⟨hsle, by simp [hm]⟩

theorem master_succ_ifs_err (n : Nat) (ih : Master n) :
    ∀ st names c e, interface_script (n+1) st names c = .error e → e.isUCE = false := by
  intro st names c e h
  cases c with
  | script s => rw [interface_script] at h; cases h
  | plain m =>
    rw [interface_script] at h
    simp only [except_bind_err_iff, except_bind_ok_iff, except_pure_eq] at h
    rcases h with h | ⟨u, _, h⟩
    · rw [check_module_initialized_err_shape h]; rfl
    rcases h with h | ⟨stubs, _, h⟩
    · exact infer_interface_methods_err_not_uce h
    rcases h with h | ⟨⟨smx, m2x, st2x⟩, _, h⟩
    · exact ih.csm_err _ _ _ _ h
    · cases h

theorem master_succ_cci_ok (n : Nat) (ih : Master n) :
    ∀ st m rs m2 st2, create_constant_iterable_module (n+1) st m = .ok (rs, m2, st2) →
    StoreLe st st2 ∧ m2.eraseDecls = m.eraseDecls := by
  intro st m rs m2 st2 h
  rw [create_constant_iterable_module] at h
  simp only [except_bind_ok_iff, except_pure_eq] at h
  obtain ⟨⟨children, subs2, stA⟩, hcs, h⟩ := h
  obtain ⟨hsle1, hsub⟩ := ih.ccis_ok _ _ _ _ _ hcs
  have herase : (m.setSubmods subs2).eraseDecls = m.eraseDecls :=
    eraseDecls_setSubmods_eq (hsub.trans (by rfl))
  have hb : ∀ k, StoreLe stA (mk_const_container k children stA).2 := by
    intro k
    simp only [mk_const_container]
    exact StoreLe.bumpFresh stA (stA.fresh + 1)
  split at h
  · simp only [Except.ok.injEq, Prod.mk.injEq] at h
    obtain ⟨hrs, hm, hst⟩ := h
    subst hrs hm hst
    exact ⟨hsle1.trans (hb _), herase⟩
  · split at h
    · simp only [Except.ok.injEq, Prod.mk.injEq] at h
      obtain ⟨hrs, hm, hst⟩ := h
      subst hrs hm hst
      exact ⟨hsle1.trans (hb _), herase⟩
    · split at h
      · simp only [Except.ok.injEq, Prod.mk.injEq] at h
        obtain ⟨hrs, hm, hst⟩ := h
        subst hrs hm hst
        exact ⟨hsle1.trans (hb _), herase⟩
      · cases h

theorem master_succ_cci_err (n : Nat) (ih : Master n) :
    ∀ st m e, create_constant_iterable_module (n+1) st m = .error e →
    containerClass m.cls = true → e.isUCE = false := by
  intro st m e h hcont
  rw [create_constant_iterable_module] at h
  simp only [except_bind_err_iff, except_pure_eq] at h
  rcases h with h | ⟨⟨children, subs2, stA⟩, _, h⟩
  · exact ih.ccis_err _ _ _ h
  · split at h
    · cases h
    split at h
    · cases h
    split at h
    · cases h
    · next h1 h2 h3 =>
      simp only [containerClass, Bool.or_eq_true] at hcont
      rcases hcont with (hc | hc) | hc
      · exact absurd hc (by simpa using h2)
      · exact absurd hc (by simpa using h1)
      · exact absurd hc (by simpa using h3)

theorem master_succ_ccis_ok (n : Nat) (ih : Master n) :
    ∀ st subs ch subs2 st2, cci_submodules (n+1) st subs = .ok (ch, subs2, st2) →
    StoreLe st st2 ∧ subs2.eraseDecls = subs.eraseDecls := by
  intro st subs ch subs2 st2 h
  cases subs with
  | nil =>
    rw [cci_submodules] at h
    cases h
    exact ⟨StoreLe.rfl st, rfl⟩
  | cons k sub t =>
    rw [cci_submodules.eq_def] at h
    dsimp only at h
    split at h
    · next sm =>
      split at h
      · simp only [except_bind_ok_iff, except_pure_eq, Except.ok.injEq,
          Prod.mk.injEq] at h
        obtain ⟨⟨r, sm2, s2⟩, hcci, ⟨chT, tT, stY⟩, hmid, ⟨chR, subsR, stR⟩,
          hs, hch, hsubs, hst⟩ := h
        dsimp only at hmid hs hch hsubs
        injection hmid with hm1 hmid
        injection hmid with hm2 hm3
        subst hm1 hm2 hm3
        subst hch hsubs hst
        obtain ⟨hsle, hm⟩ := ih.cci_ok _ _ _ _ _ hcci
        obtain ⟨hsle2, hs2⟩ := ih.ccis_ok _ _ _ _ _ hs
        exact ⟨hsle.trans hsle2, by simp [hs2, hm]⟩
      · simp only [except_bind_ok_iff, except_pure_eq, Except.ok.injEq,
          Prod.mk.injEq] at h
        obtain ⟨⟨rsx, sub2, stX⟩, hrs, ⟨chR, subsR, stR⟩, hs, hch, hsubs, hst⟩ := h
        subst hch hsubs hst
        obtain ⟨hsle, hm⟩ := ih.rs_ok _ _ _ _ _ hrs
        obtain ⟨hsle2, hs2⟩ := ih.ccis_ok _ _ _ _ _ hs
        exact ⟨hsle.trans hsle2, by simp [hs2, hm]⟩
    · next s =>
      simp only [except_bind_ok_iff, except_pure_eq, Except.ok.injEq,
        Prod.mk.injEq] at h
      obtain ⟨⟨rsx, sub2, stX⟩, hrs, ⟨chR, subsR, stR⟩, hs, hch, hsubs, hst⟩ := h
      subst hch hsubs hst
      obtain ⟨hsle, hm⟩ := ih.rs_ok _ _ _ _ _ hrs
      obtain ⟨hsle2, hs2⟩ := ih.ccis_ok _ _ _ _ _ hs
      exact ⟨hsle.trans hsle2, by simp [hs2, hm]⟩

theorem master_succ_ccis_err (n : Nat) (ih : Master n) :
    ∀ st subs e, cci_submodules (n+1) st subs = .error e → e.isUCE = false := by
  intro st subs e h
  cases subs with
  | nil => rw [cci_submodules] at h; cases h
  | cons k sub t =>
    rw [cci_submodules.eq_def] at h
    dsimp only at h
    split at h
    · next sm =>
      split at h
      · next hcont =>
        simp only [except_bind_err_iff, except_bind_ok_iff, except_pure_eq] at h
        rcases h with h | ⟨⟨r, sm2, s2⟩, _, h⟩
        · exact ih.cci_err _ _ _ h (by simpa using hcont)
        rcases h with h | ⟨⟨chT, tT, stY⟩, _, h⟩
        · cases h
        rcases h with h | ⟨⟨chR, subsR, stR⟩, _, h⟩
        · exact ih.ccis_err _ _ _ h
        · cases h
      · simp only [except_bind_err_iff, except_bind_ok_iff, except_pure_eq] at h
        rcases h with h | ⟨⟨rsx, sub2, stX⟩, _, h⟩
        · exact ih.rs_err _ _ _ h
        rcases h with h | ⟨⟨chR, subsR, stR⟩, _, h⟩
        · exact ih.ccis_err _ _ _ h
        · cases h
    · next s =>
      simp only [except_bind_err_iff, except_bind_ok_iff, except_pure_eq] at h
      rcases h with h | ⟨⟨rsx, sub2, stX⟩, _, h⟩
      · exact ih.rs_err _ _ _ h
      rcases h with h | ⟨⟨chR, subsR, stR⟩, _, h⟩
      · exact ih.ccis_err _ _ _ h
      · cases h

/-- The master invariant holds at every fuel. -/
theorem master : ∀ n, Master n := by
  intro n
  induction n with
  | zero => exact master_zero
  | succ n ih =>
    exact {
      irc_ok := master_succ_irc_ok n ih
      irc_err := master_succ_irc_err n ih
      subs_ok := master_succ_subs_ok n ih
      subs_err := master_succ_subs_err n ih
      goc_ok := master_succ_goc_ok n ih
      goc_err := master_succ_goc_err n ih
      gocm_ok := master_succ_gocm_ok n ih
      gocm_err := master_succ_gocm_err n ih
      csm_ok := master_succ_csm_ok n ih
      csm_err := master_succ_csm_err n ih
      impl_ok := master_succ_impl_ok n ih
      impl_err := master_succ_impl_err n ih
      isub_ok := master_succ_isub_ok n ih
      isub_err := master_succ_isub_err n ih
      rs_ok := master_succ_rs_ok n ih
      rs_err := master_succ_rs_err n ih
      ifs_ok := master_succ_ifs_ok n ih
      ifs_err := master_succ_ifs_err n ih
      cci_ok := master_succ_cci_ok n ih
      cci_err := master_succ_cci_err n ih
      ccis_ok := master_succ_ccis_ok n ih
      ccis_err := master_succ_ccis_err n ih }

/-! ### Result-shape lemmas -/

@[simp] theorem poisoned_set_poisoned (ct : ConcreteMT) :
    ct.set_poisoned.poisoned = true := by cases ct; rfl

@[simp] theorem jitType_set_poisoned (ct : ConcreteMT) :
    ct.set_poisoned.jitType = ct.jitType := by cases ct; rfl

/-- What `create_script_module_impl` returns: the wrapper is bound to the
given backend type, records the given concrete type, carries the overlay
dictionary built from the stubs, and afterwards the backend type is in the
compiled set. -/
theorem create_script_module_impl_shape {n : Nat} {st : Store} {m : Module}
    {ct : ConcreteMT} {j : Nat} {stubs : List ScriptMethodStub} {sm : RSModule}
    {m2 : Module} {st2 : Store}
    (h : create_script_module_impl (n+1) st m ct j stubs = .ok (sm, m2, st2)) :
    sm.concreteType = ct ∧ sm.cppType = j ∧ j ∈ st2.methods_compiled ∧
    sm.overlayDict = build_overlay stubs ∧ sm.kind = .plainModule ∧
    sm.ignoredNames = ignored_method_names m2 := by
  rw [create_script_module_impl] at h
  split at h
  · cases h
  · simp only [except_bind_ok_iff, except_pure_eq, Except.ok.injEq, Prod.mk.injEq] at h
    obtain ⟨⟨prs, ats⟩, _, ⟨children, subs2, stA⟩, _, hsm, hm, hst⟩ := h
    subst hsm hm hst
    refine ⟨rfl, rfl, ?_, rfl, rfl, rfl⟩
    split
    · next hmem => exact hmem
    · exact List.mem_append_right _ (List.mem_singleton.mpr rfl)

/-- The constant-container path always produces an unpoisoned concrete type
carrying a backend type. -/
theorem cci_concreteType_shape {k : Nat} {st : Store} {m : Module} {rs : RSModule}
    {m2 : Module} {st2 : Store}
    (h : create_constant_iterable_module (k+1) st m = .ok (rs, m2, st2)) :
    rs.concreteType.poisoned = false ∧ rs.concreteType.jitType.isSome := by
  rw [create_constant_iterable_module] at h
  simp only [except_bind_ok_iff, except_pure_eq] at h
  obtain ⟨⟨children, subs2, stA⟩, _, h⟩ := h
  split at h
  · simp only [Except.ok.injEq, Prod.mk.injEq] at h
    obtain ⟨hrs, _, _⟩ := h
    subst hrs
    simp [mk_const_container, ConcreteMT.base, ConcreteMT.withMods,
      ConcreteMT.withJit, ConcreteMT.poisoned, ConcreteMT.jitType,
      RSModule.concreteType]
  · split at h
    · simp only [Except.ok.injEq, Prod.mk.injEq] at h
      obtain ⟨hrs, _, _⟩ := h
      subst hrs
      simp [mk_const_container, ConcreteMT.base, ConcreteMT.withMods,
        ConcreteMT.withJit, ConcreteMT.poisoned, ConcreteMT.jitType,
        RSModule.concreteType]
    · split at h
      · simp only [Except.ok.injEq, Prod.mk.injEq] at h
        obtain ⟨hrs, _, _⟩ := h
        subst hrs
        simp [mk_const_container, ConcreteMT.base, ConcreteMT.withMods,
          ConcreteMT.withJit, ConcreteMT.poisoned, ConcreteMT.jitType,
          RSModule.concreteType]
      · cases h

theorem mem_of_find?_eq_some {p : ConcreteMT → Bool} {l : List ConcreteMT}
    {x : ConcreteMT} (h : l.find? p = some x) : x ∈ l := List.mem_of_find?_eq_some h

/-- The general path of `resolve` on a clean store never hands out a
poisoned ConcreteType: a cache hit comes from the (clean) per-class list
and a miss materializes the freshly inferred raw type. -/
theorem resolve_clean_not_poisoned {k : Nat} {st : Store} {m : Module}
    {ct : ConcreteMT} {m2 : Module} {st2 : Store} (hclean : st.Clean)
    (h : get_or_create_concrete_type_m (k+2) st m = .ok (ct, m2, st2)) :
    ct.poisoned = false := by
  rw [get_or_create_concrete_type_m] at h
  split at h
  · simp only [except_bind_ok_iff, except_pure_eq, Except.ok.injEq, Prod.mk.injEq] at h
    obtain ⟨⟨rsx, m2x, st2x⟩, hcci, hct, _, _⟩ := h
    subst hct
    exact (cci_concreteType_shape hcci).1
  · simp only [except_bind_ok_iff, except_pure_eq] at h
    obtain ⟨⟨raw, m2x, st2x⟩, hraw, h⟩ := h
    obtain ⟨hsle, _, hpois⟩ := (master (k+1)).irc_ok _ _ _ _ _ hraw
    split at h
    · next kt hfind =>
      simp only [Except.ok.injEq, Prod.mk.injEq] at h
      obtain ⟨hct, _, _⟩ := h
      subst hct
      exact (hsle.2.2.2.2 hclean) _ _ (mem_of_find?_eq_some hfind)
    · simp only [Except.ok.injEq, Prod.mk.injEq] at h
      obtain ⟨hct, _, _⟩ := h
      subst hct
      rw [poisoned_withJit]
      exact hpois

/-- What the traced build produces: a wrapper over a poisoned concrete type
whose backend id has been entered into the compiled set, while the store
otherwise only grows (in particular a clean type store stays clean: the
poisoned type is never added to a per-class list). -/
theorem create_script_module_for_tracing_shape {n : Nat} {st : Store} {m : Module}
    {stubs : List ScriptMethodStub} {sm : RSModule} {m2 : Module} {st2 : Store}
    (h : create_script_module_for_tracing (n+2) st m stubs = .ok (sm, m2, st2)) :
    sm.concreteType.poisoned = true ∧ sm.cppType ∈ st2.methods_compiled ∧
    StoreLe st st2 := by
  rw [create_script_module_for_tracing] at h
  simp only [except_bind_ok_iff, except_pure_eq] at h
  obtain ⟨u, _, ⟨raw, m2x, st2x⟩, hraw, h⟩ := h
  obtain ⟨hsle1, _, _⟩ := (master (n+1)).irc_ok _ _ _ _ _ hraw
  obtain ⟨hct, hcpp, hmem, _, _, _⟩ := create_script_module_impl_shape h
  obtain ⟨hsle2, _⟩ := (master (n+1)).impl_ok _ _ _ _ _ _ _ _ h
  refine ⟨?_, ?_, ?_⟩
  · rw [hct]; simp
  · rw [hcpp]; exact hmem
  · exact (hsle1.trans (StoreLe.bumpFresh _ _)).trans hsle2

theorem clean_init : Store.init.Clean := by
  intro cid ct hm
  simp [Store.storeList, Store.init, lookupN] at hm

theorem sync_init : Store.init.Sync := ⟨rfl, List.nodup_nil⟩

/-! ### Concrete fixtures and result extractors -/

def exampleClass : PyClass := ⟨1, "MyModule", false, false, false, false, false⟩

def forwardFn : FuncDef := ⟨"forward", 10, true, some .tensor⟩

def forwardDecl : MethodDecl :=
  { fn := forwardFn, exported := false, ignored := false, baseDefault := false,
    hasModule := true, overloadDecls := [] }

/-- A minimal scriptable module: one tensor parameter and an overridden
`forward`. -/
def mSimple : Module :=
  .mk exampleClass [("w", some (.vTensor 0))] [] .nil [] none none []
    [("forward", forwardDecl)] true

def junkCT : ConcreteMT := .mk exampleClass false false [] .nil [] [] [] [] false none

def junkRS : RSModule := .mk 0 junkCT [] [] .nil [] [] .plainModule

def junkModule : Module := .mk exampleClass [] [] .nil [] none none [] [] true

def okRS (r : Except JitErr (RSModule × Module × Store)) : RSModule :=
  match r with
  | .ok (x, _, _) => x
  | _ => junkRS

def okMod (r : Except JitErr (RSModule × Module × Store)) : Module :=
  match r with
  | .ok (_, x, _) => x
  | _ => junkModule

def okSt (r : Except JitErr (RSModule × Module × Store)) : Store :=
  match r with
  | .ok (_, _, x) => x
  | _ => Store.init

/-! ### Claim C2 -/

def c2run : Except JitErr (RSModule × Module × Store) :=
  create_script_module_for_tracing 6 Store.init mSimple []

/-- Claim C2, counterexample to the claim as stated: the claim says no part
of the TypeCache — including the set of types whose methods have been
compiled — is ever read from or written with a poisoned ConcreteType.  But
`create_script_module_for_tracing` hands its poisoned type to
`create_script_module_impl` (lines 391-394), which looks the type up in
`methods_compiled` and inserts it: after tracing a concrete module from an
empty store, the poisoned type's backend id sits in `methods_compiled`. -/
theorem claim2_counterexample :
    c2run = .ok (okRS c2run, okMod c2run, okSt c2run) ∧
    (okRS c2run).concreteType.poisoned = true ∧
    (okRS c2run).cppType ∈ (okSt c2run).methods_compiled := by
  refine ⟨rfl, by decide, by decide⟩

/-- Claim C2 (amended): a poisoned ConcreteType is never read from or
written into the per-class lists of previously inferred ConcreteTypes — a
traced build keeps a poison-free type store poison-free, and the general
resolve path on a clean store never returns a poisoned type — but the
traced build does write the poisoned type into the methods-compiled set, to
mark its one-time method compilation. -/
theorem claim2_poisoned_amended (n : Nat) (st : Store) (m : Module)
    (stubs : List ScriptMethodStub) (sm : RSModule) (m2 : Module) (st2 : Store)
    (h : create_script_module_for_tracing (n+2) st m stubs = .ok (sm, m2, st2))
    (hclean : st.Clean) :
    sm.concreteType.poisoned = true ∧ st2.Clean ∧
    sm.cppType ∈ st2.methods_compiled ∧
    (∀ k st3 m3 ct3 m4 st4, Store.Clean st3 →
      get_or_create_concrete_type_m (k+2) st3 m3 = .ok (ct3, m4, st4) →
      ct3.poisoned = false) := by
  obtain ⟨hpois, hmem, hsle⟩ := create_script_module_for_tracing_shape h
  exact ⟨hpois, hsle.2.2.2.2 hclean, hmem,
    fun k st3 m3 ct3 m4 st4 hc hg => resolve_clean_not_poisoned hc hg⟩

/-- Claim C2 amended, witness at a concrete input. -/
theorem claim2_poisoned_amended_witness :
    (okRS c2run).concreteType.poisoned = true ∧ (okSt c2run).Clean ∧
    (okRS c2run).cppType ∈ (okSt c2run).methods_compiled :=
  let H := claim2_poisoned_amended 4 Store.init mSimple [] (okRS c2run)
    (okMod c2run) (okSt c2run) rfl clean_init
  ⟨H.1, H.2.1, H.2.2.1⟩

/-! ### Claim C10 -/

/-- Claim C10: compiling an already-compiled module is the identity: on a
component that is already a ScriptModule, `recursive_script` and
`interface_script` return that very object with the store untouched (so no
ConcreteType is inferred, no CompiledType materialized and no method
recompiled), and the type-sharing cache's fast path returns its recorded
concrete type, also without touching the store. -/
theorem claim10_idempotent (n : Nat) (st : Store) (sm : RSModule)
    (names : List String) :
    recursive_script (n+1) st (.script sm) = .ok (sm, .script sm, st) ∧
    interface_script (n+1) st names (.script sm) = .ok (sm, .script sm, st) ∧
    get_or_create_concrete_type (n+1) st (.script sm) =
      .ok (sm.concreteType, .script sm, st) :=
  ⟨rfl, rfl, rfl⟩

instance {ε α : Type} [DecidableEq ε] [DecidableEq α] : DecidableEq (Except ε α) :=
  fun a b =>
    match a, b with
    | .error e1, .error e2 =>
        if h : e1 = e2 then isTrue (by rw [h]) else isFalse (by simp [h])
    | .error _, .ok _ => isFalse (by simp)
    | .ok _, .error _ => isFalse (by simp)
    | .ok a1, .ok a2 =>
        if h : a1 = a2 then isTrue (by rw [h]) else isFalse (by simp [h])

/-! ### Claim C3 -/

def okICT (r : Except JitErr (ConcreteMT × Module × Store)) : ConcreteMT :=
  match r with
  | .ok (x, _, _) => x
  | _ => junkCT

def okIMod (r : Except JitErr (ConcreteMT × Module × Store)) : Module :=
  match r with
  | .ok (_, x, _) => x
  | _ => junkModule

def okISt (r : Except JitErr (ConcreteMT × Module × Store)) : Store :=
  match r with
  | .ok (_, _, x) => x
  | _ => Store.init

/-- A module declaring `__constants__ = ["c"]` together with a
`Final`-annotated attribute `d`: inference adds `d` into the existing
`__constants__` object in place (lines 129-134 of the source). -/
def mC3 : Module :=
  .mk exampleClass [] [] .nil [("d", .finalTy (.prim "int"))] (some ["c"]) none
    [⟨"c", .vBool true, true, false⟩, ⟨"d", .vInt 3, true, false⟩] [] true

def c3run : Except JitErr (ConcreteMT × Module × Store) :=
  infer_raw_concrete_type 6 Store.init mC3

/-- Claim C3, counterexample to the claim as stated: structural type
inference does not leave the component unchanged — on a module with
`__constants__ = ["c"]` and a `Final`-annotated attribute `d`, the
`__constants__` set read by `getattr` at line 129 is mutated in place by
`constants_set.add(name)` and afterwards contains `d`. -/
theorem claim3_counterexample :
    c3run = .ok (okICT c3run, okIMod c3run, okISt c3run) ∧
    (okIMod c3run).constantsDecl = some ["c", "d"] ∧
    mC3.constantsDecl = some ["c"] :=
  ⟨rfl, by decide, by decide⟩

/-- Claim C3 (amended): inference leaves the component unchanged except
possibly for its declared constant-name set and its declared overload map
(and those of its transitive submodules): `Final`-annotated names are added
in place to an existing `__constants__`, and annotation-discovered
overloads merged in place into an existing `__overloads__`; erasing those
two declaration attributes, the module tree returned by inference is the
module tree passed in. -/
theorem claim3_no_mutation_amended (n : Nat) (st : Store) (m : Module)
    (ct : ConcreteMT) (m2 : Module) (st2 : Store)
    (h : infer_raw_concrete_type n st m = .ok (ct, m2, st2)) :
    m2.eraseDecls = m.eraseDecls :=
  ((master n).irc_ok _ _ _ _ _ h).2.1

/-- Claim C3 amended, witness at a concrete input. -/
theorem claim3_no_mutation_amended_witness :
    (okIMod c3run).eraseDecls = mC3.eraseDecls :=
  claim3_no_mutation_amended 6 Store.init mC3 (okICT c3run) (okIMod c3run)
    (okISt c3run) rfl

/-! ### Claim C9 -/

/-- Claim C9 (amended): the iterable-container rule compiles the children
first and only then checks the container kind; consequently (i) on one of
the three recognized container kinds it never raises the
unsupported-container error, (ii) on anything else it never succeeds: it
raises the unsupported-container error naming the module's class exactly
when the children compile, and propagates the child's own (never
unsupported-container) error otherwise; (iii) on success the compiled form
is the constant collection matching the container kind. -/
theorem claim9_container_amended (n : Nat) (st : Store) (m : Module) :
    (∀ e, create_constant_iterable_module (n+1) st m = .error e →
       containerClass m.cls = true → e.isUCE = false) ∧
    (containerClass m.cls = false →
       (∀ rs m2 st2, create_constant_iterable_module (n+1) st m ≠ .ok (rs, m2, st2)) ∧
       (∀ ch subs2 stA, cci_submodules n st m.submods = .ok (ch, subs2, stA) →
          create_constant_iterable_module (n+1) st m =
            .error (.unsupportedContainer m.cls.cname)) ∧
       (∀ e, cci_submodules n st m.submods = .error e →
          create_constant_iterable_module (n+1) st m = .error e ∧ e.isUCE = false)) ∧
    (∀ rs m2 st2, create_constant_iterable_module (n+1) st m = .ok (rs, m2, st2) →
       rs.kind = (if m.cls.isSequential then RSKind.constSequential
                  else if m.cls.isModuleList then RSKind.constModuleList
                  else RSKind.constModuleDict)) := by
  refine ⟨fun e he => (master (n+1)).cci_err _ _ _ he, ?_, ?_⟩
  · intro hnc
    have h1 : m.cls.isSequential = false := by
      simp only [containerClass, Bool.or_eq_false_iff] at hnc
      exact hnc.1.2
    have h2 : m.cls.isModuleList = false := by
      simp only [containerClass, Bool.or_eq_false_iff] at hnc
      exact hnc.1.1
    have h3 : m.cls.isModuleDict = false := by
      simp only [containerClass, Bool.or_eq_false_iff] at hnc
      exact hnc.2
    refine ⟨?_, ?_, ?_⟩
    · intro rs m2 st2 hok
      rw [create_constant_iterable_module] at hok
      simp only [except_bind_ok_iff, except_pure_eq, h1, h2, h3, if_false,
        Bool.false_eq_true] at hok
      obtain ⟨⟨ch, subs2, stA⟩, _, hok⟩ := hok
      cases hok
    · intro ch subs2 stA hcs
      rw [create_constant_iterable_module]
      rw [show ((do
        let (children, subs2, st2) ← cci_submodules n st m.submods
        let m2 := m.setSubmods subs2
        if m.cls.isSequential = true then
          let (rs, st3) := mk_const_container .constSequential children st2
          pure (rs, m2, st3)
        else if m.cls.isModuleList = true then
          let (rs, st3) := mk_const_container .constModuleList children st2
          pure (rs, m2, st3)
        else if m.cls.isModuleDict = true then
          let (rs, st3) := mk_const_container .constModuleDict children st2
          pure (rs, m2, st3)
        else Except.error (.unsupportedContainer m.cls.cname)) :
          Except JitErr (RSModule × Module × Store)) = _ from rfl]
      rw [hcs]
      simp [Bind.bind, Except.bind, h1, h2, h3]
    · intro e hcs
      constructor
      · rw [create_constant_iterable_module]
        rw [show ((do
          let (children, subs2, st2) ← cci_submodules n st m.submods
          let m2 := m.setSubmods subs2
          if m.cls.isSequential = true then
            let (rs, st3) := mk_const_container .constSequential children st2
            pure (rs, m2, st3)
          else if m.cls.isModuleList = true then
            let (rs, st3) := mk_const_container .constModuleList children st2
            pure (rs, m2, st3)
          else if m.cls.isModuleDict = true then
            let (rs, st3) := mk_const_container .constModuleDict children st2
            pure (rs, m2, st3)
          else Except.error (.unsupportedContainer m.cls.cname)) :
            Except JitErr (RSModule × Module × Store)) = _ from rfl]
        rw [hcs]
        rfl
      · exact (master n).ccis_err _ _ _ hcs
  · intro rs m2 st2 hok
    rw [create_constant_iterable_module] at hok
    simp only [except_bind_ok_iff, except_pure_eq] at hok
    obtain ⟨⟨ch, subs2, stA⟩, _, hok⟩ := hok
    split at hok
    · next hseq =>
      simp only [Except.ok.injEq, Prod.mk.injEq] at hok
      obtain ⟨hrs, _, _⟩ := hok
      subst hrs
      simp [mk_const_container, RSModule.kind, hseq]
    · next hseq =>
      split at hok
      · next hlist =>
        simp only [Except.ok.injEq, Prod.mk.injEq] at hok
        obtain ⟨hrs, _, _⟩ := hok
        subst hrs
        simp only [Bool.not_eq_true] at hseq
        simp [mk_const_container, RSModule.kind, hseq, hlist]
      · next hlist =>
        split at hok
        · simp only [Except.ok.injEq, Prod.mk.injEq] at hok
          obtain ⟨hrs, _, _⟩ := hok
          subst hrs
          simp only [Bool.not_eq_true] at hseq hlist
          simp [mk_const_container, RSModule.kind, hseq, hlist]
        · cases hok

def badChildClass : PyClass := ⟨2, "BadChild", false, false, false, false, false⟩

/-- A module declaring a constant `k` whose value is a tensor — not
constant-representable, so its inference fails. -/
def badChild : Module :=
  .mk badChildClass [] [] .nil [] (some ["k"]) none [⟨"k", .vTensor 5, true, false⟩] [] true

def notContainerClass : PyClass := ⟨3, "NotAContainer", false, false, false, false, false⟩

/-- A non-container module with a child whose compilation fails. -/
def mC9 : Module :=
  .mk notContainerClass [] [] (.cons "c" (.plain badChild) .nil) [] none none [] [] true

/-- Claim C9, counterexample to the claim as stated: the claim says the
iterable-container rule raises UnsupportedContainerError if and only if the
module is not one of the three recognized container kinds.  `mC9` is not a
container, yet the rule raises the child's UnsupportedConstantError:
children are compiled before the container-kind check, so a failing child
preempts the container error. -/
theorem claim9_counterexample :
    containerClass mC9.cls = false ∧
    create_constant_iterable_module 8 Store.init mC9 =
      .error (.unsupportedConstant "k" "Tensor") ∧
    JitErr.isUCE (.unsupportedConstant "k" "Tensor") = false :=
  ⟨by decide, by decide, by decide⟩

/-- Claim C9 amended, witness at a concrete input. -/
theorem claim9_container_amended_witness :
    create_constant_iterable_module 8 Store.init mC9 =
      .error (.unsupportedConstant "k" "Tensor") ∧
    JitErr.isUCE (.unsupportedConstant "k" "Tensor") = false :=
  ((claim9_container_amended 7 Store.init mC9).2.1 (by decide)).2.2
    (.unsupportedConstant "k" "Tensor") (by decide)

/-! ### Which names end up in the attribute list (for claim C4) -/

@[simp] theorem attrs_add_attribute (ct : ConcreteMT) (n : String) (t : Option Ty)
    (p : Bool) : (ct.add_attribute n t p).attrs = ct.attrs ++ [(n, t, p)] := by
  cases ct; rfl

@[simp] theorem attrs_add_module_interface (ct : ConcreteMT) (n : String) (t : Ty) :
    (ct.add_module_interface n t).attrs = ct.attrs := by cases ct; rfl

@[simp] theorem attrs_add_module (ct : ConcreteMT) (n : String) (s : ConcreteMT) :
    (ct.add_module n s).attrs = ct.attrs := by cases ct; rfl

@[simp] theorem attrs_add_constant (ct : ConcreteMT) (n : String) (v : PyVal) :
    (ct.add_constant n v).attrs = ct.attrs := by cases ct; rfl

@[simp] theorem attrs_add_function_attribute (ct : ConcreteMT) (n : String)
    (t : Option Ty) (f : FuncDef) :
    (ct.add_function_attribute n t f).attrs = ct.attrs := by cases ct; rfl

@[simp] theorem attrs_add_failed_attribute (ct : ConcreteMT) (n hint : String) :
    (ct.add_failed_attribute n hint).attrs = ct.attrs := by cases ct; rfl

@[simp] theorem attrs_add_overload (ct : ConcreteMT) (n : String) (l : List String) :
    (ct.add_overload n l).attrs = ct.attrs := by cases ct; rfl

@[simp] theorem attrs_base (c : PyClass) : (ConcreteMT.base c).attrs = [] := rfl

theorem attrs_add_overloads (ct : ConcreteMT) (l : List (String × List String)) :
    (add_overloads ct l).attrs = ct.attrs := by
  induction l generalizing ct with
  | nil => rfl
  | cons hd tl ih => simp [add_overloads, List.foldl] at ih ⊢; rw [ih]; simp

theorem attrs_process_constant {m : Module} {acc : ConcreteMT × List String × Store}
    {n : String} {acc2 : ConcreteMT × List String × Store}
    (h : process_constant m acc n = .ok acc2) : acc2.1.attrs = acc.1.attrs := by
  obtain ⟨ct, added, st⟩ := acc
  simp only [process_constant] at h
  split at h
  · cases h; rfl
  · split at h
    · cases h; rfl
    · split at h
      · cases h
      · simp only [except_bind_ok_iff, except_pure_eq, Except.ok.injEq] at h
        obtain ⟨v2, _, h2⟩ := h
        rw [← h2]
        simp

theorem attrs_process_constants {m : Module} {names : List String}
    {acc acc2 : ConcreteMT × List String × Store}
    (h : process_constants m names acc = .ok acc2) : acc2.1.attrs = acc.1.attrs := by
  induction names generalizing acc with
  | nil =>
    simp only [process_constants, List.foldlM] at h
    cases h; rfl
  | cons hd tl ih =>
    simp only [process_constants, List.foldlM, except_bind_ok_iff] at h
    obtain ⟨acc1, h1, h2⟩ := h
    exact (ih (by simpa [process_constants] using h2)).trans (attrs_process_constant h1)

theorem attrs_infer_submodules : ∀ {n : Nat} {st : Store} {m : Module}
    {subs : SubmoduleList} {ct : ConcreteMT} {added : List String}
    {ct2 : ConcreteMT} {subs2 : SubmoduleList} {added2 : List String} {st2 : Store},
    infer_submodules n st m subs ct added = .ok (ct2, subs2, added2, st2) →
    ct2.attrs = ct.attrs := by
  intro n
  induction n with
  | zero => intro _ _ _ _ _ _ _ _ _ h; cases h
  | succ n ih =>
    intro st m subs ct added ct2 subs2 added2 st2 h
    cases subs with
    | nil => rw [infer_submodules] at h; cases h; rfl
    | cons nm item t =>
      rw [infer_submodules] at h
      split at h
      · simp only [except_bind_ok_iff, except_pure_eq, Except.ok.injEq,
          Prod.mk.injEq] at h
        obtain ⟨⟨ctR, tR, addedR, stR⟩, hrec, hct, _, _, _⟩ := h
        subst hct
        rw [ih hrec]; simp
      · simp only [except_bind_ok_iff, except_pure_eq, Except.ok.injEq,
          Prod.mk.injEq] at h
        obtain ⟨⟨subCt, item2, stX⟩, _, ⟨ctR, tR, addedR, stR⟩, hrec, hct, _, _, _⟩ := h
        subst hct
        rw [ih hrec]; simp

theorem add_tensor_attrs_mem {m : Module} {l : List (String × Option PyVal)}
    {isP : Bool} {ct : ConcreteMT} {added : List String} {ct2 : ConcreteMT}
    {added2 : List String} {x : String}
    (h : add_tensor_attrs m l isP ct added = .ok (ct2, added2))
    (hx : x ∈ ct2.attrs.map Prod.fst) :
    x ∈ ct.attrs.map Prod.fst ∨ ∃ v, (x, some v) ∈ l := by
  induction l generalizing ct added with
  | nil =>
    simp only [add_tensor_attrs, Except.ok.injEq, Prod.mk.injEq] at h
    rw [← h.1] at hx
    exact .inl hx
  | cons hd tl ih =>
    obtain ⟨n, v⟩ := hd
    cases v with
    | none =>
      rcases ih h with hl | ⟨v, hv⟩
      · exact .inl hl
      · exact .inr ⟨v, List.mem_cons_of_mem _ hv⟩
    | some v =>
      cases v <;> simp only [add_tensor_attrs] at h <;> try exact (by cases h)
      case vTensor tt =>
        rcases ih h with hl | ⟨v, hv⟩
        · simp only [attrs_add_attribute, List.map_append, List.mem_append] at hl
          rcases hl with hl | hl
          · exact .inl hl
          · simp only [List.map_cons, List.map_nil, List.mem_singleton] at hl
            exact .inr ⟨.vTensor tt, by rw [hl]; exact List.mem_cons_self _ _⟩
        · exact .inr ⟨v, List.mem_cons_of_mem _ hv⟩

theorem scan_remaining_step_mem {m : Module} {added : List String} {ct : ConcreteMT}
    {r : RestAttr} {x : String}
    (hx : x ∈ (scan_remaining_step m added ct r).attrs.map Prod.fst) :
    x ∈ ct.attrs.map Prod.fst ∨ r.aname = x := by
  unfold scan_remaining_step at hx
  repeat' split at hx
  all_goals try simp only [attrs_add_attribute, attrs_add_function_attribute,
    attrs_add_failed_attribute, List.map_append, List.mem_append] at hx
  all_goals
    first
      | exact .inl hx
      | (rcases hx with hx | hx
         · exact .inl hx
         · simp only [List.map_cons, List.map_nil, List.mem_singleton] at hx
           exact .inr hx.symm)

theorem scan_remaining_mem {m : Module} {added : List String} {ct : ConcreteMT}
    {x : String} (hx : x ∈ (scan_remaining m added ct).attrs.map Prod.fst) :
    x ∈ ct.attrs.map Prod.fst ∨ ∃ r ∈ m.rest, r.aname = x := by
  have core : ∀ (l : List RestAttr) (ct : ConcreteMT),
      x ∈ (l.foldl (scan_remaining_step m added) ct).attrs.map Prod.fst →
      x ∈ ct.attrs.map Prod.fst ∨ ∃ r ∈ l, r.aname = x := by
    intro l
    induction l with
    | nil => intro ct h; exact .inl h
    | cons hd tl ih =>
      intro ct h
      rcases ih _ h with h2 | ⟨r, hr, hname⟩
      · rcases scan_remaining_step_mem h2 with h3 | h3
        · exact .inl h3
        · exact .inr ⟨hd, List.mem_cons_self _ _, h3⟩
      · exact .inr ⟨r, List.mem_cons_of_mem _ hr, hname⟩
  exact core m.rest ct hx

@[simp] theorem rest_setSubmods (m : Module) (s : SubmoduleList) :
    (m.setSubmods s).rest = m.rest := by cases m; rfl

@[simp] theorem rest_setConstantsDecl (m : Module) (c : Option (List String)) :
    (m.setConstantsDecl c).rest = m.rest := by cases m; rfl

@[simp] theorem rest_setOverloadsDecl (m : Module)
    (o : Option (List (String × List String))) :
    (m.setOverloadsDecl o).rest = m.rest := by cases m; rfl

theorem lookupA_mem {α : Type} {l : List (String × α)} {x : String} {v : α}
    (h : lookupA l x = some v) : (x, v) ∈ l := by
  induction l with
  | nil => cases h
  | cons hd tl ih =>
    obtain ⟨n, w⟩ := hd
    by_cases hn : n = x
    · subst hn
      simp only [lookupA, if_true, eq_self_iff_true, Option.some.injEq] at h
      subst h
      exact List.mem_cons_self _ _
    · simp only [lookupA, if_neg hn] at h
      exact List.mem_cons_of_mem _ (ih h)

theorem mem_lookupA_isSome {α : Type} {l : List (String × α)} {x : String} {v : α}
    (h : (x, v) ∈ l) : (lookupA l x).isSome := by
  induction l with
  | nil => cases h
  | cons hd tl ih =>
    obtain ⟨n, w⟩ := hd
    by_cases hn : n = x
    · subst hn; simp [lookupA]
    · rcases List.mem_cons.mp h with h2 | h2
      · cases h2; simp_all
      · simp only [lookupA, if_neg hn]
        exact ih h2

theorem restFind?_none_not_mem {l : List RestAttr} {x : String}
    (h : restFind? l x = none) : ∀ r ∈ l, r.aname ≠ x := by
  induction l with
  | nil => intro r hr; cases hr
  | cons hd tl ih =>
    intro r hr
    simp only [restFind?] at h
    split at h
    · cases h
    · next hne =>
      rcases List.mem_cons.mp hr with rfl | hr2
      · exact hne
      · exact ih h r hr2

/-- Processing the declared constants of a module whose attribute `x` reads
as Python `None` can never raise the unsupported-constant error about `x`:
`None` is a valid constant. -/
theorem process_constants_no_error_on {m : Module} {x : String}
    (hv : m.getattrOpt x = some .vNone) :
    ∀ names acc t, process_constants m names acc ≠
      .error (.unsupportedConstant x t) := by
  intro names
  induction names with
  | nil => intro acc t h; simp [process_constants, List.foldlM] at h
  | cons hd tl ih =>
    intro acc t h
    simp only [process_constants, List.foldlM, except_bind_err_iff] at h
    rcases h with h | ⟨acc1, _, h⟩
    · obtain ⟨ct, added, st⟩ := acc
      simp only [process_constant] at h
      split at h
      · cases h
      · split at h
        · cases h
        · split at h
          · simp only [Except.error.injEq] at h
            exact JitErr.noConfusion h
          · next v hget =>
            simp only [except_bind_err_iff, except_pure_eq] at h
            rcases h with h | ⟨_, _, h⟩
            · obtain ⟨t2, he⟩ := get_valid_constant_err_shape _ _ _ h
              injection he with h1 h2
              subst h1
              rw [hv, Option.some.injEq] at hget
              rw [← hget] at h
              simp [get_valid_constant] at h
            · cases h
    · exact ih acc1 t (by simpa [process_constants] using h)

/-- Claim C4: a null-valued parameter or buffer named `x` is silently
dropped by inference: the resulting ConcreteType carries no attribute named
`x`, and no error is raised on account of `x` — in particular the
constants-processing loop can never raise the unsupported-constant error
about `x`, because `getattr` reads `x` as Python `None`, which is a valid
constant. -/
theorem claim4_null_param_dropped (n : Nat) (st : Store) (m : Module) (x : String)
    (ct : ConcreteMT) (m2 : Module) (st2 : Store)
    (hmem : (x, (none : Option PyVal)) ∈ m.params ∨
      (x, (none : Option PyVal)) ∈ m.buffers)
    (hp : ∀ p ∈ m.params, p.1 = x → p.2 = none)
    (hb : ∀ p ∈ m.buffers, p.1 = x → p.2 = none)
    (hr : restFind? m.rest x = none)
    (hmeth : lookupA m.methods x = none)
    (h : infer_raw_concrete_type n st m = .ok (ct, m2, st2)) :
    x ∉ ct.attrs.map Prod.fst ∧
    (∀ names acc t, process_constants m names acc ≠
      .error (.unsupportedConstant x t)) := by
  have hv : m.getattrOpt x = some .vNone := by
    unfold Module.getattrOpt
    rw [hr, hmeth]
    cases hpar : lookupA m.params x with
    | some ov =>
      have hov := hp _ (lookupA_mem hpar) rfl
      simp only at hov
      subst hov
      rfl
    | none =>
      cases hbuf : lookupA m.buffers x with
      | some ov =>
        have hov := hb _ (lookupA_mem hbuf) rfl
        simp only at hov
        subst hov
        rfl
      | none =>
        rcases hmem with hmm | hmm
        · have := mem_lookupA_isSome hmm
          rw [hpar] at this
          cases this
        · have := mem_lookupA_isSome hmm
          rw [hbuf] at this
          cases this
  refine ⟨?_, fun names acc t => process_constants_no_error_on hv names acc t⟩
  intro hx
  cases n with
  | zero => cases h
  | succ k =>
    rw [infer_raw_concrete_type] at h
    split at h
    · cases h
    · simp only [except_bind_ok_iff, except_pure_eq, Except.ok.injEq,
        Prod.mk.injEq] at h
      obtain ⟨⟨ct1, added1⟩, h1, ⟨ct2x, added2⟩, h2, ⟨ct3, subs2, added3, stA⟩, h3,
        ⟨ct4, added4, stB⟩, h4, hct, hmod, hst⟩ := h
      subst hct hmod hst
      rcases scan_remaining_mem hx with hx2 | ⟨r, hrmem, hrname⟩
      · rw [attrs_add_overloads] at hx2
        have e4 := attrs_process_constants h4
        have e3 := attrs_infer_submodules h3
        simp only at e4
        rw [e4, e3] at hx2
        rcases add_tensor_attrs_mem h2 hx2 with hx3 | ⟨v, hvmem⟩
        · rcases add_tensor_attrs_mem h1 hx3 with hx4 | ⟨v, hvmem⟩
          · simp at hx4
          · exact absurd (hp _ hvmem rfl) (by simp)
        · exact absurd (hb _ hvmem rfl) (by simp)
      · have hrest : ∀ r2, r2 ∈ m.rest → r2.aname ≠ x := restFind?_none_not_mem hr
        refine hrest r ?_ hrname
        revert hrmem
        split
        · split
          · simp
          · simp
        · split
          · simp
          · simp

/-- A module with a null parameter `p` that is silently dropped. -/
def mC4 : Module :=
  .mk exampleClass [("p", none), ("w", some (.vTensor 0))] [] .nil [] none none []
    [("forward", forwardDecl)] true

def c4run : Except JitErr (ConcreteMT × Module × Store) :=
  infer_raw_concrete_type 6 Store.init mC4

/-- Claim C4, witness at a concrete input. -/
theorem claim4_null_param_dropped_witness :
    "p" ∉ (okICT c4run).attrs.map Prod.fst ∧
    process_constants mC4 ["p"] (junkCT, [], Store.init) ≠
      .error (.unsupportedConstant "p" "NoneType") :=
  let H := claim4_null_param_dropped 6 Store.init mC4 "p" (okICT c4run)
    (okIMod c4run) (okISt c4run) (by decide) (by decide) (by decide) (by decide)
    (by decide) rfl
  ⟨H.1, H.2 ["p"] (junkCT, [], Store.init) "NoneType"⟩

/-! ### The `added_names` set at the constants loop (for claim C5) -/

@[simp] theorem annots_setSubmods (m : Module) (s : SubmoduleList) :
    (m.setSubmods s).annots = m.annots := by cases m; rfl

@[simp] theorem constantsDecl_setSubmods (m : Module) (s : SubmoduleList) :
    (m.setSubmods s).constantsDecl = m.constantsDecl := by cases m; rfl

@[simp] theorem effective_constants_setSubmods (m : Module) (s : SubmoduleList) :
    effective_constants (m.setSubmods s) = effective_constants m := by
  simp [effective_constants]

theorem add_tensor_attrs_added {m : Module} {l : List (String × Option PyVal)}
    {isP : Bool} {ct : ConcreteMT} {added : List String} {ct2 : ConcreteMT}
    {added2 : List String}
    (h : add_tensor_attrs m l isP ct added = .ok (ct2, added2)) :
    added2 = added ++ someKeys l := by
  induction l generalizing ct added with
  | nil =>
    simp only [add_tensor_attrs, Except.ok.injEq, Prod.mk.injEq] at h
    rw [← h.2]
    simp [someKeys]
  | cons hd tl ih =>
    obtain ⟨n, v⟩ := hd
    cases v with
    | none => rw [ih h]; simp [someKeys]
    | some v =>
      cases v <;> simp only [add_tensor_attrs] at h <;> try exact (by cases h)
      case vTensor t =>
        rw [ih h]
        simp [someKeys]

theorem infer_submodules_added : ∀ {n : Nat} {st : Store} {m : Module}
    {subs : SubmoduleList} {ct : ConcreteMT} {added : List String}
    {ct2 : ConcreteMT} {subs2 : SubmoduleList} {added2 : List String} {st2 : Store},
    infer_submodules n st m subs ct added = .ok (ct2, subs2, added2, st2) →
    added2 = added ++ subs.keys := by
  intro n
  induction n with
  | zero => intro _ _ _ _ _ _ _ _ _ h; cases h
  | succ n ih =>
    intro st m subs ct added ct2 subs2 added2 st2 h
    cases subs with
    | nil => rw [infer_submodules] at h; cases h; simp [SubmoduleList.keys]
    | cons nm item t =>
      rw [infer_submodules] at h
      split at h
      · simp only [except_bind_ok_iff, except_pure_eq, Except.ok.injEq,
          Prod.mk.injEq] at h
        obtain ⟨⟨ctR, tR, addedR, stR⟩, hrec, _, _, hadd, _⟩ := h
        subst hadd
        rw [ih hrec]
        simp [SubmoduleList.keys]
      · simp only [except_bind_ok_iff, except_pure_eq, Except.ok.injEq,
          Prod.mk.injEq] at h
        obtain ⟨⟨subCt, item2, stX⟩, _, ⟨ctR, tR, addedR, stR⟩, hrec, _, _, hadd, _⟩ := h
        subst hadd
        rw [ih hrec]
        simp [SubmoduleList.keys]

/-- In a successful inference run, the constants loop runs over the merged
declared-plus-Final constant names, and the already-classified set it
starts from is exactly: non-null parameters, non-null buffers, submodule
names. -/
theorem infer_raw_constants_invocation {k : Nat} {st : Store} {m : Module}
    {ct : ConcreteMT} {m2 : Module} {st2 : Store}
    (h : infer_raw_concrete_type (k+1) st m = .ok (ct, m2, st2)) :
    ∃ subs2 ct3 stA out,
      process_constants
        (if (m.setSubmods subs2).constantsDecl.isSome
         then (m.setSubmods subs2).setConstantsDecl (some (effective_constants m))
         else m.setSubmods subs2)
        (effective_constants m)
        (ct3, classified_before_constants m, stA) = .ok out := by
  rw [infer_raw_concrete_type] at h
  split at h
  · cases h
  · simp only [except_bind_ok_iff, except_pure_eq, Except.ok.injEq,
      Prod.mk.injEq] at h
    obtain ⟨⟨ct1, added1⟩, h1, ⟨ct2x, added2⟩, h2, ⟨ct3, subs2, added3, stA⟩, h3,
      ⟨ct4, added4, stB⟩, h4, _, _, _⟩ := h
    have e1 := add_tensor_attrs_added h1
    have e2 := add_tensor_attrs_added h2
    have e3 := infer_submodules_added h3
    rw [e2, e1] at e3
    have hadded : added3 = classified_before_constants m := by
      rw [e3]
      simp [classified_before_constants]
    dsimp only at h4
    rw [hadded] at h4
    rw [effective_constants_setSubmods] at h4
    exact ⟨subs2, ct3, stA, (ct4, added4, stB), h4⟩

/-! ### Validity of constants versus the spec predicate (for claim C5) -/

mutual
theorem get_valid_constant_ok_iff : ∀ (a : String) (v : PyVal),
    (∃ w, get_valid_constant a v = .ok w) ↔ constant_representable v = true
  | a, .vBool b => by simp [get_valid_constant, constant_representable]
  | a, .vFloat q => by simp [get_valid_constant, constant_representable]
  | a, .vInt i => by simp [get_valid_constant, constant_representable]
  | a, .vStr s => by simp [get_valid_constant, constant_representable]
  | a, .vNone => by simp [get_valid_constant, constant_representable]
  | a, .vFunc f => by simp [get_valid_constant, constant_representable]
  | a, .vDevice d => by simp [get_valid_constant, constant_representable]
  | a, .vLayout l => by simp [get_valid_constant, constant_representable]
  | a, .vDtype d => by simp [get_valid_constant, constant_representable]
  | a, .vBoundMethod f => by simp [get_valid_constant, constant_representable]
  | a, .vTensor t => by simp [get_valid_constant, constant_representable]
  | a, .vScriptFn f t => by simp [get_valid_constant, constant_representable]
  | a, .vJitAttr an v => by simp [get_valid_constant, constant_representable]
  | a, .vOther s t => by simp [get_valid_constant, constant_representable]
  | a, .vTuple l => by
      rw [show constant_representable (.vTuple l) = constant_representable_list l
        from rfl]
      rw [← get_valid_constant_list_ok_iff a l]
      constructor
      · rintro ⟨w, hw⟩
        simp only [get_valid_constant, except_bind_ok_iff, except_pure_eq] at hw
        obtain ⟨wl, hwl, _⟩ := hw
        exact ⟨wl, hwl⟩
      · rintro ⟨wl, hwl⟩
        refine ⟨.vTuple wl, ?_⟩
        simp only [get_valid_constant, except_bind_ok_iff, except_pure_eq]
        exact ⟨wl, hwl, rfl⟩
  | a, .vList l => by
      rw [show constant_representable (.vList l) = constant_representable_list l
        from rfl]
      rw [← get_valid_constant_list_ok_iff a l]
      constructor
      · rintro ⟨w, hw⟩
        simp only [get_valid_constant, except_bind_ok_iff, except_pure_eq] at hw
        obtain ⟨wl, hwl, _⟩ := hw
        exact ⟨wl, hwl⟩
      · rintro ⟨wl, hwl⟩
        refine ⟨.vTuple wl, ?_⟩
        simp only [get_valid_constant, except_bind_ok_iff, except_pure_eq]
        exact ⟨wl, hwl, rfl⟩
theorem get_valid_constant_list_ok_iff : ∀ (a : String) (l : PyValList),
    (∃ w, get_valid_constant_list a l = .ok w) ↔
      constant_representable_list l = true
  | a, .nil => by simp [get_valid_constant_list, constant_representable_list]
  | a, .cons v t => by
      rw [show constant_representable_list (.cons v t) =
        (constant_representable v && constant_representable_list t) from rfl]
      constructor
      · rintro ⟨w, hw⟩
        simp only [get_valid_constant_list, except_bind_ok_iff, except_pure_eq] at hw
        obtain ⟨w1, hw1, w2, hw2, _⟩ := hw
        rw [Bool.and_eq_true]
        exact ⟨(get_valid_constant_ok_iff a v).mp ⟨w1, hw1⟩,
          (get_valid_constant_list_ok_iff a t).mp ⟨w2, hw2⟩⟩
      · intro hr
        rw [Bool.and_eq_true] at hr
        obtain ⟨w1, hw1⟩ := (get_valid_constant_ok_iff a v).mpr hr.1
        obtain ⟨w2, hw2⟩ := (get_valid_constant_list_ok_iff a t).mpr hr.2
        refine ⟨.cons w1 w2, ?_⟩
        simp only [get_valid_constant_list, except_bind_ok_iff, except_pure_eq]
        exact ⟨w1, hw1, w2, hw2, rfl⟩
end

/-! ### Claim C5 -/

def childClassC5 : PyClass := ⟨4, "ChildC5", false, false, false, false, false⟩

def childC5 : Module := .mk childClassC5 [] [] .nil [] none none [] [] true

/-- A module whose declared constant `s` names a submodule. -/
def mC5 : Module :=
  .mk exampleClass [] [] (.cons "s" (.plain childC5) .nil) [] (some ["s"]) none [] [] true

def c5run : Except JitErr (ConcreteMT × Module × Store) :=
  infer_raw_concrete_type 6 Store.init mC5

/-- Claim C5, counterexample to the claim as stated: the claim allows a
silent skip only for names already classified as parameters or buffers and
otherwise demands UnsupportedConstantError exactly when the value is not
constant-representable.  On `mC5` the declared constant `s` names a
submodule — present on the instance and certainly not
constant-representable — yet inference succeeds with no error and no
warning, because `added_names` at the constants loop also contains all
submodule names (lines 116-126 and 136-141). -/
theorem claim5_counterexample :
    c5run = .ok (okICT c5run, okIMod c5run, okISt c5run) ∧
    lookupA (okICT c5run).constants "s" = none ∧
    (okISt c5run).warnings_log = [] ∧
    "s" ∈ effective_constants mC5 ∧
    mC5.hasattrB "s" = true :=
  ⟨rfl, by decide, by decide, by decide, by decide⟩

/-- Claim C5 (amended): for every declared constant name processed during
inference: if the name was already classified as a parameter, buffer or
submodule it is skipped silently; if it is declared but the instance lacks
the attribute, a non-fatal warning is emitted and the constant map omits
it; otherwise the attribute value is fetched and inference fails with
UnsupportedConstantError naming the offending attribute and value type if
and only if the value is not constant-representable (boolean, float,
integer, string, null, a plain function reference, a backend
scalar-metadata tag, or a list/tuple recursively composed of such values);
moreover in every successful inference run the already-classified set at
the constants loop is exactly the non-null parameters, non-null buffers and
submodule names. -/
theorem claim5_constants_amended (m : Module) (ct : ConcreteMT)
    (added : List String) (st : Store) (nm : String) :
    (nm ∈ added → process_constant m (ct, added, st) nm = .ok (ct, added, st)) ∧
    (nm ∉ added → m.hasattrB nm = false →
      process_constant m (ct, added, st) nm =
        .ok (ct, added, st.addWarning (constMissingWarning nm))) ∧
    (∀ v, nm ∉ added → m.getattrOpt nm = some v →
      (((∃ e, process_constant m (ct, added, st) nm = .error e) ↔
         constant_representable v = false) ∧
       (∀ e, process_constant m (ct, added, st) nm = .error e →
         ∃ t, e = .unsupportedConstant nm t) ∧
       (constant_representable v = true →
         ∃ v2, get_valid_constant nm v = .ok v2 ∧
           process_constant m (ct, added, st) nm =
             .ok (ct.add_constant nm v2, added ++ [nm], st)))) ∧
    (∀ k st0 ct2 m2 st2,
      infer_raw_concrete_type (k+1) st0 m = .ok (ct2, m2, st2) →
      ∃ subs2 ct3 stA out,
        process_constants
          (if (m.setSubmods subs2).constantsDecl.isSome
           then (m.setSubmods subs2).setConstantsDecl
              (some (effective_constants m))
           else m.setSubmods subs2)
          (effective_constants m)
          (ct3, classified_before_constants m, stA) = .ok out) := by
  refine ⟨?_, ?_, ?_, fun k st0 ct2 m2 st2 h => infer_raw_constants_invocation h⟩
  · intro hmem
    simp [process_constant, hmem]
  · intro hmem hatt
    simp [process_constant, hmem, hatt]
  · intro v hmem hget
    have hatt : m.hasattrB nm = true := by
      simp [Module.hasattrB, hget]
    have hstep : process_constant m (ct, added, st) nm =
        (get_valid_constant nm v).bind
          (fun v2 => .ok (ct.add_constant nm v2, added ++ [nm], st)) := by
      simp only [process_constant, hmem, if_false, hatt, Bool.not_eq_true]
      rw [hget]
      simp [Bind.bind, Except.bind]
    cases hgvc : get_valid_constant nm v with
    | ok w =>
      have hrep : constant_representable v = true :=
        (get_valid_constant_ok_iff nm v).mp ⟨w, hgvc⟩
      refine ⟨?_, ?_, ?_⟩
      · rw [hstep, hgvc]
        simp [Except.bind, hrep]
      · intro e he
        rw [hstep, hgvc] at he
        simp [Except.bind] at he
      · intro _
        refine ⟨w, rfl, ?_⟩
        rw [hstep, hgvc]
        rfl
    | error e0 =>
      have hrep : constant_representable v = false := by
        cases hr : constant_representable v
        · rfl
        · obtain ⟨w, hw⟩ := (get_valid_constant_ok_iff nm v).mpr hr
          rw [hw] at hgvc
          cases hgvc
      refine ⟨?_, ?_, ?_⟩
      · rw [hstep, hgvc]
        simp [Except.bind, hrep]
      · intro e he
        rw [hstep, hgvc] at he
        simp only [Except.bind, Except.error.injEq] at he
        subst he
        exact get_valid_constant_err_shape _ _ _ hgvc
      · intro hr
        rw [hr] at hrep
        cases hrep

/-- Claim C5 amended, witness at concrete inputs. -/
theorem claim5_constants_amended_witness :
    process_constant mC5 (junkCT, ["s"], Store.init) "s" =
      .ok (junkCT, ["s"], Store.init) ∧
    constant_representable (.vTensor 5) = false ∧
    process_constant badChild (junkCT, [], Store.init) "k" =
      .error (.unsupportedConstant "k" "Tensor") :=
  let H := claim5_constants_amended mC5 junkCT ["s"] Store.init "s"
  ⟨H.1 (by decide), by decide, by decide⟩

/-! ### Which submodule entries end up in the module list (for claim C6) -/

def Ty.isInterface : Ty → Bool
  | .interfaceTy _ => true
  | _ => false

@[simp] theorem mods_add_attribute (ct : ConcreteMT) (n : String) (t : Option Ty)
    (p : Bool) : (ct.add_attribute n t p).mods = ct.mods := by cases ct; rfl

@[simp] theorem mods_add_constant (ct : ConcreteMT) (n : String) (v : PyVal) :
    (ct.add_constant n v).mods = ct.mods := by cases ct; rfl

@[simp] theorem mods_add_function_attribute (ct : ConcreteMT) (n : String)
    (t : Option Ty) (f : FuncDef) :
    (ct.add_function_attribute n t f).mods = ct.mods := by cases ct; rfl

@[simp] theorem mods_add_failed_attribute (ct : ConcreteMT) (n hint : String) :
    (ct.add_failed_attribute n hint).mods = ct.mods := by cases ct; rfl

@[simp] theorem mods_add_overload (ct : ConcreteMT) (n : String) (l : List String) :
    (ct.add_overload n l).mods = ct.mods := by cases ct; rfl

@[simp] theorem mods_add_module_interface (ct : ConcreteMT) (n : String) (t : Ty) :
    (ct.add_module_interface n t).mods = ct.mods.append n (.iface t) := by
  cases ct; rfl

@[simp] theorem mods_add_module (ct : ConcreteMT) (n : String) (s : ConcreteMT) :
    (ct.add_module n s).mods = ct.mods.append n (.sub s) := by cases ct; rfl

@[simp] theorem mods_base (c : PyClass) : (ConcreteMT.base c).mods = .nil := rfl

theorem ctmodules_find_append : ∀ (ms : CTModules) (n : String) (e : CTEntry)
    (k : String), (ms.append n e).find? k =
      match ms.find? k with
      | some x => some x
      | none => if n = k then some e else none
  | .nil, n, e, k => by simp [CTModules.append, CTModules.find?]
  | .cons n0 e0 t, n, e, k => by
      by_cases h0 : n0 = k
      · simp [CTModules.append, CTModules.find?, h0]
      · simp only [CTModules.append, CTModules.find?, if_neg h0]
        exact ctmodules_find_append t n e k

theorem mods_add_tensor_attrs {m : Module} {l : List (String × Option PyVal)}
    {isP : Bool} {ct : ConcreteMT} {added : List String} {ct2 : ConcreteMT}
    {added2 : List String}
    (h : add_tensor_attrs m l isP ct added = .ok (ct2, added2)) :
    ct2.mods = ct.mods := by
  induction l generalizing ct added with
  | nil =>
    simp only [add_tensor_attrs, Except.ok.injEq, Prod.mk.injEq] at h
    rw [← h.1]
  | cons hd tl ih =>
    obtain ⟨n, v⟩ := hd
    cases v with
    | none => exact ih h
    | some v =>
      cases v <;> simp only [add_tensor_attrs] at h <;> try exact (by cases h)
      case vTensor t => rw [ih h]; simp

theorem mods_process_constant {m : Module} {acc : ConcreteMT × List String × Store}
    {n : String} {acc2 : ConcreteMT × List String × Store}
    (h : process_constant m acc n = .ok acc2) : acc2.1.mods = acc.1.mods := by
  obtain ⟨ct, added, st⟩ := acc
  simp only [process_constant] at h
  split at h
  · cases h; rfl
  · split at h
    · cases h; rfl
    · split at h
      · cases h
      · simp only [except_bind_ok_iff, except_pure_eq, Except.ok.injEq] at h
        obtain ⟨v2, _, h2⟩ := h
        rw [← h2]
        simp

theorem mods_process_constants {m : Module} {names : List String}
    {acc acc2 : ConcreteMT × List String × Store}
    (h : process_constants m names acc = .ok acc2) : acc2.1.mods = acc.1.mods := by
  induction names generalizing acc with
  | nil => simp only [process_constants, List.foldlM] at h; cases h; rfl
  | cons hd tl ih =>
    simp only [process_constants, List.foldlM, except_bind_ok_iff] at h
    obtain ⟨acc1, h1, h2⟩ := h
    exact (ih (by simpa [process_constants] using h2)).trans (mods_process_constant h1)

theorem mods_add_overloads (ct : ConcreteMT) (l : List (String × List String)) :
    (add_overloads ct l).mods = ct.mods := by
  induction l generalizing ct with
  | nil => rfl
  | cons hd tl ih => simp [add_overloads, List.foldl] at ih ⊢; rw [ih]; simp

theorem mods_scan_remaining_step (m : Module) (added : List String)
    (ct : ConcreteMT) (r : RestAttr) :
    (scan_remaining_step m added ct r).mods = ct.mods := by
  unfold scan_remaining_step
  repeat' split
  all_goals simp

theorem mods_scan_remaining (m : Module) (added : List String) (ct : ConcreteMT) :
    (scan_remaining m added ct).mods = ct.mods := by
  show (m.rest.foldl (scan_remaining_step m added) ct).mods = ct.mods
  induction m.rest generalizing ct with
  | nil => rfl
  | cons hd tl ih =>
    simp only [List.foldl]
    rw [ih, mods_scan_remaining_step]

/-- The submodule loop never disturbs an entry that is already present
(appends go at the end and lookup takes the first match). -/
theorem infer_submodules_mods_preserve : ∀ {n : Nat} {st : Store} {m : Module}
    {subs : SubmoduleList} {ct : ConcreteMT} {added : List String}
    {ct2 : ConcreteMT} {subs2 : SubmoduleList} {added2 : List String} {st2 : Store},
    infer_submodules n st m subs ct added = .ok (ct2, subs2, added2, st2) →
    ∀ k x, ct.mods.find? k = some x → ct2.mods.find? k = some x := by
  intro n
  induction n with
  | zero => intro _ _ _ _ _ _ _ _ _ h; cases h
  | succ n ih =>
    intro st m subs ct added ct2 subs2 added2 st2 h
    cases subs with
    | nil => rw [infer_submodules] at h; cases h; exact fun _ _ hx => hx
    | cons nm item t =>
      rw [infer_submodules] at h
      split at h
      · simp only [except_bind_ok_iff, except_pure_eq, Except.ok.injEq,
          Prod.mk.injEq] at h
        obtain ⟨⟨ctR, tR, addedR, stR⟩, hrec, hct, _, _, _⟩ := h
        subst hct
        intro k x hx
        refine ih hrec k x ?_
        rw [mods_add_module_interface, ctmodules_find_append, hx]
      · simp only [except_bind_ok_iff, except_pure_eq, Except.ok.injEq,
          Prod.mk.injEq] at h
        obtain ⟨⟨subCt, item2, stX⟩, _, ⟨ctR, tR, addedR, stR⟩, hrec, hct, _, _, _⟩ := h
        subst hct
        intro k x hx
        refine ih hrec k x ?_
        rw [mods_add_module, ctmodules_find_append, hx]

/-- Characterization of the entry the submodule loop records for a name:
an interface entry with the translated annotation type when the annotation
translates, and a nested concrete type otherwise. -/
theorem infer_submodules_entry : ∀ {n : Nat} {st : Store} {m : Module}
    {subs : SubmoduleList} {ct : ConcreteMT} {added : List String}
    {ct2 : ConcreteMT} {subs2 : SubmoduleList} {added2 : List String} {st2 : Store},
    infer_submodules n st m subs ct added = .ok (ct2, subs2, added2, st2) →
    ∀ nm sub, subs.find? nm = some sub → ct.mods.find? nm = none →
    (∀ t, infer_type_mod m nm = some t → ct2.mods.find? nm = some (.iface t)) ∧
    (infer_type_mod m nm = none → ∃ c, ct2.mods.find? nm = some (.sub c)) := by
  intro n
  induction n with
  | zero => intro _ _ _ _ _ _ _ _ _ h; cases h
  | succ n ih =>
    intro st m subs ct added ct2 subs2 added2 st2 h
    cases subs with
    | nil => intro nm sub hfind; cases hfind
    | cons nm0 item t =>
      intro nm sub hfind hnone
      by_cases hnm : nm0 = nm
      · subst hnm
        rw [infer_submodules] at h
        split at h
        · next ty hty =>
          simp only [except_bind_ok_iff, except_pure_eq, Except.ok.injEq,
            Prod.mk.injEq] at h
          obtain ⟨⟨ctR, tR, addedR, stR⟩, hrec, hct, _, _, _⟩ := h
          subst hct
          have hentry : (ct.add_module_interface nm0 ty).mods.find? nm0 =
              some (.iface ty) := by
            rw [mods_add_module_interface, ctmodules_find_append, hnone]
            simp
          have hpres := infer_submodules_mods_preserve hrec _ _ hentry
          constructor
          · intro t2 ht2
            rw [hty] at ht2
            injection ht2 with ht2
            subst ht2
            exact hpres
          · intro hcon
            rw [hty] at hcon
            cases hcon
        · next hty =>
          simp only [except_bind_ok_iff, except_pure_eq, Except.ok.injEq,
            Prod.mk.injEq] at h
          obtain ⟨⟨subCt, item2, stX⟩, _, ⟨ctR, tR, addedR, stR⟩, hrec, hct, _, _, _⟩ := h
          subst hct
          have hentry : (ct.add_module nm0 subCt).mods.find? nm0 =
              some (.sub subCt) := by
            rw [mods_add_module, ctmodules_find_append, hnone]
            simp
          have hpres := infer_submodules_mods_preserve hrec _ _ hentry
          constructor
          · intro t2 ht2
            rw [hty] at ht2
            cases ht2
          · intro _
            exact ⟨subCt, hpres⟩
      · rw [infer_submodules] at h
        simp only [SubmoduleList.find?, if_neg hnm] at hfind
        split at h
        · simp only [except_bind_ok_iff, except_pure_eq, Except.ok.injEq,
            Prod.mk.injEq] at h
          obtain ⟨⟨ctR, tR, addedR, stR⟩, hrec, hct, _, _, _⟩ := h
          subst hct
          refine ih hrec nm sub hfind ?_
          rw [mods_add_module_interface, ctmodules_find_append, hnone, if_neg hnm]
        · simp only [except_bind_ok_iff, except_pure_eq, Except.ok.injEq,
            Prod.mk.injEq] at h
          obtain ⟨⟨subCt, item2, stX⟩, _, ⟨ctR, tR, addedR, stR⟩, hrec, hct, _, _, _⟩ := h
          subst hct
          refine ih hrec nm sub hfind ?_
          rw [mods_add_module, ctmodules_find_append, hnone, if_neg hnm]

/-! ### Determinism and stability of method selection (for claim C7) -/

@[simp] theorem methods_setOverloadsDecl (m : Module)
    (o : Option (List (String × List String))) :
    (m.setOverloadsDecl o).methods = m.methods := by cases m; rfl

@[simp] theorem inited_setOverloadsDecl (m : Module)
    (o : Option (List (String × List String))) :
    (m.setOverloadsDecl o).inited = m.inited := by cases m; rfl

@[simp] theorem overloadsDecl_setOverloadsDecl (m : Module)
    (o : Option (List (String × List String))) :
    (m.setOverloadsDecl o).overloadsDecl = o := by cases m; rfl

theorem setOverloadsDecl_setOverloadsDecl (m : Module)
    (o o2 : Option (List (String × List String))) :
    (m.setOverloadsDecl o).setOverloadsDecl o2 = m.setOverloadsDecl o2 := by
  cases m; rfl

theorem lookupA_dictSet_self {α : Type} : ∀ (d : List (String × α)) (k : String)
    (v : α), lookupA (dictSet d k v) k = some v
  | [], k, v => by simp [dictSet, lookupA]
  | (n, w) :: t, k, v => by
      by_cases h : n = k
      · simp [dictSet, lookupA, h]
      · simp only [dictSet, if_neg h, lookupA, if_neg h]
        exact lookupA_dictSet_self t k v

theorem dictSet_lookup_eq {α : Type} : ∀ {d : List (String × α)} {k : String}
    {v : α}, lookupA d k = some v → dictSet d k v = d
  | [], k, v, h => by simp [lookupA] at h
  | (n, w) :: t, k, v, h => by
      by_cases hn : n = k
      · subst hn
        simp only [lookupA, if_true, eq_self_iff_true, Option.some.injEq] at h
        simp [dictSet, h]
      · simp only [lookupA, if_neg hn] at h
        simp [dictSet, if_neg hn, dictSet_lookup_eq h]

theorem lookupA_dictSet_ne {α : Type} : ∀ (d : List (String × α)) (k : String)
    (v : α) (x : String), k ≠ x →
    lookupA (dictSet d k v) x = lookupA d x
  | [], k, v, x, h => by simp [dictSet, lookupA, h]
  | (n, w) :: t, k, v, x, h => by
      by_cases hn : n = k
      · subst hn
        simp [dictSet, lookupA, h]
      · simp only [dictSet, if_neg hn, lookupA]
        by_cases hx : n = x
        · simp [hx]
        · simp only [if_neg hx]
          exact lookupA_dictSet_ne t k v x h

theorem lookupA_dict_update_not_mem {α : Type} :
    ∀ (upd : List (String × α)) (base : List (String × α)) (k : String),
    k ∉ upd.map Prod.fst →
    lookupA (dict_update base upd) k = lookupA base k
  | [], base, k, _ => rfl
  | (n, v) :: t, base, k, h => by
      simp only [List.map, List.mem_cons, not_or] at h
      show lookupA (dict_update (dictSet base n v) t) k = lookupA base k
      rw [lookupA_dict_update_not_mem t _ k h.2,
        lookupA_dictSet_ne base n v k (fun hh => h.1 hh.symm)]

theorem dict_update_idem {α : Type} : ∀ (upd base : List (String × α)),
    (upd.map Prod.fst).Nodup →
    dict_update (dict_update base upd) upd = dict_update base upd
  | [], base, _ => rfl
  | (n, v) :: t, base, h => by
      simp only [List.map, List.nodup_cons] at h
      show dict_update (dictSet (dict_update (dictSet base n v) t) n v) t =
        dict_update (dictSet base n v) t
      have hl : lookupA (dict_update (dictSet base n v) t) n = some v := by
        rw [lookupA_dict_update_not_mem t _ n h.1, lookupA_dictSet_self]
      rw [dictSet_lookup_eq hl]
      exact dict_update_idem t _ h.2

theorem lookupA_isSome_iff_mem {α : Type} : ∀ (d : List (String × α)) (k : String),
    (lookupA d k).isSome = true ↔ k ∈ d.map Prod.fst
  | [], k => by simp [lookupA]
  | (n, w) :: t, k => by
      by_cases h : n = k
      · simp [lookupA, h]
      · simp only [lookupA, if_neg h, List.map, List.mem_cons]
        rw [lookupA_isSome_iff_mem t k]
        constructor
        · exact .inr
        · rintro (rfl | hm)
          · exact absurd rfl h
          · exact hm

theorem nodup_append_single {l : List String} {k : String} (h : l.Nodup)
    (hk : k ∉ l) : (l ++ [k]).Nodup := by
  induction l with
  | nil => simp
  | cons a t ih =>
    simp only [List.nodup_cons, List.cons_append, List.mem_append,
      List.mem_singleton] at h ⊢
    refine ⟨?_, ih h.2 fun hm => hk (List.mem_cons_of_mem a hm)⟩
    rintro (hm | rfl)
    · exact h.1 hm
    · exact hk (List.mem_cons_self a t)

theorem keys_dict_append {α : Type} : ∀ (d : List (String × List α)) (k : String)
    (v : α), (dict_append d k v).map Prod.fst =
      if k ∈ d.map Prod.fst then d.map Prod.fst else d.map Prod.fst ++ [k]
  | [], k, v => by simp [dict_append]
  | (n, ws) :: t, k, v => by
      by_cases h : n = k
      · subst h
        simp [dict_append]
      · simp only [dict_append, if_neg h, List.map, keys_dict_append t k v,
          List.mem_cons]
        have hkn : ¬ (k = n) := fun hh => h hh.symm
        by_cases hm : k ∈ t.map Prod.fst
        · simp [hm, hkn]
        · simp [hm, hkn]

theorem keys_ensureKey {α : Type} (d : List (String × List α)) (k : String) :
    (ensureKey d k).map Prod.fst =
      if k ∈ d.map Prod.fst then d.map Prod.fst else d.map Prod.fst ++ [k] := by
  unfold ensureKey
  by_cases h : k ∈ d.map Prod.fst
  · rw [if_pos ((lookupA_isSome_iff_mem d k).mpr h), if_pos h]
  · rw [if_neg (fun hh => h ((lookupA_isSome_iff_mem d k).mp hh)), if_neg h]
    simp

theorem nodup_keys_dict_append {α : Type} {d : List (String × List α)}
    (k : String) (v : α) (h : (d.map Prod.fst).Nodup) :
    ((dict_append d k v).map Prod.fst).Nodup := by
  rw [keys_dict_append]
  split
  · exact h
  · next hk => exact nodup_append_single h hk

theorem nodup_keys_ensureKey {α : Type} {d : List (String × List α)} (k : String)
    (h : (d.map Prod.fst).Nodup) : ((ensureKey d k).map Prod.fst).Nodup := by
  rw [keys_ensureKey]
  split
  · exact h
  · next hk => exact nodup_append_single h hk

theorem nodup_keys_inner_fold {k : String} :
    ∀ (l : List (String × FuncDef)) (acc : List (String × List String)),
    (acc.map Prod.fst).Nodup →
    ((l.foldl (fun acc2 onf => dict_append acc2 k onf.1) acc).map Prod.fst).Nodup
  | [], acc, h => h
  | onf :: t, acc, h => by
      simp only [List.foldl]
      exact nodup_keys_inner_fold t _ (nodup_keys_dict_append k onf.1 h)

theorem nodup_keys_outer_fold :
    ∀ (info : List (FuncDef × List (String × FuncDef)))
      (acc : List (String × List String)), (acc.map Prod.fst).Nodup →
    ((info.foldl
        (fun acc fi => fi.2.foldl (fun acc2 onf => dict_append acc2 fi.1.fname onf.1)
          (ensureKey acc fi.1.fname)) acc).map Prod.fst).Nodup
  | [], acc, h => h
  | fi :: t, acc, h => by
      simp only [List.foldl]
      exact nodup_keys_outer_fold t _
        (nodup_keys_inner_fold fi.2 _ (nodup_keys_ensureKey fi.1.fname h))

/-- The annotation-discovered overload mapping binds each original name
once: dict keys stay unique however many overloads share a base. -/
theorem nodup_keys_get_overload_name_mapping
    (info : List (FuncDef × List (String × FuncDef))) :
    ((get_overload_name_mapping info).map Prod.fst).Nodup :=
  nodup_keys_outer_fold info [] List.nodup_nil

theorem get_overload_annots_setOverloadsDecl (m : Module)
    (o : Option (List (String × List String))) :
    get_overload_annots (m.setOverloadsDecl o) = get_overload_annots m := by
  simp [get_overload_annots]

/-- Writing the merged overload map back onto the module (line 501) is a
fixed point: merging again on the updated module changes nothing. -/
theorem effective_overloads_stable (m : Module) :
    effective_overloads (m.setOverloadsDecl (some (effective_overloads m))) =
      effective_overloads m := by
  show dict_update
      ((m.setOverloadsDecl (some (effective_overloads m))).overloadsDecl.getD [])
      (get_overload_name_mapping
        (get_overload_annots (m.setOverloadsDecl (some (effective_overloads m))))) =
    effective_overloads m
  rw [get_overload_annots_setOverloadsDecl, overloadsDecl_setOverloadsDecl]
  exact dict_update_idem (get_overload_name_mapping (get_overload_annots m))
    (m.overloadsDecl.getD []) (nodup_keys_get_overload_name_mapping _)

theorem select_method_names_stable (m : Module) :
    select_method_names (m.setOverloadsDecl (some (effective_overloads m))) =
      select_method_names m := by
  simp [select_method_names, forward_rule, exported_names,
    effective_overloads_stable]

theorem make_stub_from_method_stable (m : Module)
    (o : Option (List (String × List String))) :
    make_stub_from_method (m.setOverloadsDecl o) = make_stub_from_method m := by
  funext nm
  simp [make_stub_from_method, get_function_from_type]

theorem dedup_first_core_nodup : ∀ (l acc : List String), acc.Nodup →
    (l.foldl (fun acc n => if n ∈ acc then acc else acc ++ [n]) acc).Nodup
  | [], _, h => h
  | n :: t, acc, h => by
      simp only [List.foldl]
      split
      · exact dedup_first_core_nodup t acc h
      · next hn => exact dedup_first_core_nodup t _ (nodup_append_single h hn)

theorem dedup_first_nodup (l : List String) : (dedup_first l).Nodup :=
  dedup_first_core_nodup l [] List.nodup_nil

theorem dedup_first_core_subset : ∀ (l acc : List String) (x : String),
    x ∈ l.foldl (fun acc n => if n ∈ acc then acc else acc ++ [n]) acc →
    x ∈ acc ∨ x ∈ l
  | [], _, _, h => .inl h
  | n :: t, acc, x, h => by
      simp only [List.foldl] at h
      rcases dedup_first_core_subset t _ x h with h2 | h2
      · split at h2
        · exact .inl h2
        · rcases List.mem_append.mp h2 with h3 | h3
          · exact .inl h3
          · rw [List.mem_singleton] at h3
            exact .inr (h3 ▸ List.mem_cons_self n t)
      · exact .inr (List.mem_cons_of_mem n h2)

theorem dedup_first_subset {l : List String} {x : String}
    (h : x ∈ dedup_first l) : x ∈ l := by
  rcases dedup_first_core_subset l [] x h with h2 | h2
  · cases h2
  · exact h2

theorem select_method_names_no_overload_base (m : Module) :
    ∀ nm ∈ select_method_names m, lookupA (effective_overloads m) nm = none := by
  intro nm hnm
  have h2 := dedup_first_subset hnm
  rw [List.mem_filter] at h2
  exact Option.isNone_iff_eq_none.mp h2.2

/-- A module with one submodule `s` whose class annotation is the plain
tensor type — a translatable annotation that names no interface. -/
def mC6 : Module :=
  .mk exampleClass [] [] (.cons "s" (.plain mSimple) .nil)
    [("s", .ofTy .tensor)] none none [] [] true

def c6run : Except JitErr (ConcreteMT × Module × Store) :=
  infer_raw_concrete_type 6 Store.init mC6

/-- Claim C6, counterexample to the claim as stated: the claim reserves the
interface-typed recording for annotations naming an abstract interface type,
but `infer_type` (lines 79-86) returns a successful inference for any
translatable class annotation and `infer_raw_concrete_type` (lines 116-126)
takes the `add_module_interface` branch on any such success: annotating
submodule `s` with the plain tensor type records `s` as an interface entry
carrying a type that is not an interface. -/
theorem claim6_counterexample :
    c6run = .ok (okICT c6run, okIMod c6run, okISt c6run) ∧
    (okICT c6run).mods.find? "s" = some (.iface Ty.tensor) ∧
    Ty.isInterface Ty.tensor = false := ⟨rfl, rfl, rfl⟩

/-- Claim C6, amended: inference records a named sub-component as an
interface-typed module entry if and only if the class annotation declared
for that name translates to a type at all (`infer_type` succeeding, lines
116-126 and 79-86) — whether or not that type is an abstract interface;
only when no annotation translates is the submodule typed by recursively
invoking the type-sharing cache and recorded as a nested concrete type. -/
theorem claim6_interface_amended (n : Nat) (st : Store) (m : Module)
    (ct : ConcreteMT) (m2 : Module) (st2 : Store) (nm : String) (sub : Component)
    (h : infer_raw_concrete_type n st m = .ok (ct, m2, st2))
    (hs : m.submods.find? nm = some sub) :
    (∀ t, infer_type_mod m nm = some t → ct.mods.find? nm = some (.iface t)) ∧
    (infer_type_mod m nm = none → ∃ c, ct.mods.find? nm = some (.sub c)) := by
  cases n with
  | zero => cases h
  | succ k =>
    rw [infer_raw_concrete_type] at h
    split at h
    · cases h
    · simp only [except_bind_ok_iff, except_pure_eq, Except.ok.injEq,
        Prod.mk.injEq] at h
      obtain ⟨⟨ct1, added1⟩, h1, ⟨ct2x, added2⟩, h2, ⟨ct3, subs2, added3, stA⟩, h3,
        ⟨ct4, added4, stB⟩, h4, hct, _, _⟩ := h
      have hnil : ct2x.mods = .nil := by
        rw [mods_add_tensor_attrs h2, mods_add_tensor_attrs h1, mods_base]
      have hnone : ct2x.mods.find? nm = none := by
        rw [hnil]; rfl
      have hchar := infer_submodules_entry h3 nm sub hs hnone
      dsimp only at h4
      have hmods : ct.mods = ct3.mods := by
        rw [← hct, mods_scan_remaining, mods_add_overloads,
          mods_process_constants h4]
      rw [hmods]
      exact hchar

/-- Claim C6, amended theorem at a concrete input: the tensor-annotated
submodule of `mC6` lands in the module map as an interface entry. -/
theorem claim6_interface_amended_witness :
    (okICT c6run).mods.find? "s" = some (.iface Ty.tensor) :=
  (claim6_interface_amended 6 Store.init mC6 (okICT c6run) (okIMod c6run)
    (okISt c6run) "s" (.plain mSimple) rfl rfl).1 Ty.tensor rfl

/-- Claim C7: compilation-root selection is deterministic.  The only state
`infer_methods_to_compile` touches is the module itself — line 501 writes
the merged overload map back onto `__overloads__` — so running the selector
a second time on the component a first run leaves behind reproduces the
exact stub list and ordered method-name list; the name list is deduplicated
by first occurrence and excludes every overload base name, and every
collection it iterates is an insertion-ordered list, never an unordered
set. -/
theorem claim7_selection_deterministic (m : Module)
    (stubs : List ScriptMethodStub) (m2 : Module)
    (h : infer_methods_to_compile m = .ok (stubs, m2)) :
    infer_methods_to_compile m2 = .ok (stubs, m2) ∧
    select_method_names m2 = select_method_names m ∧
    (select_method_names m).Nodup ∧
    ∀ nm ∈ select_method_names m, lookupA (effective_overloads m) nm = none := by
  have hm2 := infer_methods_to_compile_module_shape h
  subst hm2
  simp only [infer_methods_to_compile, except_bind_ok_iff, except_pure_eq,
    Except.ok.injEq, Prod.mk.injEq] at h
  obtain ⟨u, hinit, sl, hmap, hstubs, _⟩ := h
  have hi : m.inited = true := by
    by_cases hb : m.inited = true
    · exact hb
    · simp only [Bool.not_eq_true] at hb
      simp [check_module_initialized, hb] at hinit
  refine ⟨?_, select_method_names_stable m, dedup_first_nodup _,
    select_method_names_no_overload_base m⟩
  simp only [infer_methods_to_compile]
  rw [select_method_names_stable, make_stub_from_method_stable,
    get_overload_annots_setOverloadsDecl, effective_overloads_stable,
    setOverloadsDecl_setOverloadsDecl]
  have hinit2 : check_module_initialized
      (m.setOverloadsDecl (some (effective_overloads m))) = .ok () := by
    simp [check_module_initialized, hi]
  rw [hinit2, hmap]
  simp [Bind.bind, Except.bind, hstubs]

def ovMember : FuncDef := ⟨"m", 20, true, some .tensor⟩

def ovOverload : FuncDef := ⟨"m", 21, true, none⟩

/-- An exported method `m` carrying one `@_overload_method` declaration. -/
def ovDecl : MethodDecl :=
  { fn := ovMember, exported := true, ignored := false, baseDefault := false,
    hasModule := true, overloadDecls := [ovOverload] }

def mC7 : Module :=
  .mk exampleClass [] [] .nil [] none none []
    [("forward", forwardDecl), ("m", ovDecl)] true

def c7run : Except JitErr (List ScriptMethodStub × Module) :=
  infer_methods_to_compile mC7

def okStubs (r : Except JitErr (List ScriptMethodStub × Module)) :
    List ScriptMethodStub :=
  match r with
  | .ok (x, _) => x
  | _ => []

def okSMod (r : Except JitErr (List ScriptMethodStub × Module)) : Module :=
  match r with
  | .ok (_, x) => x
  | _ => junkModule

/-- Claim C7 at a concrete input: on a module with an exported overloaded
method, a second selector run on the module the first run returns is
byte-identical, the selected names are duplicate-free, and the overload
base name `m` is excluded (only `forward` survives). -/
theorem claim7_selection_deterministic_witness :
    infer_methods_to_compile (okSMod c7run) = .ok (okStubs c7run, okSMod c7run) ∧
    select_method_names (okSMod c7run) = select_method_names mC7 ∧
    (select_method_names mC7).Nodup ∧
    lookupA (effective_overloads mC7) "forward" = none :=
  have H := claim7_selection_deterministic mC7 (okStubs c7run) (okSMod c7run) rfl
  ⟨H.1, H.2.1, H.2.2.1, H.2.2.2 "forward" (by decide)⟩

/-! ### The compiled-method overlay of lines 396-418 (for claim C8) -/

theorem lookupA_dictSet_eq {α : Type} (d : List (String × α)) (k : String)
    (v : α) (x : String) :
    lookupA (dictSet d k v) x = if k = x then some v else lookupA d x := by
  by_cases h : k = x
  · subst h
    rw [if_pos rfl]
    exact lookupA_dictSet_self d k v
  · rw [if_neg h]
    exact lookupA_dictSet_ne d k v x h

theorem build_overlay_core_mem : ∀ (stubs : List ScriptMethodStub)
    (d : List (String × String)) (nm : String),
    (lookupA (stubs.foldl
        (fun d s =>
          match s.original_method with
          | none => d
          | some f => if f.fname ≠ s.defName then d else dictSet d f.fname s.defName)
        d) nm).isSome = true ↔
      ((lookupA d nm).isSome = true ∨
        ∃ s ∈ stubs, ∃ f, s.original_method = some f ∧ f.fname = s.defName ∧
          f.fname = nm)
  | [], d, nm => by simp [List.foldl]
  | s :: t, d, nm => by
      simp only [List.foldl]
      rw [build_overlay_core_mem t _ nm]
      cases hori : s.original_method with
      | none =>
        simp only [hori]
        constructor
        · rintro (h | ⟨s2, hs2, f, hf, hfd, hfn⟩)
          · exact .inl h
          · exact .inr ⟨s2, List.mem_cons_of_mem s hs2, f, hf, hfd, hfn⟩
        · rintro (h | ⟨s2, hs2, f, hf, hfd, hfn⟩)
          · exact .inl h
          · rcases List.mem_cons.mp hs2 with rfl | hs2
            · rw [hori] at hf
              cases hf
            · exact .inr ⟨s2, hs2, f, hf, hfd, hfn⟩
      | some f0 =>
        simp only [hori]
        by_cases heq : f0.fname = s.defName
        · rw [if_neg (fun hh => hh heq), lookupA_dictSet_eq]
          constructor
          · rintro (h | ⟨s2, hs2, f, hf, hfd, hfn⟩)
            · split at h
              · next hfx => exact .inr ⟨s, List.mem_cons_self s t, f0, hori, heq, hfx⟩
              · exact .inl h
            · exact .inr ⟨s2, List.mem_cons_of_mem s hs2, f, hf, hfd, hfn⟩
          · rintro (h | ⟨s2, hs2, f, hf, hfd, hfn⟩)
            · left
              split
              · rfl
              · exact h
            · rcases List.mem_cons.mp hs2 with rfl | hs2
              · rw [hori] at hf
                injection hf with hf
                subst hf
                left
                rw [if_pos hfn]
                rfl
              · exact .inr ⟨s2, hs2, f, hf, hfd, hfn⟩
        · rw [if_pos heq]
          constructor
          · rintro (h | ⟨s2, hs2, f, hf, hfd, hfn⟩)
            · exact .inl h
            · exact .inr ⟨s2, List.mem_cons_of_mem s hs2, f, hf, hfd, hfn⟩
          · rintro (h | ⟨s2, hs2, f, hf, hfd, hfn⟩)
            · exact .inl h
            · rcases List.mem_cons.mp hs2 with rfl | hs2
              · rw [hori] at hf
                injection hf with hf
                subst hf
                exact absurd hfd heq
              · exact .inr ⟨s2, hs2, f, hf, hfd, hfn⟩

theorem overlay_step_val {d : List (String × String)} (s : ScriptMethodStub)
    (hd : ∀ x y, lookupA d x = some y → y = x) :
    ∀ x y, lookupA (match s.original_method with
      | none => d
      | some f => if f.fname ≠ s.defName then d else dictSet d f.fname s.defName) x
        = some y → y = x := by
  cases hori : s.original_method with
  | none => exact hd
  | some f0 =>
    dsimp only
    by_cases heq : f0.fname = s.defName
    · rw [if_neg (fun hh => hh heq)]
      intro x y hxy
      rw [lookupA_dictSet_eq] at hxy
      split at hxy
      · next hfx =>
        injection hxy with hxy
        rw [← hxy, ← hfx, heq]
      · exact hd x y hxy
    · rw [if_pos heq]
      exact hd

theorem build_overlay_core_val : ∀ (stubs : List ScriptMethodStub)
    (d : List (String × String)),
    (∀ x y, lookupA d x = some y → y = x) →
    ∀ x y, lookupA (stubs.foldl
        (fun d s =>
          match s.original_method with
          | none => d
          | some f => if f.fname ≠ s.defName then d else dictSet d f.fname s.defName)
        d) x = some y → y = x
  | [], _, hd => hd
  | s :: t, d, hd => by
      simp only [List.foldl]
      exact build_overlay_core_val t _ (overlay_step_val s hd)

/-- A name is overlaid exactly when some stub has a surviving original
callable whose name equals the stub declaration name. -/
theorem build_overlay_mem (stubs : List ScriptMethodStub) (nm : String) :
    (lookupA (build_overlay stubs) nm).isSome = true ↔
      ∃ s ∈ stubs, ∃ f, s.original_method = some f ∧ f.fname = s.defName ∧
        f.fname = nm := by
  rw [build_overlay, build_overlay_core_mem]
  simp [lookupA]

/-- Every overlay binding sits under the plain method name itself. -/
theorem build_overlay_val (stubs : List ScriptMethodStub) :
    ∀ x y, lookupA (build_overlay stubs) x = some y → y = x :=
  build_overlay_core_val stubs [] (fun x y h => by simp [lookupA] at h)

/-- Claim C8: after `create_script_module_impl` finishes, the wrapper
overlay (lines 396-418) binds exactly the stubs whose original callable
exists and whose name matches the stub declaration name — synthetic stubs
with no original and overload-mangled stubs are skipped — and every
binding is installed under the plain method name itself, where lookups
find it first. -/
theorem claim8_overlay (n : Nat) (st : Store) (m : Module) (ct : ConcreteMT)
    (j : Nat) (stubs : List ScriptMethodStub) (sm : RSModule) (m2 : Module)
    (st2 : Store)
    (h : create_script_module_impl n st m ct j stubs = .ok (sm, m2, st2)) :
    (∀ nm, (lookupA sm.overlayDict nm).isSome = true ↔
      ∃ s ∈ stubs, ∃ f, s.original_method = some f ∧ f.fname = s.defName ∧
        f.fname = nm) ∧
    (∀ nm v, lookupA sm.overlayDict nm = some v → v = nm) := by
  cases n with
  | zero => cases h
  | succ k =>
    have hov := (create_script_module_impl_shape h).2.2.2.1
    rw [hov]
    exact ⟨fun nm => build_overlay_mem stubs nm, build_overlay_val stubs⟩

def ctC8 : ConcreteMT :=
  .mk exampleClass false false [] .nil [] [] [] [] false (some 0)

/-- A synthetic stub in the style of `define`: no original callable. -/
def definedStub : ScriptMethodStub :=
  { resolution_callback := 0, defName := "defined", original_method := none }

/-- An overload stub: the declared name is mangled away from the original
callable name. -/
def mangledStub : ScriptMethodStub :=
  { resolution_callback := 20, defName := "m__0", original_method := some ovOverload }

def c8stubs : List ScriptMethodStub :=
  [make_stub forwardFn, definedStub, mangledStub]

def c8run : Except JitErr (RSModule × Module × Store) :=
  create_script_module_impl 3 Store.init mSimple ctC8 0 c8stubs

/-- Claim C8 at a concrete input: of a genuine `forward` stub, a synthetic
stub and a mangled overload stub, only `forward` is overlaid, under its own
name. -/
theorem claim8_overlay_witness :
    lookupA (okRS c8run).overlayDict "forward" = some "forward" ∧
    lookupA (okRS c8run).overlayDict "m__0" = none ∧
    lookupA (okRS c8run).overlayDict "defined" = none := by
  have H := claim8_overlay 3 Store.init mSimple ctC8 0 c8stubs (okRS c8run)
    (okMod c8run) (okSt c8run) rfl
  refine ⟨?_, rfl, rfl⟩
  obtain ⟨v, hv⟩ := Option.isSome_iff_exists.mp
    ((H.1 "forward").mpr ⟨make_stub forwardFn, List.mem_cons_self _ _, forwardFn,
      rfl, rfl, rfl⟩)
  rw [hv, H.2 "forward" v hv]

/-! ### Type sharing across builds (for claim C1) -/

theorem find?_append_none {α : Type} {p : α → Bool} :
    ∀ {l1 : List α} (l2 : List α), l1.find? p = none →
      (l1 ++ l2).find? p = l2.find? p
  | [], l2, _ => rfl
  | a :: t, l2, h => by
      cases hpa : p a with
      | true => simp [List.find?_cons_of_pos, hpa] at h
      | false =>
        rw [List.find?_cons_of_neg _ (by simp [hpa])] at h
        rw [List.cons_append, List.find?_cons_of_neg _ (by simp [hpa])]
        exact find?_append_none l2 h

/-- The general path of `get_or_create_concrete_type` (lines 270-286) ends
with the class's list holding, as its first structural match for the raw
type, exactly the ConcreteType it returned — whether the lookup hit a
cached entry or the raw type was newly materialized and appended. -/
theorem gocm_first_match {n : Nat} {st : Store} {m : Module} {ct : ConcreteMT}
    {m2 : Module} {st2 : Store}
    (hc : containerClass m.cls = false)
    (h : get_or_create_concrete_type_m (n+1) st m = .ok (ct, m2, st2)) :
    ∃ raw stMid, infer_raw_concrete_type n st m = .ok (raw, m2, stMid) ∧
      raw.strip = ct.strip ∧ StoreLe stMid st2 ∧
      (st2.storeList m.cls.cid).find? (fun kt => raw.equals kt) = some ct := by
  rw [get_or_create_concrete_type_m] at h
  split at h
  · next hcc => rw [hc] at hcc; cases hcc
  · simp only [except_bind_ok_iff, except_pure_eq] at h
    obtain ⟨⟨raw, m2x, stMid⟩, hraw, h⟩ := h
    have hpois := ((master n).irc_ok _ _ _ _ _ hraw).2.2
    split at h
    · next kt hfind =>
      simp only [Except.ok.injEq, Prod.mk.injEq] at h
      obtain ⟨hct, hm2, hst⟩ := h
      subst hct hm2 hst
      exact ⟨raw, _, hraw, equals_iff_strip.mp (List.find?_some hfind),
        StoreLe.rfl _, hfind⟩
    · next hfind =>
      simp only [Except.ok.injEq, Prod.mk.injEq] at h
      obtain ⟨hct, hm2, hst⟩ := h
      subst hct hm2 hst
      refine ⟨raw, stMid, hraw, by rw [strip_withJit], ?_, ?_⟩
      · refine (StoreLe.storeAppend _ _ _ ?_).trans (StoreLe.bumpFresh _ _)
        rw [poisoned_withJit]
        exact hpois
      · have hsl : ({stMid.storeAppend m.cls.cid (raw.withJit stMid.fresh) with
            fresh := stMid.fresh + 1}).storeList m.cls.cid =
            (stMid.storeAppend m.cls.cid (raw.withJit stMid.fresh)).storeList
              m.cls.cid := rfl
        rw [hsl, storeList_storeAppend, if_pos rfl, find?_append_none _ hfind]
        rw [List.find?_cons_of_pos]
        exact equals_iff_strip.mpr (strip_withJit raw stMid.fresh).symm

/-- Claim C1: with components A and B of the same runtime class whose
inferred raw ConcreteTypes are structurally equal (identical classified
attributes, submodule type trees, constants and overload maps — everything
`ConcreteMT.strip` keeps), building B after building A returns the very
ConcreteType and backend type A received: B's lookup finds the cached
structurally equal entry, and the shared type's methods appear exactly once
in the whole compile log — they were compiled exactly once across both
builds. -/
theorem claim1_type_sharing (n : Nat) (A B : Module)
    (hcA : containerClass A.cls = false) (hcB : containerClass B.cls = false)
    (hcls : B.cls.cid = A.cls.cid)
    (stubsA stubsB : List ScriptMethodStub)
    (sm1 : RSModule) (A2 : Module) (st1 : Store)
    (h1 : create_script_module (n+2) Store.init A stubsA = .ok (sm1, A2, st1))
    (rawB : ConcreteMT) (B2 : Module) (st1B : Store)
    (hrB : infer_raw_concrete_type n st1 B = .ok (rawB, B2, st1B))
    (heq : rawB.equals sm1.concreteType = true)
    (sm2 : RSModule) (B3 : Module) (st2 : Store)
    (h2 : create_script_module (n+2) st1 B stubsB = .ok (sm2, B3, st2)) :
    sm2.concreteType = sm1.concreteType ∧
    sm2.cppType = sm1.cppType ∧
    (st2.storeList A.cls.cid).find? (fun kt => rawB.equals kt) =
      some sm1.concreteType ∧
    (st2.compile_log.map Prod.fst).count sm1.cppType = 1 := by
  have hcsm1 := ((master (n+2)).csm_ok _ _ _ _ _ _ h1).1
  have hcsm2 := ((master (n+2)).csm_ok _ _ _ _ _ _ h2).1
  rw [create_script_module] at h1
  simp only [except_bind_ok_iff, except_pure_eq] at h1
  obtain ⟨u1, hinitA, ⟨ctA, A2x, stGA⟩, hgA, h1⟩ := h1
  split at h1
  · cases h1
  · next jA hjA =>
    dsimp only at h1 hjA
    have himplA := create_script_module_impl_shape h1
    have hleGA := ((master (n+1)).impl_ok _ _ _ _ _ _ _ _ h1).1
    obtain ⟨rawA, stMidA, hrA, hstripA, hleMidA, hfmA⟩ := gocm_first_match hcA hgA
    rw [create_script_module] at h2
    simp only [except_bind_ok_iff, except_pure_eq] at h2
    obtain ⟨u2, hinitB, ⟨ctB, B2x, stGB⟩, hgB, h2⟩ := h2
    split at h2
    · cases h2
    · next jB hjB =>
      dsimp only at h2 hjB
      have hleGB := ((master (n+1)).impl_ok _ _ _ _ _ _ _ _ h2).1
      have hle1B : StoreLe st1 st1B := ((master n).irc_ok _ _ _ _ _ hrB).1
      have hstripB : rawB.strip = rawA.strip := by
        have hx : rawB.strip = sm1.concreteType.strip := equals_iff_strip.mp heq
        rw [himplA.1] at hx
        rw [hx, hstripA]
      have hpred : (fun kt => ConcreteMT.equals rawB kt) =
          (fun kt => ConcreteMT.equals rawA kt) :=
        funext fun kt => equals_congr_of_strip hstripB
      have hfmB : (st1B.storeList B.cls.cid).find?
          (fun kt => rawB.equals kt) = some ctA := by
        rw [hcls, hpred]
        exact find?_prefix_some (((hleGA.trans hle1B).1) A.cls.cid) hfmA
      rw [get_or_create_concrete_type_m] at hgB
      split at hgB
      · next hcc => rw [hcB] at hcc; cases hcc
      · simp only [except_bind_ok_iff, except_pure_eq] at hgB
        obtain ⟨⟨rawB', B2y, stMidB⟩, hrB', hgB⟩ := hgB
        have hsame := hrB.symm.trans hrB'
        simp only [Except.ok.injEq, Prod.mk.injEq] at hsame
        obtain ⟨e1, e2, e3⟩ := hsame
        subst e1 e2 e3
        split at hgB
        · next kt hkt =>
          rw [hfmB] at hkt
          injection hkt with hkt
          simp only [Except.ok.injEq, Prod.mk.injEq] at hgB
          obtain ⟨hctB, hB2, hstG⟩ := hgB
          have hctAB : ctB = ctA := by rw [← hctB, ← hkt]
          have himplB := create_script_module_impl_shape h2
          have hjAB : jB = jA := by
            rw [hctAB, hjA] at hjB
            injection hjB with hjB
            exact hjB.symm
          refine ⟨?_, ?_, ?_, ?_⟩
          · rw [himplB.1, hctAB, himplA.1]
          · rw [himplB.2.1, hjAB, himplA.2.1]
          · have hle2 : StoreLe st1B st2 := by rw [hstG]; exact hleGB
            rw [himplA.1, ← hcls]
            exact find?_prefix_some (hle2.1 B.cls.cid) hfmB
          · have hsync : st2.Sync := (hcsm1.trans hcsm2).2.2.2.1 sync_init
            have hmem : sm1.cppType ∈ st2.methods_compiled := by
              rw [himplA.2.1]
              exact mem_of_storeLe hcsm2 himplA.2.2.1
            rw [← hsync.1]
            exact List.count_eq_one_of_mem hsync.2 hmem
        · next hkt =>
          rw [hfmB] at hkt
          cases hkt

def c1runA : Except JitErr (RSModule × Module × Store) :=
  create_script_module 6 Store.init mSimple [make_stub forwardFn]

def c1rawB : Except JitErr (ConcreteMT × Module × Store) :=
  infer_raw_concrete_type 4 (okSt c1runA) mSimple

def c1runB : Except JitErr (RSModule × Module × Store) :=
  create_script_module 6 (okSt c1runA) mSimple [make_stub forwardFn]

/-- Claim C1 at a concrete input: building `mSimple` twice in a row shares
the concrete type and the backend type, the second lookup finds the cached
entry, and the compile log holds exactly one compilation of it. -/
theorem claim1_type_sharing_witness :
    (okRS c1runB).concreteType = (okRS c1runA).concreteType ∧
    (okRS c1runB).cppType = (okRS c1runA).cppType ∧
    ((okSt c1runB).storeList mSimple.cls.cid).find?
      (fun kt => (okICT c1rawB).equals kt) = some (okRS c1runA).concreteType ∧
    ((okSt c1runB).compile_log.map Prod.fst).count (okRS c1runA).cppType = 1 :=
  claim1_type_sharing 4 mSimple mSimple rfl rfl rfl
    [make_stub forwardFn] [make_stub forwardFn]
    (okRS c1runA) (okMod c1runA) (okSt c1runA) rfl
    (okICT c1rawB) (okIMod c1rawB) (okISt c1rawB) rfl rfl
    (okRS c1runB) (okMod c1runB) (okSt c1runB) rfl

end TorchJit
